import Mathlib

/-!
# LavaSH: a shallow embedding of `lavash.cpp`

The program reads one command line, lexes it (`Tokenizer::Tokenize`), builds a
vector of `BootKit` command descriptors (`FormBootKit` and the build loop of
`main`) and runs them (the executor loop of `main`).

Modelling conventions.

* A `std::string` is a `List Char`; the input stream `is_` is the list of the
  characters not yet read.  `is_.peek()`/`is_.get()` at the end of the stream
  give `EOF`, which is the empty-list case of a match.  A `Char` stands for
  one byte.  Where the source keeps the result of `get` in a `char` and then
  compares that `char` with `EOF` (the quoted-literal loop, source lines 69
  to 78), `char` is signed, as on x86-64: the `char` is promoted to
  `int`, so the character `eofChar` (byte 255, the value `(char)(-1)`)
  compares equal to `EOF` exactly as the end of the stream does.  Where the
  source tests `peek()` against `EOF` the test is on the `int` and only the
  end of the stream passes it.  When the source appends a `char` holding
  `EOF` to a word, the appended character is `eofChar`.
* The mutable members `tokens_` and `cur_token_` are passed explicitly.
* A C++ exception is a value of `Abort`; undefined behaviour (a write outside
  the array `arguments`, `back()` of an empty vector, `strcmp` on a null
  pointer) is a value of `Abort` of its own.
* `CopyStr` gives a buffer (`Copy`): the characters copied, the number of
  bytes `calloc` handed out and the number of bytes `strcpy` wrote, the
  terminating NUL included.  On every call the first number is one less than
  the second: the terminator is written one byte behind the allocation.  Each
  command that is built makes that write and the program runs on, so the
  write is recorded in the buffer and is not a value of `Abort`; the entries
  of `arguments` are these buffers.  The model reads a buffer back as the
  characters copied; what the byte behind the allocation holds when the
  program reads the string is outside the model.
* The operating system (`open`, `pipe`, `fork`/`exec`/`wait`) is a parameter:
  a record of answers, each of which may depend on all that happened before.
  Every call of the parent process is written to a log, in order.  The child
  process (`dup2`, `execv`/`execvp`) is part of the operating system: it is
  seen only through the status word that `wait` stores.
* A loop that always ends is a structural recursion.  Every other loop takes
  a number of iterations it may run (`fuel`) and gives `none` when that number
  is used up; the lemmas `tokenizeLoop_total`, `execLoop_final_status` and
  `main_mono` say when the fuel is enough and that more fuel changes nothing.
-/

namespace LavaSH

/-! ## Tokenizer -/

/-- The enumeration `Tokenizer::Operator`. -/
inductive Operator where
  | OR
  | AND
  | IN_REDIRECT
  | OUT_REDIRECT
  | PIPE
  | NONE
  deriving DecidableEq, Repr

/-- The variant `Tokenizer::Token`:
`std::variant<Program, Operator, File, bool, std::string>`. -/
inductive Token where
  | Program (name : List Char)
  | Operator (op : Operator)
  | File (path : List Char)
  | bool (b : Bool)
  | string (s : List Char)
  deriving DecidableEq, Repr

/-- The table `Tokenizer::operator_map_`. -/
def operator_map_ : List (List Char × Operator) :=
  [("&&".toList, Operator.AND),
   ("||".toList, Operator.OR),
   ("<".toList, Operator.IN_REDIRECT),
   (">".toList, Operator.OUT_REDIRECT),
   ("|".toList, Operator.PIPE)]

/-- The whitelist `Tokenizer::set_of_programs`. -/
def set_of_programs : List (List Char) :=
  ["echo".toList, "wc".toList, "cat".toList, "./tools/print_args".toList]

/-- The C library `isspace` in the default locale: space, `\t`, `\n`, `\v`,
`\f`, `\r`. -/
def isspace (c : Char) : Bool :=
  c.toNat == 32 || (9 ≤ c.toNat && c.toNat ≤ 13)

/-- The character obtained by storing `EOF` in a `char`. -/
def eofChar : Char := Char.ofNat 255

/-- The call `token.substr(token.size() - 4, 4)`. -/
def substrLast4 (token : List Char) : List Char :=
  (token.drop (token.length - 4)).take 4

/-- The method `Tokenizer::AddToken`: the new value of `tokens_`. -/
def AddToken (tokens_ : List Token) (token : List Char) : List Token :=
  if token.isEmpty then tokens_
  else
    match operator_map_.lookup token with
    | some oper => tokens_ ++ [Token.Operator oper]
    | none =>
      if token ∈ set_of_programs then tokens_ ++ [Token.Program token]
      else if token.length > 4 ∧ substrLast4 token = ".txt".toList then
        tokens_ ++ [Token.File token]
      else if token = "true".toList then tokens_ ++ [Token.bool true]
      else if token = "false".toList then tokens_ ++ [Token.bool false]
      else tokens_ ++ [Token.string token]

/-- The quoted-literal loop of `Tokenize` (source lines 69 to 76), entered
after the opening quote was read.  The argument is the unread stream; the
result is `(closed, token, stream)` where `closed` is false when the loop
ended with `ch == EOF`.  The variable `ch` is a `char`: the test
`ch != EOF` fails at the end of the stream and also when the character read
is `eofChar`, which is then consumed like a closing quote. -/
def quotedLoop : List Char → List Char → Bool × List Char × List Char
  | [], token => (false, token, [])
  | ch :: is_, token =>
    if ch = '"' then (true, token, is_)
    else if ch = eofChar then (false, token, is_)
    else if ch = '\\' then
      -- `is_.get()` drops the next character, the backslash itself is kept
      match is_ with
      | [] => quotedLoop [] (token ++ [ch])
      | _ :: rest => quotedLoop rest (token ++ [ch])
    else quotedLoop is_ (token ++ [ch])

/-- The word loop of `Tokenize` (source lines 59 to 102).  The result is
`(tokens_, token, stream)` at the exit of the loop. -/
def wordLoop : List Token → List Char → List Char →
    List Token × List Char × List Char
  | tokens_, token, [] => (tokens_, token, [])
  | tokens_, token, ch :: is_ =>
    if isspace ch then (tokens_, token, ch :: is_)
    else if ch = '\\' then
      match is_ with
      | [] => wordLoop tokens_ (token ++ [eofChar]) []
      | c :: rest => wordLoop tokens_ (token ++ [c]) rest
    else if ch = '"' ∧ token.isEmpty then
      match quotedLoop is_ token with
      | (false, tok, rest) => (AddToken tokens_ ('"' :: tok), [], rest)
      | (true, tok, rest) => (tokens_ ++ [Token.string tok], [], rest)
    else if ch = '<' ∨ ch = '>' then
      (AddToken (AddToken tokens_ token) [ch], [], is_)
    else wordLoop tokens_ (token ++ [ch]) is_

/-- The whitespace loop of `Tokenize` (source lines 54 to 56). -/
def skipSpaces : List Char → List Char
  | [] => []
  | ch :: is_ => if isspace ch then skipSpaces is_ else ch :: is_

/-- One iteration of the outer loop of `Tokenize` (source lines 54 to 105). -/
def tokenizeBody (tokens_ : List Token) (is_ : List Char) :
    List Token × List Char :=
  match wordLoop tokens_ [] (skipSpaces is_) with
  | (tokens1, token, rest) => (AddToken tokens1 token, rest)

/-- The outer loop of `Tokenize`, run for at most `fuel` iterations; `none`
when the fuel is used up before the stream is at its end. -/
def tokenizeLoop : Nat → List Token → List Char → Option (List Token)
  | _, tokens_, [] => some tokens_
  | 0, _, _ :: _ => none
  | fuel + 1, tokens_, ch :: is_ =>
    match tokenizeBody tokens_ (ch :: is_) with
    | (tokens1, rest) => tokenizeLoop fuel tokens1 rest

/-- The method `Tokenizer::Tokenize` on the input `str`, as run by the
constructor: the final `tokens_`.  One unit of fuel per input character. -/
def Tokenize (str : List Char) : Option (List Token) :=
  tokenizeLoop str.length [] str

/-- The members `tokens_` and `cur_token_` of a constructed `Tokenizer`. -/
structure Tokenizer where
  tokens_ : List Token
  cur_token_ : Nat
  deriving DecidableEq, Repr

/-- The method `Tokenizer::IsEnd`. -/
def IsEnd (tokenizer : Tokenizer) : Bool :=
  decide (tokenizer.cur_token_ ≥ tokenizer.tokens_.length)

/-- The method `Tokenizer::MoveTokenCnt`. -/
def MoveTokenCnt (tokenizer : Tokenizer) : Tokenizer :=
  { tokenizer with cur_token_ := tokenizer.cur_token_ + 1 }

/-- The method `Tokenizer::GetCurToken`; `none` stands for the exception
`invalid_argument("No current token")`, thrown exactly when `IsEnd`. -/
def GetCurToken (tokenizer : Tokenizer) : Option Token :=
  tokenizer.tokens_[tokenizer.cur_token_]?

/-! ## Failures, the operating system and its log -/

/-- The ways a run stops other than by `return`: a C++ exception with its
message, or undefined behaviour. -/
inductive Abort where
  | invalid_argument (what : List Char)
  | runtime_error (what : List Char)
  /-- A store to `arguments[idx]` with `idx` outside `0..9`. -/
  | arguments_out_of_bounds (idx : Nat)
  /-- The call `programs.back()` on an empty vector. -/
  | back_of_empty_vector
  /-- The call `strcmp` on a null `program_name`. -/
  | null_program_name
  deriving DecidableEq, Repr

/-- The buffer that `CopyStr` returns (source lines 190 to 194):
`calloc(strlen(str), sizeof(str[0]))` hands out `allocated` bytes, and
`strcpy(new_str, str)` writes the characters `chars` of `str` and the
terminating NUL behind them, `written` bytes from the start of the buffer. -/
structure Copy where
  chars : List Char
  allocated : Nat
  written : Nat
  deriving DecidableEq, Repr

/-- One entry of `char *arguments[10]`: never written, `nullptr`, or the
buffer of a copied string. -/
inductive ArgSlot where
  | uninit
  | null
  | str (s : Copy)
  deriving DecidableEq, Repr

/-- The descriptor `fileno(stdin)`. -/
def stdin_fd : Int := 0

/-- The descriptor `fileno(stdout)`. -/
def stdout_fd : Int := 1

/-- The struct `BootKit` with its default member initialisers. -/
structure BootKit where
  arguments : List ArgSlot := List.replicate 10 ArgSlot.uninit
  arguments_size : Nat := 0
  program_name : Option (List Char) := none
  in_descriptor : Int := stdin_fd
  out_descriptor : Int := stdout_fd
  next_oper : Operator := Operator.NONE
  need_to_boot : Bool := true
  deriving DecidableEq, Repr

/-- The flags of `open` from `<fcntl.h>`; the source passes `O_RDONLY`,
`O_WRONLY` and `O_CREAT` only. -/
inductive OFlag where
  | O_RDONLY
  | O_WRONLY
  | O_CREAT
  | O_TRUNC
  deriving DecidableEq, Repr

/-- What the parent process does that is visible outside it, in order. The
entry `status` is a marker, not a call: the executor loop body has computed
`return_code` for `programs[i]`. -/
inductive Event where
  | open_ (path : List Char) (flags : List OFlag) (fd : Int)
  | pipe (read_end : Int) (write_end : Int)
  | pipe_failed
  | close (fd : Int)
  | stderr (text : List Char)
  /-- The calls `fork`, `dup2`, `execv`/`execvp` in the child and `wait` in
  the parent; `wstatus` is the word `wait` stored into `return_code`. -/
  | spawn (boot_kit : BootKit) (wstatus : Int)
  | status (i : Nat) (return_code : Int)
  deriving DecidableEq, Repr

/-- The answers of the operating system; each may depend on everything that
happened before. `open_` gives the descriptor or `-1`; `pipe` gives the read
and the write end, or `none` when `pipe` returns a negative value; `wait`
gives the status word stored for the child running the given `BootKit`
(`fork` is taken to succeed). -/
structure OS where
  open_ : List Event → List Char → List OFlag → Int
  pipe : List Event → Option (Int × Int)
  wait : List Event → BootKit → Int

/-- How `main` ends. -/
inductive Outcome where
  | returned (code : Int)
  | aborted (e : Abort)
  deriving DecidableEq, Repr

/-- A finished run of `main`: how it ended and what it did. -/
structure Run where
  outcome : Outcome
  log : List Event
  deriving DecidableEq, Repr

/-! ## FormBootKit -/

/-- The function `CopyStr`: `calloc(strlen(str), sizeof(str[0]))` with
`sizeof(str[0]) = 1`, then `strcpy`, which writes `strlen(str) + 1` bytes. -/
def CopyStr (str : List Char) : Copy :=
  { chars := str, allocated := str.length * 1, written := str.length + 1 }

/-- The store `boot_kit.arguments[idx] = v`. -/
def setArgument (boot_kit : BootKit) (idx : Nat) (v : ArgSlot) :
    Except Abort BootKit :=
  if idx < 10 then
    Except.ok { boot_kit with arguments := boot_kit.arguments.set idx v }
  else Except.error (Abort.arguments_out_of_bounds idx)

/-- The two return paths of `FormBootKit` (source lines 217 to 219 and 237
to 239). -/
def formFinish (boot_kit : BootKit) (cur_idx : Nat) (cur_token_ : Nat) :
    Except Abort (BootKit × Nat) :=
  match setArgument boot_kit cur_idx ArgSlot.null with
  | Except.error e => Except.error e
  | Except.ok kit1 => Except.ok ({ kit1 with arguments_size := cur_idx }, cur_token_)

/-- One argument of the loop of `FormBootKit`: store it, step the index and
the cursor. -/
def formStore (boot_kit : BootKit) (cur_idx : Nat) (text : List Char) :
    Except Abort BootKit :=
  setArgument boot_kit cur_idx (ArgSlot.str (CopyStr text))

/-- The loop of `FormBootKit` (source lines 212 to 235). The first argument
is the list of the tokens from the cursor on, the second the cursor. The
result is the `BootKit` and the final cursor. -/
def formLoop : List Token → Nat → BootKit → Nat → Except Abort (BootKit × Nat)
  | [], cur_token_, boot_kit, cur_idx => formFinish boot_kit cur_idx cur_token_
  | Token.Operator _ :: _, cur_token_, boot_kit, cur_idx =>
    formFinish boot_kit cur_idx cur_token_
  | Token.File path :: rest, cur_token_, boot_kit, cur_idx =>
    match formStore boot_kit cur_idx path with
    | Except.error e => Except.error e
    | Except.ok kit1 => formLoop rest (cur_token_ + 1) kit1 (cur_idx + 1)
  | Token.string arg :: rest, cur_token_, boot_kit, cur_idx =>
    match formStore boot_kit cur_idx arg with
    | Except.error e => Except.error e
    | Except.ok kit1 => formLoop rest (cur_token_ + 1) kit1 (cur_idx + 1)
  | Token.Program name :: rest, cur_token_, boot_kit, cur_idx =>
    match formStore boot_kit cur_idx name with
    | Except.error e => Except.error e
    | Except.ok kit1 => formLoop rest (cur_token_ + 1) kit1 (cur_idx + 1)
  | Token.bool arg :: rest, cur_token_, boot_kit, cur_idx =>
    match formStore boot_kit cur_idx
        (if arg then "true".toList else "false".toList) with
    | Except.error e => Except.error e
    | Except.ok kit1 => formLoop rest (cur_token_ + 1) kit1 (cur_idx + 1)

/-- The function `FormBootKit`: the `BootKit` and the tokenizer with its
moved cursor. -/
def FormBootKit (tokenizer : Tokenizer) : Except Abort (BootKit × Tokenizer) :=
  match tokenizer.tokens_.drop tokenizer.cur_token_ with
  | [] => Except.error (Abort.invalid_argument "No current token".toList)
  | Token.Program name :: rest =>
    let boot_kit : BootKit := { program_name := some (CopyStr name).chars }
    match setArgument boot_kit 0 (ArgSlot.str (CopyStr name)) with
    | Except.error e => Except.error e
    | Except.ok kit1 =>
      match formLoop rest (tokenizer.cur_token_ + 1) kit1 1 with
      | Except.error e => Except.error e
      | Except.ok (kit2, cur) =>
        Except.ok (kit2, { tokenizer with cur_token_ := cur })
  | _ :: _ => Except.error (Abort.invalid_argument "BootKit cannot be formed".toList)

/-! ## The build loop of `main` -/

/-- The locals of `main` during the build: the tokenizer, the vector
`programs`, the table `fds` (in insertion order) and the log so far. -/
structure Shell where
  tokenizer : Tokenizer
  programs : List BootKit
  fds : List (List Char × Int)
  log : List Event
  deriving DecidableEq, Repr

/-- The result of a part of the build: go on with the new locals, or `main`
has ended. -/
inductive Built where
  | ready (st : Shell)
  | stopped (r : Run)
  deriving DecidableEq, Repr

/-- An update of `programs.back()`; `none` when `programs` is empty. -/
def updateBack (programs : List BootKit) (f : BootKit → BootKit) :
    Option (List BootKit) :=
  match programs.getLast? with
  | none => none
  | some boot_kit => some (programs.dropLast ++ [f boot_kit])

/-- The assignment `fds[path] = fd`. -/
def fdsAssign (fds : List (List Char × Int)) (path : List Char) (fd : Int) :
    List (List Char × Int) :=
  if fds.any (fun e => e.1 == path) then
    fds.map (fun e => if e.1 == path then (path, fd) else e)
  else fds ++ [(path, fd)]

/-- A thrown exception or undefined behaviour ends `main`. -/
def abortWith (e : Abort) (log : List Event) : Built :=
  Built.stopped { outcome := Outcome.aborted e, log := log }

/-- The message of the `No such file or directory` diagnostic. -/
def noSuchFile (path : List Char) : List Char :=
  "./lavash: line 1: ".toList ++ path ++ ": No such file or directory".toList ++ ['\n']

/-- The message of the `command not found` diagnostic. -/
def commandNotFound (program_name : List Char) : List Char :=
  "./lavash: line 1: ".toList ++ program_name ++ ": command not found".toList ++ ['\n']

/-- The body of the loop `while (oper && (*oper == PIPE))` of the `Program`
branch (source lines 278 to 304), run with the cursor on a `PIPE` token. -/
def pipeBody (os : OS) (st : Shell) : Built :=
  match os.pipe st.log with
  | none =>
    abortWith (Abort.runtime_error "Could not create pipe".toList)
      (st.log ++ [Event.pipe_failed])
  | some (rd, wr) =>
    let log1 := st.log ++ [Event.pipe rd wr]
    match updateBack st.programs (fun k => { k with out_descriptor := wr }) with
    | none => abortWith Abort.back_of_empty_vector log1
    | some programs1 =>
      let tokenizer1 := MoveTokenCnt st.tokenizer
      match GetCurToken tokenizer1 with
      | none =>
        abortWith (Abort.invalid_argument "After pipe should follow program".toList) log1
      | some (Token.Program _) =>
        match FormBootKit tokenizer1 with
        | Except.error e => abortWith e log1
        | Except.ok (boot_kit, tokenizer2) =>
          match updateBack (programs1 ++ [boot_kit])
              (fun k => { k with in_descriptor := rd }) with
          | none => abortWith Abort.back_of_empty_vector log1
          | some programs2 =>
            Built.ready { tokenizer := tokenizer2, programs := programs2,
                          fds := st.fds, log := log1 }
      | some (Token.string arg) =>
        if arg = "1984".toList then
          Built.stopped { outcome := Outcome.returned 0, log := log1 }
        else
          abortWith (Abort.invalid_argument "After pipe should follow program".toList) log1
      | some _ =>
        abortWith (Abort.invalid_argument "After pipe should follow program".toList) log1

/-- The loop `while (oper && (*oper == PIPE))` of the `Program` branch
(source lines 271 to 313), from the test for the end of the tokens on; at
most `fuel` iterations. -/
def pipeLoop (os : OS) : Nat → Shell → Option Built
  | 0, st =>
    match GetCurToken st.tokenizer with
    | some (Token.Operator Operator.PIPE) => none
    | _ => some (Built.ready st)
  | fuel1 + 1, st =>
    match GetCurToken st.tokenizer with
    | some (Token.Operator Operator.PIPE) =>
      match pipeBody os st with
      | Built.stopped r => some (Built.stopped r)
      | Built.ready st1 => pipeLoop os fuel1 st1
    | _ => some (Built.ready st)

/-- The part shared by both redirections once the file is open (source lines
329 to 344 and 368 to 383): enter the descriptor in `fds`, form the command
that follows when `programs` is empty, bind the descriptor to
`programs.back()` with `bind`, move the cursor. -/
def bindRedirect (st : Shell) (tokenizer1 : Tokenizer) (log1 : List Event)
    (path : List Char) (fd : Int) (bind : BootKit → BootKit) : Built :=
  let fds1 := fdsAssign st.fds path fd
  if st.programs.isEmpty then
    let tokenizer2 := MoveTokenCnt tokenizer1
    match GetCurToken tokenizer2 with
    | none => abortWith (Abort.invalid_argument "No current token".toList) log1
    | some (Token.Program _) =>
      match FormBootKit tokenizer2 with
      | Except.error e => abortWith e log1
      | Except.ok (boot_kit, tokenizer3) =>
        match updateBack (st.programs ++ [boot_kit]) bind with
        | none => abortWith Abort.back_of_empty_vector log1
        | some programs1 =>
          Built.ready { tokenizer := MoveTokenCnt tokenizer3, programs := programs1,
                        fds := fds1, log := log1 }
    | some _ => abortWith Abort.back_of_empty_vector log1
  else
    match updateBack st.programs bind with
    | none => abortWith Abort.back_of_empty_vector log1
    | some programs1 =>
      Built.ready { tokenizer := MoveTokenCnt tokenizer1, programs := programs1,
                    fds := fds1, log := log1 }

/-- One iteration of the build loop `while (!tokenizer.IsEnd())` of `main`
(source lines 263 to 424) on the current token `cur_token`; `fuel` bounds
the inner pipe loop. -/
def buildBody (os : OS) (fuel : Nat) (st : Shell) (cur_token : Token) :
    Option Built :=
  match cur_token with
  | Token.Program _ =>
    match FormBootKit st.tokenizer with
    | Except.error e => some (abortWith e st.log)
    | Except.ok (boot_kit, tokenizer1) =>
      pipeLoop os fuel { st with tokenizer := tokenizer1,
                                 programs := st.programs ++ [boot_kit] }
  | Token.Operator Operator.OUT_REDIRECT =>
    let tokenizer1 := MoveTokenCnt st.tokenizer
    match GetCurToken tokenizer1 with
    | none =>
      some (abortWith (Abort.invalid_argument "No file after out_redirecting".toList)
        st.log)
    | some (Token.File path) =>
      let fd := os.open_ st.log path [OFlag.O_CREAT, OFlag.O_WRONLY]
      let log1 := st.log ++ [Event.open_ path [OFlag.O_CREAT, OFlag.O_WRONLY] fd]
      if fd = -1 then
        some (abortWith (Abort.runtime_error ("Cannot open ".toList ++ path)) log1)
      else
        some (bindRedirect st tokenizer1 log1 path fd
          (fun k => { k with out_descriptor := fd }))
    | some _ =>
      some (abortWith (Abort.invalid_argument "No file after in_redirecting".toList)
        st.log)
  | Token.Operator Operator.IN_REDIRECT =>
    let tokenizer1 := MoveTokenCnt st.tokenizer
    match GetCurToken tokenizer1 with
    | none =>
      some (abortWith (Abort.invalid_argument "No file after out_redirecting".toList)
        st.log)
    | some (Token.File path) =>
      let fd := os.open_ st.log path [OFlag.O_RDONLY]
      let log1 := st.log ++ [Event.open_ path [OFlag.O_RDONLY] fd]
      if fd = -1 then
        let log2 := log1 ++ [Event.stderr (noSuchFile path)]
        if st.programs.isEmpty then
          some (Built.ready
            { tokenizer := MoveTokenCnt tokenizer1,
              programs := st.programs ++ [{ program_name := some "no_txt".toList }],
              fds := st.fds, log := log2 })
        else
          match updateBack st.programs (fun k => { k with need_to_boot := false }) with
          | none => some (abortWith Abort.back_of_empty_vector log2)
          | some programs1 =>
            some (Built.ready
              { tokenizer := MoveTokenCnt tokenizer1, programs := programs1,
                fds := st.fds, log := log2 })
      else
        some (bindRedirect st tokenizer1 log1 path fd
          (fun k => { k with in_descriptor := fd }))
    | some _ =>
      some (abortWith (Abort.invalid_argument "No file after in_redirecting".toList)
        st.log)
  | Token.Operator Operator.PIPE =>
    match os.pipe st.log with
    | none =>
      some (abortWith (Abort.runtime_error "Could not create pipe".toList)
        (st.log ++ [Event.pipe_failed]))
    | some (rd, wr) =>
      let log1 := st.log ++ [Event.pipe rd wr, Event.close wr]
      let tokenizer1 := MoveTokenCnt st.tokenizer
      match GetCurToken tokenizer1 with
      | none =>
        some (abortWith
          (Abort.invalid_argument "After pipe should follow program".toList) log1)
      | some (Token.Program _) =>
        match FormBootKit tokenizer1 with
        | Except.error e => some (abortWith e log1)
        | Except.ok (boot_kit, tokenizer2) =>
          match updateBack (st.programs ++ [boot_kit])
              (fun k => { k with in_descriptor := rd }) with
          | none => some (abortWith Abort.back_of_empty_vector log1)
          | some programs1 =>
            some (Built.ready
              { tokenizer := tokenizer2, programs := programs1,
                fds := st.fds, log := log1 })
      | some _ =>
        some (abortWith
          (Abort.invalid_argument "After pipe should follow program".toList) log1)
  | Token.Operator Operator.AND =>
    match updateBack st.programs (fun k => { k with next_oper := Operator.AND }) with
    | none => some (abortWith Abort.back_of_empty_vector st.log)
    | some programs1 =>
      some (Built.ready { st with tokenizer := MoveTokenCnt st.tokenizer,
                                  programs := programs1 })
  | Token.Operator Operator.OR =>
    match updateBack st.programs (fun k => { k with next_oper := Operator.OR }) with
    | none => some (abortWith Abort.back_of_empty_vector st.log)
    | some programs1 =>
      some (Built.ready { st with tokenizer := MoveTokenCnt st.tokenizer,
                                  programs := programs1 })
  | Token.Operator Operator.NONE => some (Built.ready st)
  | Token.string arg =>
    some (Built.ready
      { st with tokenizer := MoveTokenCnt st.tokenizer,
                programs := st.programs ++ [{ program_name := some arg }] })
  | Token.bool boolean =>
    some (Built.ready
      { st with tokenizer := MoveTokenCnt st.tokenizer,
                programs := st.programs ++
                  [{ program_name := some (if boolean then "true".toList
                                           else "false".toList) }] })
  -- no branch of the source takes a `File` token: the locals stay as they are
  | Token.File _ => some (Built.ready st)

/-- The build loop of `main` (source lines 262 to 425), run for at most
`fuel` iterations; `none` when the fuel is used up. -/
def buildLoop (os : OS) : Nat → Shell → Option Built
  | 0, st =>
    match GetCurToken st.tokenizer with
    | none => some (Built.ready st)
    | some _ => none
  | fuel1 + 1, st =>
    match GetCurToken st.tokenizer with
    | none => some (Built.ready st)
    | some cur_token =>
      match buildBody os (fuel1 + 1) st cur_token with
      | none => none
      | some (Built.stopped r) => some (Built.stopped r)
      | some (Built.ready st1) => buildLoop os fuel1 st1

/-! ## The executor loop of `main` -/

/-- The function `CloseFDs`: one `close` for each entry of the table (the
source iterates an unordered map, the order here is that of insertion). -/
def CloseFDs (fds : List (List Char × Int)) : List Event :=
  fds.map (fun e => Event.close e.2)

/-- The parent after `wait` (source lines 464 to 469): close the descriptors
of the stage that are not the inherited ones. -/
def closeStage (boot_kit : BootKit) : List Event :=
  (if boot_kit.in_descriptor ≠ stdin_fd then [Event.close boot_kit.in_descriptor] else [])
  ++ (if boot_kit.out_descriptor ≠ stdout_fd then [Event.close boot_kit.out_descriptor]
      else [])

/-- The dispatch of the executor loop body (source lines 429 to 471) on one
`BootKit`: the new `return_code` and the log. -/
def evalCommand (os : OS) (boot_kit : BootKit) (log : List Event) :
    Except Abort (Int × List Event) :=
  if !boot_kit.need_to_boot then Except.ok (1, log)
  else
    match boot_kit.program_name with
    | none => Except.error Abort.null_program_name
    | some program_name =>
      if program_name = "true".toList then Except.ok (0, log)
      else if program_name = "false".toList then Except.ok (1, log)
      else if program_name = "no_txt".toList then Except.ok (1, log)
      else if program_name ∉ set_of_programs then
        Except.ok (127, log ++ [Event.stderr (commandNotFound program_name)])
      else
        let wstatus := os.wait log boot_kit
        Except.ok (wstatus, log ++ [Event.spawn boot_kit wstatus] ++ closeStage boot_kit)

/-- The loop `while (i < programs.size() && (programs[i].next_oper == AND ||
programs[i].next_oper == NONE)) ++i` (source lines 480 to 483); the first
argument is `programs` from index `i` on, the result is the final `i`. -/
def skipLoop : List BootKit → Nat → Nat
  | [], i => i
  | boot_kit :: rest, i =>
    if boot_kit.next_oper = Operator.AND ∨ boot_kit.next_oper = Operator.NONE then
      skipLoop rest (i + 1)
    else i

/-- What one iteration of the executor loop leads to: the next test of the
loop condition, with the new `i`, `return_code` and log, or the end of
`main`. -/
inductive ExecNext where
  | goto (i : Nat) (return_code : Int) (log : List Event)
  | done (r : Run)
  deriving DecidableEq, Repr

/-- The body of the executor loop on `boot_kit = programs[i]`, with the `++i`
of the loop header (source lines 429 to 488). -/
def execBody (os : OS) (programs : List BootKit) (fds : List (List Char × Int))
    (i : Nat) (boot_kit : BootKit) (log : List Event) : ExecNext :=
  match evalCommand os boot_kit log with
  | Except.error e => ExecNext.done { outcome := Outcome.aborted e, log := log }
  | Except.ok (return_code, log1) =>
    let log2 := log1 ++ [Event.status i return_code]
    if return_code = 0 then
      if boot_kit.next_oper = Operator.OR then
        ExecNext.done { outcome := Outcome.returned return_code,
                        log := log2 ++ CloseFDs fds }
      else ExecNext.goto (i + 1) return_code log2
    else
      if boot_kit.next_oper = Operator.AND then
        ExecNext.goto (skipLoop (programs.drop i) i + 1) return_code log2
      else ExecNext.goto (i + 1) return_code log2

/-- The executor loop `for (size_t i = 0; i < programs.size(); ++i)` with the
final `CloseFDs` and `return` (source lines 428 to 492), from the test of the
loop condition with the given `i` and `return_code`; at most `fuel`
iterations. -/
def execLoop (os : OS) (programs : List BootKit) (fds : List (List Char × Int)) :
    Nat → Nat → Int → List Event → Option Run
  | 0, i, return_code, log =>
    match programs[i]? with
    | none => some { outcome := Outcome.returned return_code, log := log ++ CloseFDs fds }
    | some _ => none
  | fuel1 + 1, i, return_code, log =>
    match programs[i]? with
    | none => some { outcome := Outcome.returned return_code, log := log ++ CloseFDs fds }
    | some boot_kit =>
      match execBody os programs fds i boot_kit log with
      | ExecNext.done r => some r
      | ExecNext.goto i1 return_code1 log1 =>
        execLoop os programs fds fuel1 i1 return_code1 log1

/-! ## `main` -/

/-- The body of `main` after the construction of the tokenizer (source
lines 258 to 492) on the token vector `tokens`: the build loop, then the
executor loop; `fuel` bounds the iterations of the build loop, and `none`
means that the fuel was used up. -/
def runTokens (os : OS) (fuel : Nat) (tokens : List Token) : Option Run :=
  match buildLoop os fuel
      { tokenizer := { tokens_ := tokens, cur_token_ := 0 },
        programs := [], fds := [], log := [] } with
  | none => none
  | some (Built.stopped r) => some r
  | some (Built.ready st) =>
    execLoop os st.programs st.fds st.programs.length 0 0 st.log

/-- The body of `main` from the construction of the tokenizer on (source
lines 256 to 492) for the command line `str`. -/
def runLine (os : OS) (fuel : Nat) (str : List Char) : Option Run :=
  match Tokenize str with
  | none => none
  | some tokens => runTokens os fuel tokens

/-- The function `main` on the argument vector `argv` (so `argc` is its
length). -/
def main (os : OS) (fuel : Nat) (argv : List (List Char)) : Option Run :=
  if argv.length < 3 then some { outcome := Outcome.returned 0, log := [] }
  else if argv.length ≠ 3 then
    some { outcome := Outcome.aborted (Abort.invalid_argument "Invalid arguments".toList),
           log := [] }
  else
    match argv[2]? with
    | none => none
    | some str => runLine os fuel str

/-- The status word that `wait` stores for a child that terminated normally
with exit code `e`: the code sits in bits 8 to 15 and the low bits are zero
(the layout read back by `WIFEXITED` and `WEXITSTATUS` of `<sys/wait.h>`). -/
def exitedStatus (e : Nat) : Int := ((e % 256 : Nat) : Int) * 256

/-- The exit status of the interpreter seen by its parent when `main`
returns `code`: the low eight bits. -/
def exitStatus (code : Int) : Int := code % 256

/-! ## Vocabulary of the statements -/

/-- A character that the word loop of `Tokenize` appends to the word
whatever the word holds so far: no whitespace, backslash, double quote, `<`
or `>`. -/
def plain (c : Char) : Bool :=
  !isspace c && c != '\\' && c != '"' && c != '<' && c != '>'

/-- An ordinary character: plain and not one of the operator characters `|`
and `&`. -/
def ordinary (c : Char) : Bool :=
  plain c && c != '|' && c != '&'

/-- The text that `FormBootKit` copies for a token that is not an operator
(an operator has none). -/
def tokenText : Token → List Char
  | Token.Program name => name
  | Token.File path => path
  | Token.string arg => arg
  | Token.bool arg => if arg then "true".toList else "false".toList
  | Token.Operator _ => []

/-- The `BootKit` with program name `p` and the argument vector made of the
copies of `p` and of the texts of `args`, then the null terminator, the other
members as initialised by default. -/
def commandKit (p : List Char) (args : List Token) : BootKit :=
  { arguments := ArgSlot.str (CopyStr p) ::
      (args.map (fun t => ArgSlot.str (CopyStr (tokenText t))) ++
      ArgSlot.null :: List.replicate (8 - args.length) ArgSlot.uninit),
    arguments_size := args.length + 1,
    program_name := some p,
    in_descriptor := stdin_fd,
    out_descriptor := stdout_fd,
    next_oper := Operator.NONE,
    need_to_boot := true }

/-- A `BootKit` as the build loop makes it: the program name is set and the
chain operator is `AND`, `OR` or `NONE`. -/
def builtKit (k : BootKit) : Prop :=
  k.program_name ≠ none ∧
    (k.next_oper = Operator.AND ∨ k.next_oper = Operator.OR ∨ k.next_oper = Operator.NONE)

/-- The test `std::get_if<Tokenizer::Operator>` gives a non-null pointer. -/
def isOperator : Token → Bool
  | Token.Operator _ => true
  | _ => false

/-- The `return_code` of the last `status` marker of a log, or `dflt` when
there is none. -/
def lastStatus : List Event → Int → Int
  | [], dflt => dflt
  | Event.status _ return_code :: rest, _ => lastStatus rest return_code
  | _ :: rest, dflt => lastStatus rest dflt

/-- The number of processes spawned in a log. -/
def spawnCount : List Event → Nat
  | [] => 0
  | Event.spawn _ _ :: rest => spawnCount rest + 1
  | _ :: rest => spawnCount rest

/-- An operating system in which no file can be opened, `pipe` gives the
descriptors 3 and 4, and every child ends with the status word `wstatus`. -/
def fixedOS (wstatus : Int) : OS :=
  { open_ := fun _ _ _ => -1, pipe := fun _ => some (3, 4), wait := fun _ _ => wstatus }

/-- The argument vector of an invocation with the command line `str`. -/
def argvOf (str : String) : List (List Char) :=
  ["./lavash".toList, "-c".toList, str.toList]

/-- An operating system in which every `open` and every `pipe` succeeds with
descriptors not handed out before (numbered from the length of the log), and
every child ends with the status word `wstatus`. -/
def freshOS (wstatus : Int) : OS :=
  { open_ := fun log _ _ => 10 + 2 * (log.length : Int),
    pipe := fun log => some (10 + 2 * (log.length : Int), 11 + 2 * (log.length : Int)),
    wait := fun _ _ => wstatus }

/-- The answers of an operating system in which a file can be opened for
writing and created, with descriptor 3, and no file can be opened
read-only. -/
def writeOnlyOS (wstatus : Int) : OS :=
  { open_ := fun _ _ flags => if flags = [OFlag.O_RDONLY] then -1 else 3,
    pipe := fun _ => some (3, 4),
    wait := fun _ _ => wstatus }

/-- The number of calls `close(fd)` in a log. -/
def closeCount (fd : Int) : List Event → Nat
  | [] => 0
  | Event.close fd1 :: rest => (if fd1 = fd then 1 else 0) + closeCount fd rest
  | _ :: rest => closeCount fd rest

/-- The content of a regular file after a successful `open` with the given
flags, as POSIX defines `open`: emptied when `O_TRUNC` is among the flags,
kept otherwise. -/
def contentAfterOpen (flags : List OFlag) (old : List Char) : List Char :=
  if OFlag.O_TRUNC ∈ flags then [] else old

/-- The content of a regular file after `data` was written from offset 0
through a descriptor opened without `O_APPEND`, as POSIX defines `write`:
the bytes behind the written ones stay. -/
def contentAfterWrite (data old : List Char) : List Char :=
  data ++ old.drop data.length

/-- Whether two double quotes stand side by side somewhere in the input. -/
def adjacentQuotes : List Char → Bool
  | [] => false
  | c :: rest => (c == '"' && rest.head? == some '"') || adjacentQuotes rest

/-- A token whose text, if it has one, is not empty; with `strict = false` a
string token may be empty. -/
def textNonempty (strict : Bool) : Token → Prop
  | Token.Program name => name ≠ []
  | Token.File path => path ≠ []
  | Token.string s => strict = true → s ≠ []
  | Token.Operator _ => True
  | Token.bool _ => True

end LavaSH

/-! # Theorems -/

namespace LavaSH

/-! ## Helper lemmas: the tokenizer -/

theorem plain_iff (c : Char) :
    plain c = true ↔
      isspace c = false ∧ c ≠ '\\' ∧ c ≠ '"' ∧ c ≠ '<' ∧ c ≠ '>' := by
  simp [plain, and_assoc]

theorem quotedLoop_cons (ch : Char) (is_ token : List Char) :
    quotedLoop (ch :: is_) token =
      if ch = '"' then (true, token, is_)
      else if ch = eofChar then (false, token, is_)
      else if ch = '\\' then quotedLoop is_.tail (token ++ [ch])
      else quotedLoop is_ (token ++ [ch]) := by
  rw [quotedLoop.eq_def]
  cases is_ <;> simp

theorem wordLoop_cons (tokens_ : List Token) (token : List Char) (ch : Char)
    (is_ : List Char) :
    wordLoop tokens_ token (ch :: is_) =
      if isspace ch then (tokens_, token, ch :: is_)
      else if ch = '\\' then
        wordLoop tokens_ (token ++ [is_.headD eofChar]) is_.tail
      else if ch = '"' ∧ token.isEmpty then
        (if (quotedLoop is_ token).1 then
          (tokens_ ++ [Token.string (quotedLoop is_ token).2.1], [],
            (quotedLoop is_ token).2.2)
         else
          (AddToken tokens_ ('"' :: (quotedLoop is_ token).2.1), [],
            (quotedLoop is_ token).2.2))
      else if ch = '<' ∨ ch = '>' then
        (AddToken (AddToken tokens_ token) [ch], [], is_)
      else wordLoop tokens_ (token ++ [ch]) is_ := by
  rw [wordLoop.eq_def]
  cases is_ <;> simp <;> (repeat (split <;> try rfl)) <;> simp_all

theorem quotedLoop_closed (s : List Char) :
    ∀ (token rest : List Char), '"' ∉ s → '\\' ∉ s → eofChar ∉ s →
      quotedLoop (s ++ '"' :: rest) token = (true, token ++ s, rest) := by
  induction s with
  | nil => intro token rest _ _ _; rw [List.nil_append, quotedLoop_cons]; simp
  | cons c s ih =>
    intro token rest hq hb he
    have hcq : c ≠ '"' := fun h => hq (by simp [h])
    have hcb : c ≠ '\\' := fun h => hb (by simp [h])
    have hce : c ≠ eofChar := fun h => he (by simp [h])
    have hq1 : '"' ∉ s := fun h => hq (List.mem_cons_of_mem _ h)
    have hb1 : '\\' ∉ s := fun h => hb (List.mem_cons_of_mem _ h)
    have he1 : eofChar ∉ s := fun h => he (List.mem_cons_of_mem _ h)
    rw [List.cons_append, quotedLoop_cons]
    simp [hcq, hcb, hce, ih (token ++ [c]) rest hq1 hb1 he1]

/-- The quoted-literal loop on a text without quote and backslash that is
followed by the character `eofChar`: the loop ends there as it does at the
end of the stream, and the stream goes on behind that character. -/
theorem quotedLoop_eofChar (s : List Char) :
    ∀ (token rest : List Char), '"' ∉ s → '\\' ∉ s → eofChar ∉ s →
      quotedLoop (s ++ eofChar :: rest) token = (false, token ++ s, rest) := by
  induction s with
  | nil =>
    intro token rest _ _ _
    rw [List.nil_append, quotedLoop_cons]
    simp [show eofChar ≠ '"' by decide]
  | cons c s ih =>
    intro token rest hq hb he
    have hcq : c ≠ '"' := fun h => hq (by simp [h])
    have hcb : c ≠ '\\' := fun h => hb (by simp [h])
    have hce : c ≠ eofChar := fun h => he (by simp [h])
    have hq1 : '"' ∉ s := fun h => hq (List.mem_cons_of_mem _ h)
    have hb1 : '\\' ∉ s := fun h => hb (List.mem_cons_of_mem _ h)
    have he1 : eofChar ∉ s := fun h => he (List.mem_cons_of_mem _ h)
    rw [List.cons_append, quotedLoop_cons]
    simp [hcq, hcb, hce, ih (token ++ [c]) rest hq1 hb1 he1]

theorem skipSpaces_spaces (ws : List Char) (rest : List Char)
    (hws : ∀ c ∈ ws, isspace c = true) :
    skipSpaces (ws ++ rest) = skipSpaces rest := by
  induction ws with
  | nil => rfl
  | cons c ws ih =>
    have hc : isspace c = true := hws c (by simp)
    simp [skipSpaces, hc]
    exact ih (fun d hd => hws d (List.mem_cons_of_mem _ hd))

theorem skipSpaces_nonspace (c : Char) (rest : List Char) (hc : isspace c = false) :
    skipSpaces (c :: rest) = c :: rest := by
  simp [skipSpaces, hc]

theorem wordLoop_plain (w : List Char) :
    ∀ (tokens_ : List Token) (token rest : List Char),
      (∀ c ∈ w, plain c = true) →
      wordLoop tokens_ token (w ++ rest) = wordLoop tokens_ (token ++ w) rest := by
  induction w with
  | nil => intro tokens_ token rest _; simp
  | cons c w ih =>
    intro tokens_ token rest hw
    obtain ⟨h1, h2, h3, h4, h5⟩ := (plain_iff c).1 (hw c (by simp))
    have hw1 : ∀ d ∈ w, plain d = true := fun d hd => hw d (List.mem_cons_of_mem _ hd)
    rw [List.cons_append, wordLoop_cons]
    simp [h1, h2, h3, h4, h5, ih tokens_ (token ++ [c]) rest hw1]

theorem AddToken_append (tokens_ : List Token) (token : List Char) :
    AddToken tokens_ token = tokens_ ++ AddToken [] token := by
  unfold AddToken
  split
  · simp
  · split <;> (try split) <;> (try split) <;> (try split) <;> (try split) <;> simp

theorem quotedLoop_length (n : Nat) :
    ∀ (is_ token : List Char), is_.length ≤ n →
      (quotedLoop is_ token).2.2.length ≤ is_.length := by
  induction n with
  | zero =>
    intro is_ token h
    have : is_ = [] := List.length_eq_zero.1 (Nat.le_zero.1 h)
    subst this
    simp [quotedLoop]
  | succ n ih =>
    intro is_ token h
    cases is_ with
    | nil => simp [quotedLoop]
    | cons ch is_ =>
      have hlen : is_.length ≤ n := by simpa using h
      have htail : is_.tail.length ≤ is_.length := by simp
      rw [quotedLoop_cons]
      split
      · simp
      · split
        · simp
        · split
          · have := ih is_.tail (token ++ [ch]) (le_trans htail hlen)
            simp only [List.length_cons]
            omega
          · have := ih is_ (token ++ [ch]) hlen
            simp only [List.length_cons]
            omega

theorem wordLoop_length (n : Nat) :
    ∀ (tokens_ : List Token) (token is_ : List Char), is_.length ≤ n →
      (wordLoop tokens_ token is_).2.2.length ≤ is_.length := by
  induction n with
  | zero =>
    intro tokens_ token is_ h
    have : is_ = [] := List.length_eq_zero.1 (Nat.le_zero.1 h)
    subst this
    simp [wordLoop]
  | succ n ih =>
    intro tokens_ token is_ h
    cases is_ with
    | nil => simp [wordLoop]
    | cons ch is_ =>
      have hlen : is_.length ≤ n := by simpa using h
      have htail : is_.tail.length ≤ is_.length := by simp
      have hq := quotedLoop_length is_.length is_ token (le_refl _)
      rw [wordLoop_cons]
      split
      · simp
      · split
        · have := ih tokens_ (token ++ [is_.headD eofChar]) is_.tail (le_trans htail hlen)
          simp only [List.length_cons]
          omega
        · split
          · split <;> simp only [List.length_cons] <;> omega
          · split
            · simp
            · have := ih tokens_ (token ++ [ch]) is_ hlen
              simp only [List.length_cons]
              omega

theorem wordLoop_consumes (tokens_ : List Token) (token : List Char) (ch : Char)
    (is_ : List Char) (hch : isspace ch = false) :
    (wordLoop tokens_ token (ch :: is_)).2.2.length < (ch :: is_).length := by
  have htail : is_.tail.length ≤ is_.length := by simp
  have hq := quotedLoop_length is_.length is_ token (le_refl _)
  have h1 := wordLoop_length is_.tail.length tokens_ (token ++ [is_.headD eofChar])
    is_.tail (le_refl _)
  have h2 := wordLoop_length is_.length tokens_ (token ++ [ch]) is_ (le_refl _)
  rw [wordLoop_cons]
  simp only [hch, Bool.false_eq_true, if_false, List.length_cons]
  split
  · omega
  · split
    · split <;> simp only [] <;> omega
    · split
      · simp
      · omega

theorem skipSpaces_length (is_ : List Char) :
    (skipSpaces is_).length ≤ is_.length := by
  induction is_ with
  | nil => simp [skipSpaces]
  | cons ch is_ ih =>
    simp only [skipSpaces]
    split
    · simp only [List.length_cons]; omega
    · simp

theorem skipSpaces_head (is_ : List Char) :
    skipSpaces is_ = [] ∨
      ∃ ch rest, skipSpaces is_ = ch :: rest ∧ isspace ch = false := by
  induction is_ with
  | nil => left; rfl
  | cons ch is_ ih =>
    simp only [skipSpaces]
    split
    · exact ih
    · right
      exact ⟨ch, is_, rfl, by simpa using ‹¬ isspace ch = true›⟩

theorem tokenizeBody_eq (tokens_ : List Token) (is_ : List Char) :
    tokenizeBody tokens_ is_ =
      (AddToken (wordLoop tokens_ [] (skipSpaces is_)).1
          (wordLoop tokens_ [] (skipSpaces is_)).2.1,
        (wordLoop tokens_ [] (skipSpaces is_)).2.2) := rfl

theorem tokenizeBody_consumes (tokens_ : List Token) (ch : Char) (is_ : List Char) :
    (tokenizeBody tokens_ (ch :: is_)).2.length < (ch :: is_).length := by
  have hs := skipSpaces_length (ch :: is_)
  rw [tokenizeBody_eq]
  rcases skipSpaces_head (ch :: is_) with h | ⟨c, rest, h, hc⟩
  · rw [h]; simp [wordLoop]
  · rw [h] at hs ⊢
    have := wordLoop_consumes tokens_ [] c rest hc
    exact lt_of_lt_of_le this hs

theorem tokenizeLoop_step (fuel : Nat) (tokens_ : List Token) (ch : Char)
    (is_ : List Char) :
    tokenizeLoop (fuel + 1) tokens_ (ch :: is_) =
      tokenizeLoop fuel (tokenizeBody tokens_ (ch :: is_)).1
        (tokenizeBody tokens_ (ch :: is_)).2 := rfl

theorem tokenizeLoop_total (fuel : Nat) :
    ∀ (tokens_ : List Token) (is_ : List Char), is_.length ≤ fuel →
      ∃ r, tokenizeLoop fuel tokens_ is_ = some r := by
  induction fuel with
  | zero =>
    intro tokens_ is_ h
    have : is_ = [] := List.length_eq_zero.1 (Nat.le_zero.1 h)
    subst this
    exact ⟨tokens_, rfl⟩
  | succ fuel ih =>
    intro tokens_ is_ h
    cases is_ with
    | nil => exact ⟨tokens_, rfl⟩
    | cons ch is_ =>
      rw [tokenizeLoop_step]
      apply ih
      have := tokenizeBody_consumes tokens_ ch is_
      simp only [List.length_cons] at *
      omega

theorem tokenizeLoop_mono (fuel : Nat) :
    ∀ (k : Nat) (tokens_ : List Token) (is_ : List Char) (r : List Token),
      tokenizeLoop fuel tokens_ is_ = some r →
      tokenizeLoop (fuel + k) tokens_ is_ = some r := by
  induction fuel with
  | zero =>
    intro k tokens_ is_ r h
    cases is_ with
    | nil => cases k <;> simpa [tokenizeLoop] using h
    | cons ch is_ => simp [tokenizeLoop] at h
  | succ fuel ih =>
    intro k tokens_ is_ r h
    cases is_ with
    | nil => simpa [tokenizeLoop] using h
    | cons ch is_ =>
      rw [tokenizeLoop_step] at h
      rw [show fuel + 1 + k = (fuel + k) + 1 by omega, tokenizeLoop_step]
      exact ih k _ _ r h

/-- A run of the outer loop that ends with some fuel gives the value of
`Tokenize`. -/
theorem Tokenize_of_fuel (fuel : Nat) (str : List Char) (r : List Token)
    (h : tokenizeLoop fuel [] str = some r) : Tokenize str = some r := by
  obtain ⟨r1, h1⟩ := tokenizeLoop_total str.length [] str (le_refl _)
  have a := tokenizeLoop_mono fuel str.length [] str r h
  have b := tokenizeLoop_mono str.length fuel [] str r1 h1
  rw [Nat.add_comm] at b
  rw [a] at b
  unfold Tokenize
  rw [h1]
  exact b.symm

theorem tokenizeLoop_step_of_ne_nil (fuel : Nat) (tokens_ : List Token)
    (is_ : List Char) (h : is_ ≠ []) :
    tokenizeLoop (fuel + 1) tokens_ is_ =
      tokenizeLoop fuel (tokenizeBody tokens_ is_).1 (tokenizeBody tokens_ is_).2 := by
  cases is_ with
  | nil => exact absurd rfl h
  | cons ch is_ => rfl

theorem isspace_quote : isspace '"' = false := by decide

/-- One iteration of the outer loop on optional whitespace followed by a
closed quoted literal without quote or backslash inside. -/
theorem tokenizeBody_quoted (tokens_ : List Token) (ws s rest : List Char)
    (hws : ∀ c ∈ ws, isspace c = true) (hq : '"' ∉ s) (hb : '\\' ∉ s)
    (he : eofChar ∉ s) :
    tokenizeBody tokens_ (ws ++ '"' :: (s ++ '"' :: rest)) =
      (tokens_ ++ [Token.string s], rest) := by
  rw [tokenizeBody_eq, skipSpaces_spaces ws _ hws, skipSpaces_nonspace _ _ isspace_quote,
    wordLoop_cons, quotedLoop_closed s [] rest hq hb he]
  simp [isspace_quote, AddToken]

/-- One iteration of the outer loop on a quoted literal whose text, without
quote or backslash, runs into the character `eofChar`: the word is the
opening quote and the text read so far, it goes through `AddToken`, and the
stream behind `eofChar` is lexed as new words. -/
theorem tokenizeBody_quoted_eofChar (tokens_ : List Token) (s rest : List Char)
    (hq : '"' ∉ s) (hb : '\\' ∉ s) (he : eofChar ∉ s) :
    tokenizeBody tokens_ ('"' :: (s ++ eofChar :: rest)) =
      (AddToken tokens_ ('"' :: s), rest) := by
  rw [tokenizeBody_eq, skipSpaces_nonspace _ _ isspace_quote,
    wordLoop_cons, quotedLoop_eofChar s [] rest hq hb he]
  simp [isspace_quote, AddToken]

/-! ## C1 -/

/-- C1, what the code does: the quoted-literal loop keeps the character it
read in a `char` and compares it with `EOF`, so the character `eofChar`
(byte 255) ends a quoted literal as the end of the input does.  For every
text `s` without double quote, backslash and `eofChar`, the quoted literal
`"s"` at the start of a word (after any whitespace, wherever the outer loop
of `Tokenize` starts an iteration) adds exactly one string token with text
`s`, whitespace inside `s` included, lexing goes on behind the closing quote,
and alone it lexes to that one token, as claimed.  When `eofChar` follows
`s` inside the literal, the word made is the opening quote and `s`, it goes
through `AddToken`, and the rest of the literal is lexed as new words: the
literal of `a`, `eofChar`, `b` gives the two string tokens `"a` and `b"`,
not one token.  The command line `echo "a b" > out.txt` lexes to
`Program echo`, the string `a b`, the operator `OUT_REDIRECT` and
`File out.txt`. -/
theorem C1_quoted_literal_ends_at_eofChar (s : List Char)
    (hq : '"' ∉ s) (hb : '\\' ∉ s) (he : eofChar ∉ s) :
    (∀ (fuel : Nat) (tokens_ : List Token) (ws rest : List Char),
        (∀ c ∈ ws, isspace c = true) →
        tokenizeLoop (fuel + 1) tokens_ (ws ++ '"' :: (s ++ '"' :: rest)) =
          tokenizeLoop fuel (tokens_ ++ [Token.string s]) rest) ∧
      Tokenize ('"' :: (s ++ ['"'])) = some [Token.string s] ∧
      (∀ (fuel : Nat) (tokens_ : List Token) (rest : List Char),
        tokenizeLoop (fuel + 1) tokens_ ('"' :: (s ++ eofChar :: rest)) =
          tokenizeLoop fuel (AddToken tokens_ ('"' :: s)) rest) ∧
      Tokenize ['"', 'a', eofChar, 'b', '"'] =
        some [Token.string ['"', 'a'], Token.string ['b', '"']] ∧
      Tokenize ['"', 'a', eofChar, 'b', '"'] ≠ some [Token.string ['a', eofChar, 'b']] ∧
      Tokenize "echo \"a b\" > out.txt".toList =
        some [Token.Program "echo".toList, Token.string "a b".toList,
              Token.Operator Operator.OUT_REDIRECT, Token.File "out.txt".toList] := by
  have step : ∀ (fuel : Nat) (tokens_ : List Token) (ws rest : List Char),
      (∀ c ∈ ws, isspace c = true) →
      tokenizeLoop (fuel + 1) tokens_ (ws ++ '"' :: (s ++ '"' :: rest)) =
        tokenizeLoop fuel (tokens_ ++ [Token.string s]) rest := by
    intro fuel tokens_ ws rest hws
    rw [tokenizeLoop_step_of_ne_nil _ _ _ (by simp),
      tokenizeBody_quoted tokens_ ws s rest hws hq hb he]
  refine ⟨step, ?_, ?_, by decide, by decide, by decide⟩
  · apply Tokenize_of_fuel 1
    have := step 0 [] [] [] (by simp)
    simpa [tokenizeLoop] using this
  · intro fuel tokens_ rest
    rw [tokenizeLoop_step_of_ne_nil _ _ _ (by simp),
      tokenizeBody_quoted_eofChar tokens_ s rest hq hb he]

/-- C1 at the text `a b`, which holds a blank, and at the text `a` followed
by `eofChar` and `b"`. -/
theorem C1_quoted_literal_witness :
    ('"' ∉ "a b".toList ∧ '\\' ∉ "a b".toList ∧ eofChar ∉ "a b".toList) ∧
      Tokenize "\"a b\"".toList = some [Token.string "a b".toList] ∧
      Tokenize ['"', 'a', eofChar, 'b', '"'] =
        some [Token.string ['"', 'a'], Token.string ['b', '"']] :=
  ⟨⟨by decide, by decide, by decide⟩,
    (C1_quoted_literal_ends_at_eofChar "a b".toList (by decide) (by decide)
      (by decide)).2.1,
    (C1_quoted_literal_ends_at_eofChar "a b".toList (by decide) (by decide)
      (by decide)).2.2.2.1⟩

/-! ## Helper lemmas: words of plain characters -/

theorem plain_not_space {c : Char} (h : plain c = true) : isspace c = false :=
  ((plain_iff c).1 h).1

theorem skipSpaces_plain_word (w rest : List Char) (hw : ∀ c ∈ w, plain c = true)
    (hne : w ≠ []) : skipSpaces (w ++ rest) = w ++ rest := by
  cases w with
  | nil => exact absurd rfl hne
  | cons c w =>
    exact skipSpaces_nonspace c (w ++ rest) (plain_not_space (hw c (by simp)))

theorem AddToken_nil (tokens_ : List Token) : AddToken tokens_ [] = tokens_ := by
  simp [AddToken]

/-- An iteration of the outer loop on whitespace and a plain word that ends
the input. -/
theorem tokenizeBody_word_end (tokens_ : List Token) (ws w : List Char)
    (hws : ∀ c ∈ ws, isspace c = true) (hw : ∀ c ∈ w, plain c = true) :
    tokenizeBody tokens_ (ws ++ w) = (AddToken tokens_ w, []) := by
  have h := wordLoop_plain w tokens_ [] [] hw
  rw [List.append_nil, List.nil_append] at h
  rw [tokenizeBody_eq, ← List.append_nil (ws ++ w), List.append_assoc,
    skipSpaces_spaces ws _ hws, List.append_nil]
  cases w with
  | nil => simp [skipSpaces, wordLoop, AddToken_nil]
  | cons c w =>
    rw [skipSpaces_nonspace c w (plain_not_space (hw c (by simp))), h]
    simp [wordLoop]

/-- An iteration of the outer loop on whitespace and a non-empty plain word
followed by a whitespace character. -/
theorem tokenizeBody_word_space (tokens_ : List Token) (ws w : List Char) (sp : Char)
    (rest : List Char) (hws : ∀ c ∈ ws, isspace c = true)
    (hw : ∀ c ∈ w, plain c = true) (hne : w ≠ []) (hsp : isspace sp = true) :
    tokenizeBody tokens_ (ws ++ (w ++ sp :: rest)) = (AddToken tokens_ w, sp :: rest) := by
  rw [tokenizeBody_eq, skipSpaces_spaces ws _ hws, skipSpaces_plain_word w _ hw hne,
    wordLoop_plain w tokens_ [] (sp :: rest) hw, wordLoop_cons]
  simp [hsp]

/-- An iteration of the outer loop on whitespace and a plain word (possibly
empty) followed by `<` or `>`. -/
theorem tokenizeBody_word_angle (tokens_ : List Token) (ws w : List Char) (c : Char)
    (rest : List Char) (hws : ∀ d ∈ ws, isspace d = true)
    (hw : ∀ d ∈ w, plain d = true) (hc : c = '<' ∨ c = '>') :
    tokenizeBody tokens_ (ws ++ (w ++ c :: rest)) =
      (AddToken (AddToken tokens_ w) [c], rest) := by
  have hcs : isspace c = false := by rcases hc with rfl | rfl <;> decide
  have hcb : c ≠ '\\' := by rcases hc with rfl | rfl <;> decide
  have hcq : c ≠ '"' := by rcases hc with rfl | rfl <;> decide
  have hskip : skipSpaces (w ++ c :: rest) = w ++ c :: rest := by
    cases w with
    | nil => exact skipSpaces_nonspace c rest hcs
    | cons d w => exact skipSpaces_plain_word (d :: w) _ hw (by simp)
  rw [tokenizeBody_eq, skipSpaces_spaces ws _ hws, hskip,
    wordLoop_plain w tokens_ [] (c :: rest) hw, wordLoop_cons]
  simp [hcs, hcb, hcq, hc, AddToken_nil]

theorem tokenizeLoop_nil (fuel : Nat) (tokens_ : List Token) :
    tokenizeLoop fuel tokens_ [] = some tokens_ := by
  cases fuel <;> rfl

theorem tokenizeLoop_word_end (fuel : Nat) (tokens_ : List Token) (ws w : List Char)
    (hws : ∀ c ∈ ws, isspace c = true) (hw : ∀ c ∈ w, plain c = true) :
    tokenizeLoop (fuel + 1) tokens_ (ws ++ w) = some (AddToken tokens_ w) := by
  by_cases h : ws ++ w = []
  · have hw0 : w = [] := (List.append_eq_nil.1 h).2
    rw [h, hw0, AddToken_nil, tokenizeLoop_nil]
  · rw [tokenizeLoop_step_of_ne_nil _ _ _ h, tokenizeBody_word_end tokens_ ws w hws hw,
      tokenizeLoop_nil]

theorem tokenizeLoop_word_space (fuel : Nat) (tokens_ : List Token) (ws w : List Char)
    (sp : Char) (rest : List Char) (hws : ∀ c ∈ ws, isspace c = true)
    (hw : ∀ c ∈ w, plain c = true) (hne : w ≠ []) (hsp : isspace sp = true) :
    tokenizeLoop (fuel + 1) tokens_ (ws ++ (w ++ sp :: rest)) =
      tokenizeLoop fuel (AddToken tokens_ w) (sp :: rest) := by
  rw [tokenizeLoop_step_of_ne_nil _ _ _ (by simp),
    tokenizeBody_word_space tokens_ ws w sp rest hws hw hne hsp]

theorem tokenizeLoop_word_angle (fuel : Nat) (tokens_ : List Token) (ws w : List Char)
    (c : Char) (rest : List Char) (hws : ∀ d ∈ ws, isspace d = true)
    (hw : ∀ d ∈ w, plain d = true) (hc : c = '<' ∨ c = '>') :
    tokenizeLoop (fuel + 1) tokens_ (ws ++ (w ++ c :: rest)) =
      tokenizeLoop fuel (AddToken (AddToken tokens_ w) [c]) rest := by
  rw [tokenizeLoop_step_of_ne_nil _ _ _ (by simp),
    tokenizeBody_word_angle tokens_ ws w c rest hws hw hc]

theorem isspace_blank : ∀ c ∈ [' '], isspace c = true := by decide

theorem Tokenize_plain_word (w : List Char) (hw : ∀ c ∈ w, plain c = true) :
    Tokenize w = some (AddToken [] w) := by
  apply Tokenize_of_fuel 1
  have := tokenizeLoop_word_end 0 [] [] w (by simp) hw
  simpa using this

theorem Tokenize_word_angle_word (u v : List Char) (c : Char)
    (hu : ∀ d ∈ u, plain d = true) (hv : ∀ d ∈ v, plain d = true)
    (hc : c = '<' ∨ c = '>') :
    Tokenize (u ++ c :: v) = some (AddToken (AddToken (AddToken [] u) [c]) v) := by
  apply Tokenize_of_fuel 2
  have h1 := tokenizeLoop_word_angle 1 [] [] u c v (by simp) hu hc
  have h2 := tokenizeLoop_word_end 0 (AddToken (AddToken [] u) [c]) [] v (by simp) hv
  rw [List.nil_append] at h1 h2
  rw [h1, h2]

theorem tokenizeLoop_blank_word_end (fuel : Nat) (tokens_ : List Token) (v : List Char)
    (hv : ∀ d ∈ v, plain d = true) :
    tokenizeLoop (fuel + 1) tokens_ (' ' :: v) = some (AddToken tokens_ v) :=
  tokenizeLoop_word_end fuel tokens_ [' '] v isspace_blank hv

theorem Tokenize_word_blank_angle_blank_word (u v : List Char) (c : Char)
    (hu : ∀ d ∈ u, plain d = true) (hv : ∀ d ∈ v, plain d = true)
    (hc : c = '<' ∨ c = '>') :
    Tokenize (u ++ ' ' :: c :: ' ' :: v) =
      some (AddToken (AddToken (AddToken [] u) [c]) v) := by
  have hang : ∀ (fuel : Nat) (tokens_ : List Token),
      tokenizeLoop (fuel + 1) tokens_ (' ' :: c :: ' ' :: v) =
        tokenizeLoop fuel (AddToken tokens_ [c]) (' ' :: v) := by
    intro fuel tokens_
    have := tokenizeLoop_word_angle fuel tokens_ [' '] [] c (' ' :: v) isspace_blank
      (by simp) hc
    simpa [AddToken_nil] using this
  by_cases hne : u = []
  · subst hne
    apply Tokenize_of_fuel 2
    rw [List.nil_append, hang, tokenizeLoop_blank_word_end _ _ v hv, AddToken_nil]
  · apply Tokenize_of_fuel 3
    have h1 := tokenizeLoop_word_space 2 [] [] u ' ' (c :: ' ' :: v) (by simp) hu hne
      (by decide)
    rw [List.nil_append] at h1
    rw [h1, hang, tokenizeLoop_blank_word_end _ _ v hv]

theorem Tokenize_word_blank_word_blank_word (u op v : List Char)
    (hu : ∀ d ∈ u, plain d = true) (hv : ∀ d ∈ v, plain d = true)
    (hop : ∀ d ∈ op, plain d = true) (hopne : op ≠ []) :
    Tokenize (u ++ ' ' :: (op ++ ' ' :: v)) =
      some (AddToken (AddToken (AddToken [] u) op) v) := by
  have hmid : ∀ (fuel : Nat) (tokens_ : List Token),
      tokenizeLoop (fuel + 1) tokens_ (' ' :: (op ++ ' ' :: v)) =
        tokenizeLoop fuel (AddToken tokens_ op) (' ' :: v) := by
    intro fuel tokens_
    exact tokenizeLoop_word_space fuel tokens_ [' '] op ' ' v isspace_blank hop hopne
      (by decide)
  by_cases hne : u = []
  · subst hne
    apply Tokenize_of_fuel 2
    rw [List.nil_append, hmid, tokenizeLoop_blank_word_end _ _ v hv, AddToken_nil]
  · apply Tokenize_of_fuel 3
    have h1 := tokenizeLoop_word_space 2 [] [] u ' ' (op ++ ' ' :: v) (by simp) hu hne
      (by decide)
    rw [List.nil_append] at h1
    rw [h1, hmid, tokenizeLoop_blank_word_end _ _ v hv]

theorem ordinary_iff (c : Char) :
    ordinary c = true ↔ plain c = true ∧ c ≠ '|' ∧ c ≠ '&' := by
  simp [ordinary, and_assoc]

theorem ordinary_plain {c : Char} (h : ordinary c = true) : plain c = true :=
  ((ordinary_iff c).1 h).1

theorem operator_map_eq :
    operator_map_ =
      [(['&', '&'], Operator.AND), (['|', '|'], Operator.OR),
       (['<'], Operator.IN_REDIRECT), (['>'], Operator.OUT_REDIRECT),
       (['|'], Operator.PIPE)] := by decide

/-- A word whose first character is ordinary is not an operator spelling. -/
theorem lookup_ordinary_head (c : Char) (w : List Char) (hc : ordinary c = true) :
    operator_map_.lookup (c :: w) = none := by
  obtain ⟨hp, h1, h2⟩ := (ordinary_iff c).1 hc
  obtain ⟨-, -, -, h3, h4⟩ := (plain_iff c).1 hp
  have e1 : (c == '|') = false := by simpa using h1
  have e2 : (c == '&') = false := by simpa using h2
  have e3 : (c == '<') = false := by simpa using h3
  have e4 : (c == '>') = false := by simpa using h4
  rw [operator_map_eq]
  simp only [List.lookup, List.cons_beq_cons, e1, e2, e3, e4,
    Bool.false_and]

/-- A non-empty word that is no operator spelling becomes exactly one token,
and that token is not an operator. -/
theorem AddToken_word (tokens_ : List Token) (w : List Char) (hne : w ≠ [])
    (hop : operator_map_.lookup w = none) :
    ∃ t, AddToken tokens_ w = tokens_ ++ [t] ∧ isOperator t = false := by
  have hne1 : w.isEmpty = false := by
    cases w with
    | nil => exact absurd rfl hne
    | cons c w => rfl
  unfold AddToken
  rw [hop]
  simp only [hne1, Bool.false_eq_true, if_false]
  split
  · exact ⟨_, rfl, rfl⟩
  · split
    · exact ⟨_, rfl, rfl⟩
    · split
      · exact ⟨_, rfl, rfl⟩
      · split
        · exact ⟨_, rfl, rfl⟩
        · exact ⟨_, rfl, rfl⟩

theorem AddToken_ordinary_word (w x : List Char) (hw : ∀ c ∈ w, ordinary c = true)
    (hne : w ≠ []) : ∃ t, AddToken [] (w ++ x) = [t] ∧ isOperator t = false := by
  cases w with
  | nil => exact absurd rfl hne
  | cons c w =>
    have := AddToken_word [] (c :: w ++ x) (by simp)
      (lookup_ordinary_head c (w ++ x) (hw c (by simp)))
    simpa using this

/-! ## C2 -/

/-- C2, the claim fails: the unspaced `a|b` and `a&&b` are each lexed as one
string token, while the spaced forms give word, operator, word. -/
theorem C2_pipe_and_doubled_operators_not_self_delimiting :
    Tokenize "a|b".toList = some [Token.string "a|b".toList] ∧
    Tokenize "a | b".toList =
      some [Token.string "a".toList, Token.Operator Operator.PIPE,
            Token.string "b".toList] ∧
    Tokenize "a|b".toList ≠ Tokenize "a | b".toList ∧
    Tokenize "a&&b".toList = some [Token.string "a&&b".toList] ∧
    Tokenize "a&&b".toList ≠ Tokenize "a && b".toList ∧
    Tokenize "a||b".toList ≠ Tokenize "a || b".toList := by
  decide

/-- C2 as amended: only `<` and `>` are self-delimiting. For words `u`, `v`
of ordinary characters and `op` one of `<`, `>`, the unspaced `u op v` and
the spaced `u op v` both lex to the word `u`, the operator token of `op`,
the word `v`. For `op` one of `|`, `&&`, `||` the spaced form lexes to word,
operator, word, and the unspaced form is lexed as the single word `u op v`,
which for non-empty `u` is one token that is not an operator. A non-empty
ordinary word is one non-operator token. -/
theorem C2_only_angle_operators_are_self_delimiting (u v : List Char)
    (hu : ∀ c ∈ u, ordinary c = true) (hv : ∀ c ∈ v, ordinary c = true) :
    (∀ op oper, (op, oper) ∈ operator_map_ → (op = "<".toList ∨ op = ">".toList) →
        Tokenize (u ++ op ++ v) =
          some (AddToken [] u ++ [Token.Operator oper] ++ AddToken [] v) ∧
        Tokenize (u ++ " ".toList ++ op ++ " ".toList ++ v) =
          some (AddToken [] u ++ [Token.Operator oper] ++ AddToken [] v)) ∧
    (∀ op oper, (op, oper) ∈ operator_map_ → op ≠ "<".toList → op ≠ ">".toList →
        Tokenize (u ++ " ".toList ++ op ++ " ".toList ++ v) =
          some (AddToken [] u ++ [Token.Operator oper] ++ AddToken [] v) ∧
        Tokenize (u ++ op ++ v) = some (AddToken [] (u ++ op ++ v)) ∧
        (u ≠ [] → ∃ t, AddToken [] (u ++ op ++ v) = [t] ∧ isOperator t = false)) ∧
    (u ≠ [] → ∃ t, AddToken [] u = [t] ∧ isOperator t = false) ∧
    (v ≠ [] → ∃ t, AddToken [] v = [t] ∧ isOperator t = false) := by
  have hup : ∀ c ∈ u, plain c = true := fun c hc => ordinary_plain (hu c hc)
  have hvp : ∀ c ∈ v, plain c = true := fun c hc => ordinary_plain (hv c hc)
  have single : ∀ (w : List Char), (∀ c ∈ w, ordinary c = true) → w ≠ [] →
      ∃ t, AddToken [] w = [t] ∧ isOperator t = false := by
    intro w hw hne
    have := AddToken_ordinary_word w [] hw hne
    simpa using this
  have angle : ∀ (c : Char) (oper : Operator), (c = '<' ∨ c = '>') →
      AddToken [] [c] = [Token.Operator oper] →
      Tokenize (u ++ [c] ++ v) =
          some (AddToken [] u ++ [Token.Operator oper] ++ AddToken [] v) ∧
        Tokenize (u ++ " ".toList ++ [c] ++ " ".toList ++ v) =
          some (AddToken [] u ++ [Token.Operator oper] ++ AddToken [] v) := by
    intro c oper hc hadd
    have h1 := Tokenize_word_angle_word u v c hup hvp hc
    have h2 := Tokenize_word_blank_angle_blank_word u v c hup hvp hc
    rw [AddToken_append _ v, AddToken_append _ [c], hadd] at h1 h2
    constructor
    · simpa using h1
    · simpa using h2
  have word : ∀ (op : List Char) (oper : Operator), (∀ d ∈ op, plain d = true) →
      op ≠ [] → AddToken [] op = [Token.Operator oper] →
      Tokenize (u ++ " ".toList ++ op ++ " ".toList ++ v) =
          some (AddToken [] u ++ [Token.Operator oper] ++ AddToken [] v) ∧
        Tokenize (u ++ op ++ v) = some (AddToken [] (u ++ op ++ v)) ∧
        (u ≠ [] → ∃ t, AddToken [] (u ++ op ++ v) = [t] ∧ isOperator t = false) := by
    intro op oper hop hne hadd
    have h1 := Tokenize_word_blank_word_blank_word u op v hup hvp hop hne
    rw [AddToken_append _ v, AddToken_append _ op, hadd] at h1
    refine ⟨by simpa using h1, ?_, ?_⟩
    · apply Tokenize_plain_word
      intro c hc
      simp only [List.mem_append] at hc
      rcases hc with (hc | hc) | hc
      · exact hup c hc
      · exact hop c hc
      · exact hvp c hc
    · intro hune
      have := AddToken_ordinary_word u (op ++ v) hu hune
      simpa using this
  refine ⟨?_, ?_, single u hu, single v hv⟩
  · intro op oper hmem hop
    rw [operator_map_eq] at hmem
    rcases hop with rfl | rfl
    · have ho : oper = Operator.IN_REDIRECT := by
        simpa using hmem
      subst ho
      exact angle '<' Operator.IN_REDIRECT (Or.inl rfl) (by decide)
    · have ho : oper = Operator.OUT_REDIRECT := by
        simpa using hmem
      subst ho
      exact angle '>' Operator.OUT_REDIRECT (Or.inr rfl) (by decide)
  · intro op oper hmem hlt hgt
    rw [operator_map_eq] at hmem
    simp only [List.mem_cons, Prod.mk.injEq, List.mem_singleton, List.not_mem_nil,
      or_false] at hmem
    rcases hmem with ⟨rfl, rfl⟩ | ⟨rfl, rfl⟩ | ⟨rfl, rfl⟩ | ⟨rfl, rfl⟩ | ⟨rfl, rfl⟩
    · exact word _ _ (by decide) (by decide) (by decide)
    · exact word _ _ (by decide) (by decide) (by decide)
    · exact absurd rfl hlt
    · exact absurd rfl hgt
    · exact word _ _ (by decide) (by decide) (by decide)

/-- C2 as amended, at `u = echo` and `v = out.txt`. -/
theorem C2_only_angle_operators_witness :
    ((∀ c ∈ "echo".toList, ordinary c = true) ∧
      (∀ c ∈ "out.txt".toList, ordinary c = true)) ∧
    Tokenize "echo>out.txt".toList =
      some [Token.Program "echo".toList, Token.Operator Operator.OUT_REDIRECT,
            Token.File "out.txt".toList] :=
  ⟨⟨by decide, by decide⟩,
    ((C2_only_angle_operators_are_self_delimiting "echo".toList "out.txt".toList
      (by decide) (by decide)).1 ">".toList Operator.OUT_REDIRECT (by decide)
      (Or.inr rfl)).1⟩

/-! ## C3 -/

/-- The test of `AddToken` for a file name, in words: the word is a
non-empty stem followed by `.txt`. -/
theorem file_test_iff (w : List Char) :
    (w.length > 4 ∧ substrLast4 w = ".txt".toList) ↔
      ∃ stem, stem ≠ [] ∧ w = stem ++ ".txt".toList := by
  constructor
  · rintro ⟨hlen, hsub⟩
    refine ⟨w.take (w.length - 4), ?_, ?_⟩
    · intro h
      have := congrArg List.length h
      simp at this
      omega
    · have hd : (w.drop (w.length - 4)).length = 4 := by simp; omega
      have : (w.drop (w.length - 4)).take 4 = w.drop (w.length - 4) := by
        apply List.take_of_length_le
        omega
      unfold substrLast4 at hsub
      rw [this] at hsub
      rw [← hsub, List.take_append_drop]
  · rintro ⟨stem, hne, rfl⟩
    have hpos : 0 < stem.length := List.length_pos.2 hne
    have h4 : ".txt".toList.length = 4 := rfl
    refine ⟨by simp only [List.length_append, h4]; omega, ?_⟩
    unfold substrLast4
    have e : (stem ++ ".txt".toList).length - 4 = stem.length := by
      simp only [List.length_append, h4]; omega
    rw [e, List.drop_left]
    rfl

theorem lookup_none_of_not_spelling (w : List Char)
    (hop : w ∉ operator_map_.map Prod.fst) : operator_map_.lookup w = none := by
  rw [operator_map_eq] at hop ⊢
  simp only [List.map, List.mem_cons, List.mem_singleton, List.not_mem_nil, or_false,
    not_or] at hop
  obtain ⟨h1, h2, h3, h4, h5⟩ := hop
  have e1 : (w == ['&', '&']) = false := by simpa using h1
  have e2 : (w == ['|', '|']) = false := by simpa using h2
  have e3 : (w == ['<']) = false := by simpa using h3
  have e4 : (w == ['>']) = false := by simpa using h4
  have e5 : (w == ['|']) = false := by simpa using h5
  simp only [List.lookup, e1, e2, e3, e4, e5]

/-- The chain of tests of `AddToken` on a non-empty word that is no operator
spelling. -/
theorem AddToken_classify (tokens_ : List Token) (w : List Char) (hne : w ≠ [])
    (hop : w ∉ operator_map_.map Prod.fst) :
    AddToken tokens_ w =
      if w ∈ set_of_programs then tokens_ ++ [Token.Program w]
      else if w.length > 4 ∧ substrLast4 w = ".txt".toList then tokens_ ++ [Token.File w]
      else if w = "true".toList then tokens_ ++ [Token.bool true]
      else if w = "false".toList then tokens_ ++ [Token.bool false]
      else tokens_ ++ [Token.string w] := by
  have hne1 : w.isEmpty = false := by
    cases w with
    | nil => exact absurd rfl hne
    | cons c w => rfl
  unfold AddToken
  rw [lookup_none_of_not_spelling w hop]
  simp only [hne1, Bool.false_eq_true, if_false]

/-- C3, the claim fails: the word `.txt` is not empty, is no operator
spelling, is not whitelisted and ends with the suffix `.txt`, yet `AddToken`
appends the string argument `.txt`, not a `File`. -/
theorem C3_bare_suffix_is_a_string_not_a_file :
    ".txt".toList ≠ [] ∧
    ".txt".toList ∉ operator_map_.map Prod.fst ∧
    ".txt".toList ∉ set_of_programs ∧
    (∃ stem, ".txt".toList = stem ++ ".txt".toList) ∧
    AddToken [] ".txt".toList = [Token.string ".txt".toList] ∧
    AddToken [] ".txt".toList ≠ [Token.File ".txt".toList] :=
  ⟨by decide, by decide, by decide, ⟨[], rfl⟩, by decide, by decide⟩

/-- C3 as amended: for every non-empty word `w` that is no operator
spelling, `AddToken` appends `Program w` when `w` is whitelisted; otherwise
`File w` when `w` is a non-empty stem followed by `.txt` (more than four
characters); otherwise the boolean when `w` is `true` or `false`; otherwise
the string argument `w`. -/
theorem C3_classification_priority (tokens_ : List Token) (w : List Char)
    (hne : w ≠ []) (hop : w ∉ operator_map_.map Prod.fst) :
    (w ∈ set_of_programs → AddToken tokens_ w = tokens_ ++ [Token.Program w]) ∧
    (w ∉ set_of_programs → (∃ stem, stem ≠ [] ∧ w = stem ++ ".txt".toList) →
      AddToken tokens_ w = tokens_ ++ [Token.File w]) ∧
    (w ∉ set_of_programs → ¬ (∃ stem, stem ≠ [] ∧ w = stem ++ ".txt".toList) →
      w = "true".toList → AddToken tokens_ w = tokens_ ++ [Token.bool true]) ∧
    (w ∉ set_of_programs → ¬ (∃ stem, stem ≠ [] ∧ w = stem ++ ".txt".toList) →
      w = "false".toList → AddToken tokens_ w = tokens_ ++ [Token.bool false]) ∧
    (w ∉ set_of_programs → ¬ (∃ stem, stem ≠ [] ∧ w = stem ++ ".txt".toList) →
      w ≠ "true".toList → w ≠ "false".toList →
      AddToken tokens_ w = tokens_ ++ [Token.string w]) := by
  have unfold_eq := AddToken_classify tokens_ w hne hop
  refine ⟨?_, ?_, ?_, ?_, ?_⟩
  · intro h
    rw [unfold_eq, if_pos h]
  · intro h hf
    rw [unfold_eq, if_neg h, if_pos ((file_test_iff w).2 hf)]
  · intro h hf ht
    rw [unfold_eq, if_neg h, if_neg (fun x => hf ((file_test_iff w).1 x)), if_pos ht]
  · intro h hf ht
    have hnt : w ≠ "true".toList := by rw [ht]; decide
    rw [unfold_eq, if_neg h, if_neg (fun x => hf ((file_test_iff w).1 x)), if_neg hnt,
      if_pos ht]
  · intro h hf ht hfl
    rw [unfold_eq, if_neg h, if_neg (fun x => hf ((file_test_iff w).1 x)), if_neg ht,
      if_neg hfl]

/-- C3 as amended, at the word `out.txt`. -/
theorem C3_classification_priority_witness :
    ("out.txt".toList ≠ [] ∧ "out.txt".toList ∉ operator_map_.map Prod.fst) ∧
    AddToken [] "out.txt".toList = [Token.File "out.txt".toList] :=
  ⟨⟨by decide, by decide⟩,
    (C3_classification_priority [] "out.txt".toList (by decide) (by decide)).2.1
      (by decide) ⟨"out".toList, by decide, rfl⟩⟩

/-! ## Helper lemmas: FormBootKit -/

theorem set_after_done (done : List ArgSlot) (n : Nat) (v : ArgSlot) :
    (done ++ List.replicate (n + 1) ArgSlot.uninit).set done.length v =
      done ++ v :: List.replicate n ArgSlot.uninit := by
  induction done with
  | nil => simp [List.replicate_succ]
  | cons a done ih => simp [ih]

theorem setArgument_after_done (boot_kit : BootKit) (done : List ArgSlot) (idx : Nat)
    (v : ArgSlot) (harg : boot_kit.arguments = done ++ List.replicate (10 - idx) ArgSlot.uninit)
    (hlen : done.length = idx) (hidx : idx < 10) :
    setArgument boot_kit idx v =
      Except.ok { boot_kit with
        arguments := done ++ v :: List.replicate (9 - idx) ArgSlot.uninit } := by
  unfold setArgument
  rw [if_pos hidx, harg]
  have e : 10 - idx = (9 - idx) + 1 := by omega
  rw [e, ← hlen, set_after_done]

/-- The loop of `FormBootKit` on a run of non-operator tokens that fits the
array, followed by the end of the tokens or by an operator. -/
theorem formLoop_args (args post : List Token)
    (hpost : post = [] ∨ ∃ oper rest, post = Token.Operator oper :: rest) :
    ∀ (cur idx : Nat) (boot_kit : BootKit) (done : List ArgSlot),
      (∀ t ∈ args, isOperator t = false) →
      boot_kit.arguments = done ++ List.replicate (10 - idx) ArgSlot.uninit →
      done.length = idx → idx + args.length ≤ 9 →
      formLoop (args ++ post) cur boot_kit idx =
        Except.ok
          ({ boot_kit with
              arguments := done ++ (args.map (fun t => ArgSlot.str (CopyStr (tokenText t))) ++
                ArgSlot.null :: List.replicate (9 - idx - args.length) ArgSlot.uninit),
              arguments_size := idx + args.length },
            cur + args.length) := by
  induction args with
  | nil =>
    intro cur idx boot_kit done _ harg hlen hidx
    have hfin : formLoop ([] ++ post) cur boot_kit idx = formFinish boot_kit idx cur := by
      rcases hpost with rfl | ⟨oper, rest, rfl⟩ <;> rfl
    rw [hfin]
    unfold formFinish
    rw [setArgument_after_done boot_kit done idx ArgSlot.null harg hlen (by simp at hidx; omega)]
    simp
  | cons t args ih =>
    intro cur idx boot_kit done hargs harg hlen hidx
    have hlt : idx < 10 := by simp at hidx; omega
    have hstep : formLoop (t :: args ++ post) cur boot_kit idx =
        match formStore boot_kit idx (tokenText t) with
        | Except.error e => Except.error e
        | Except.ok kit1 => formLoop (args ++ post) (cur + 1) kit1 (idx + 1) := by
      cases t with
      | Operator op => simpa [isOperator] using hargs (Token.Operator op) (by simp)
      | Program name => rfl
      | File path => rfl
      | string arg => rfl
      | bool b => rfl
    rw [hstep]
    unfold formStore
    rw [setArgument_after_done boot_kit done idx _ harg hlen hlt]
    simp only []
    rw [ih (cur + 1) (idx + 1) _ (done ++ [ArgSlot.str (CopyStr (tokenText t))])
      (fun t1 h1 => hargs t1 (List.mem_cons_of_mem _ h1))
      (by simp) (by simp [hlen]) (by simp at hidx ⊢; omega)]
    simp only [List.length_cons, List.map_cons, List.append_assoc, List.singleton_append]
    have e1 : 9 - (idx + 1) - args.length = 9 - idx - (args.length + 1) := by omega
    have e2 : idx + 1 + args.length = idx + (args.length + 1) := by omega
    have e3 : cur + 1 + args.length = cur + (args.length + 1) := by omega
    rw [e1, e2, e3, List.cons_append]

theorem drop_cursor (pre rest : List Token) : (pre ++ rest).drop pre.length = rest := by
  simp

theorem getElem?_cursor (pre rest : List Token) (k : Nat) :
    (pre ++ rest)[pre.length + k]? = rest[k]? := by
  rw [List.getElem?_append_right (by omega)]
  congr 1
  omega

/-- The function `FormBootKit` with the cursor on a `Program` token followed
by at most eight non-operator tokens and then the end or an operator. -/
theorem FormBootKit_command (pre args post : List Token) (p : List Char)
    (hargs : ∀ t ∈ args, isOperator t = false) (hk : args.length ≤ 8)
    (hpost : post = [] ∨ ∃ oper rest, post = Token.Operator oper :: rest) :
    FormBootKit { tokens_ := pre ++ Token.Program p :: (args ++ post),
                  cur_token_ := pre.length } =
      Except.ok (commandKit p args,
        { tokens_ := pre ++ Token.Program p :: (args ++ post),
          cur_token_ := pre.length + 1 + args.length }) := by
  unfold FormBootKit
  simp only [drop_cursor]
  have h0 : setArgument { program_name := some (CopyStr p).chars } 0
        (ArgSlot.str (CopyStr p)) =
      Except.ok { program_name := some p,
                  arguments := ArgSlot.str (CopyStr p) :: List.replicate 9 ArgSlot.uninit } := by
    rfl
  rw [h0]
  simp only []
  rw [formLoop_args args post hpost (pre.length + 1) 1 _ [ArgSlot.str (CopyStr p)] hargs rfl rfl
    (by omega)]
  simp only [commandKit]
  have e1 : 9 - 1 - args.length = 8 - args.length := by omega
  have e2 : 1 + args.length = args.length + 1 := by omega
  rw [e1, e2]
  rfl

/-! ## C4 -/

/-- C4, what the code does: with the cursor on `Program p` followed by
`k ≤ 8` non-operator tokens and then an operator or the end of the tokens,
`FormBootKit` returns the `BootKit` with `program_name = p`, whose arguments
are the buffers that `CopyStr` made of `p` and of the texts of the `k`
tokens, then the null terminator (the remaining slots are not written),
`arguments_size = k + 1`, the inherited descriptors, `next_oper = NONE` and
`need_to_boot = true`, and the cursor is left on the operator, or at the
end.  Every one of these buffers was allocated with as many bytes as the
text has characters and was written with one byte more, the terminating NUL:
the argument strings end behind their allocation, they are not the
terminated texts of the claim. -/
theorem C4_FormBootKit_arguments_end_behind_allocation (pre args post : List Token)
    (p : List Char)
    (hargs : ∀ t ∈ args, isOperator t = false) (hk : args.length ≤ 8)
    (hpost : post = [] ∨ ∃ oper rest, post = Token.Operator oper :: rest) :
    FormBootKit { tokens_ := pre ++ Token.Program p :: (args ++ post),
                  cur_token_ := pre.length } =
      Except.ok
        ({ arguments := ArgSlot.str (CopyStr p) ::
              (args.map (fun t => ArgSlot.str (CopyStr (tokenText t))) ++
              ArgSlot.null :: List.replicate (8 - args.length) ArgSlot.uninit),
           arguments_size := args.length + 1,
           program_name := some p,
           in_descriptor := stdin_fd,
           out_descriptor := stdout_fd,
           next_oper := Operator.NONE,
           need_to_boot := true },
         { tokens_ := pre ++ Token.Program p :: (args ++ post),
           cur_token_ := pre.length + 1 + args.length }) ∧
    (∀ str : List Char,
      CopyStr str = { chars := str, allocated := str.length, written := str.length + 1 } ∧
        (CopyStr str).allocated < (CopyStr str).written) ∧
    GetCurToken { tokens_ := pre ++ Token.Program p :: (args ++ post),
                  cur_token_ := pre.length + 1 + args.length } = post.head? ∧
    IsEnd { tokens_ := pre ++ Token.Program p :: (args ++ post),
            cur_token_ := pre.length + 1 + args.length } = decide (post = []) := by
  refine ⟨FormBootKit_command pre args post p hargs hk hpost, ?_, ?_, ?_⟩
  · intro str
    constructor
    · simp [CopyStr]
    · simp [CopyStr]
  · unfold GetCurToken
    simp only []
    rw [Nat.add_assoc, getElem?_cursor, Nat.add_comm 1, List.getElem?_cons_succ,
      List.getElem?_append_right (le_refl _)]
    simp [List.head?_eq_getElem?]
  · unfold IsEnd
    cases post with
    | nil => simp; omega
    | cons t post => simp; omega

/-- C4 at `echo` followed by an argument of 24 characters `a`: the buffer of
the argument has 24 bytes, 25 bytes were written to it. -/
theorem C4_FormBootKit_witness :
    ((∀ t ∈ [Token.string (List.replicate 24 'a')], isOperator t = false) ∧
      [Token.string (List.replicate 24 'a')].length ≤ 8 ∧
      (([] : List Token) = [] ∨ ∃ oper rest, ([] : List Token) = Token.Operator oper :: rest)) ∧
    FormBootKit { tokens_ := [Token.Program "echo".toList,
                    Token.string (List.replicate 24 'a')],
                  cur_token_ := 0 } =
      Except.ok
        ({ arguments := [
              ArgSlot.str { chars := "echo".toList, allocated := 4, written := 5 },
              ArgSlot.str { chars := List.replicate 24 'a', allocated := 24, written := 25 },
              ArgSlot.null, ArgSlot.uninit, ArgSlot.uninit, ArgSlot.uninit,
              ArgSlot.uninit, ArgSlot.uninit, ArgSlot.uninit, ArgSlot.uninit],
           arguments_size := 2,
           program_name := some "echo".toList,
           in_descriptor := 0,
           out_descriptor := 1,
           next_oper := Operator.NONE,
           need_to_boot := true },
         { tokens_ := [Token.Program "echo".toList, Token.string (List.replicate 24 'a')],
           cur_token_ := 2 }) :=
  ⟨⟨by decide, by decide, Or.inl rfl⟩,
    (C4_FormBootKit_arguments_end_behind_allocation [] [Token.string (List.replicate 24 'a')]
      [] "echo".toList (by decide) (by decide) (Or.inl rfl)).1⟩

/-! ## Helper lemmas: the loops of `main` and their fuel -/

theorem GetCurToken_none_iff (tokenizer : Tokenizer) :
    GetCurToken tokenizer = none ↔ IsEnd tokenizer = true := by
  simp [GetCurToken, IsEnd]

theorem pipeLoop_exit (os : OS) (fuel : Nat) (st : Shell)
    (h : GetCurToken st.tokenizer ≠ some (Token.Operator Operator.PIPE)) :
    pipeLoop os fuel st = some (Built.ready st) := by
  cases fuel <;> (rw [pipeLoop]; split <;> simp_all)

theorem pipeLoop_succ (os : OS) (fuel : Nat) (st : Shell)
    (h : GetCurToken st.tokenizer = some (Token.Operator Operator.PIPE)) :
    pipeLoop os (fuel + 1) st =
      match pipeBody os st with
      | Built.stopped r => some (Built.stopped r)
      | Built.ready st1 => pipeLoop os fuel st1 := by
  rw [pipeLoop]
  simp only [h]

theorem pipeLoop_zero (os : OS) (st : Shell)
    (h : GetCurToken st.tokenizer = some (Token.Operator Operator.PIPE)) :
    pipeLoop os 0 st = none := by
  rw [pipeLoop]
  simp only [h]

theorem pipeLoop_mono (os : OS) (fuel : Nat) :
    ∀ (k : Nat) (st : Shell) (b : Built),
      pipeLoop os fuel st = some b → pipeLoop os (fuel + k) st = some b := by
  induction fuel with
  | zero =>
    intro k st b h
    by_cases hp : GetCurToken st.tokenizer = some (Token.Operator Operator.PIPE)
    · rw [pipeLoop_zero os st hp] at h
      exact absurd h (by simp)
    · rw [pipeLoop_exit os _ st hp] at h ⊢
      exact h
  | succ fuel ih =>
    intro k st b h
    by_cases hp : GetCurToken st.tokenizer = some (Token.Operator Operator.PIPE)
    · rw [show fuel + 1 + k = (fuel + k) + 1 by omega, pipeLoop_succ os _ st hp]
      rw [pipeLoop_succ os _ st hp] at h
      cases hb : pipeBody os st with
      | stopped r => rw [hb] at h; exact h
      | ready st1 => rw [hb] at h; exact ih k st1 b h
    · rw [pipeLoop_exit os _ st hp] at h ⊢
      exact h

theorem buildBody_mono (os : OS) (fuel k : Nat) (st : Shell) (cur_token : Token)
    (b : Built) (h : buildBody os fuel st cur_token = some b) :
    buildBody os (fuel + k) st cur_token = some b := by
  cases cur_token with
  | Program name =>
    simp only [buildBody] at h ⊢
    cases hf : FormBootKit st.tokenizer with
    | error e => rw [hf] at h; exact h
    | ok v =>
      rw [hf] at h
      exact pipeLoop_mono os fuel k _ b h
  | Operator op => cases op <;> exact h
  | File path => exact h
  | bool boolean => exact h
  | string arg => exact h

theorem buildLoop_end (os : OS) (fuel : Nat) (st : Shell)
    (h : GetCurToken st.tokenizer = none) :
    buildLoop os fuel st = some (Built.ready st) := by
  cases fuel <;> (rw [buildLoop]; simp only [h])

theorem buildLoop_succ (os : OS) (fuel : Nat) (st : Shell) (cur_token : Token)
    (h : GetCurToken st.tokenizer = some cur_token) :
    buildLoop os (fuel + 1) st =
      match buildBody os (fuel + 1) st cur_token with
      | none => none
      | some (Built.stopped r) => some (Built.stopped r)
      | some (Built.ready st1) => buildLoop os fuel st1 := by
  rw [buildLoop]
  simp only [h]

theorem buildLoop_zero (os : OS) (st : Shell) (cur_token : Token)
    (h : GetCurToken st.tokenizer = some cur_token) :
    buildLoop os 0 st = none := by
  rw [buildLoop]
  simp only [h]

/-- The build loop with the cursor on a `File` token uses up any fuel: the
body leaves the locals as they are. -/
theorem buildLoop_file_token (os : OS) (st : Shell) (path : List Char)
    (hcur : GetCurToken st.tokenizer = some (Token.File path)) :
    ∀ fuel : Nat, buildLoop os fuel st = none := by
  intro fuel
  induction fuel with
  | zero => exact buildLoop_zero os st _ hcur
  | succ fuel ih =>
    rw [buildLoop_succ os fuel st _ hcur]
    simp only [buildBody]
    exact ih

theorem buildLoop_mono (os : OS) (fuel : Nat) :
    ∀ (k : Nat) (st : Shell) (b : Built),
      buildLoop os fuel st = some b → buildLoop os (fuel + k) st = some b := by
  induction fuel with
  | zero =>
    intro k st b h
    cases hc : GetCurToken st.tokenizer with
    | none => rw [buildLoop_end os _ st hc] at h ⊢; exact h
    | some t => rw [buildLoop_zero os st t hc] at h; exact absurd h (by simp)
  | succ fuel ih =>
    intro k st b h
    cases hc : GetCurToken st.tokenizer with
    | none => rw [buildLoop_end os _ st hc] at h ⊢; exact h
    | some t =>
      rw [show fuel + 1 + k = (fuel + k) + 1 by omega, buildLoop_succ os _ st t hc]
      rw [buildLoop_succ os _ st t hc] at h
      cases hb : buildBody os (fuel + 1) st t with
      | none => rw [hb] at h; exact absurd h (by simp)
      | some b1 =>
        have hb2 := buildBody_mono os (fuel + 1) k st t b1 hb
        rw [show fuel + 1 + k = (fuel + k) + 1 by omega] at hb2
        rw [hb] at h
        rw [hb2]
        cases b1 with
        | stopped r => exact h
        | ready st1 => exact ih k st1 b h

theorem runTokens_mono (os : OS) (fuel k : Nat) (tokens : List Token) (r : Run)
    (h : runTokens os fuel tokens = some r) : runTokens os (fuel + k) tokens = some r := by
  unfold runTokens at h ⊢
  cases hb : buildLoop os fuel
      { tokenizer := { tokens_ := tokens, cur_token_ := 0 },
        programs := [], fds := [], log := [] } with
  | none => rw [hb] at h; exact absurd h (by simp)
  | some b =>
    rw [buildLoop_mono os fuel k _ b hb]
    rw [hb] at h
    exact h

theorem runLine_mono (os : OS) (fuel k : Nat) (str : List Char) (r : Run)
    (h : runLine os fuel str = some r) : runLine os (fuel + k) str = some r := by
  unfold runLine at h ⊢
  cases ht : Tokenize str with
  | none => rw [ht] at h; exact absurd h (by simp)
  | some tokens =>
    rw [ht] at h
    exact runTokens_mono os fuel k tokens r h

/-- More fuel does not change a finished run of `main`. -/
theorem main_mono (os : OS) (fuel k : Nat) (argv : List (List Char)) (r : Run)
    (h : main os fuel argv = some r) : main os (fuel + k) argv = some r := by
  unfold main at h ⊢
  split
  · simpa [*] using h
  · split
    · simp_all
    · cases ha : argv[2]? with
      | none => simp_all
      | some str =>
        simp only [ha] at h ⊢
        have h2 : runLine os fuel str = some r := by simpa [*] using h
        exact runLine_mono os fuel k str r h2

theorem execLoop_end (os : OS) (programs : List BootKit) (fds : List (List Char × Int))
    (fuel i : Nat) (return_code : Int) (log : List Event) (h : programs[i]? = none) :
    execLoop os programs fds fuel i return_code log =
      some { outcome := Outcome.returned return_code, log := log ++ CloseFDs fds } := by
  cases fuel <;> (rw [execLoop]; simp only [h])

theorem execLoop_succ (os : OS) (programs : List BootKit) (fds : List (List Char × Int))
    (fuel i : Nat) (return_code : Int) (log : List Event) (boot_kit : BootKit)
    (h : programs[i]? = some boot_kit) :
    execLoop os programs fds (fuel + 1) i return_code log =
      match execBody os programs fds i boot_kit log with
      | ExecNext.done r => some r
      | ExecNext.goto i1 return_code1 log1 =>
        execLoop os programs fds fuel i1 return_code1 log1 := by
  rw [execLoop]
  simp only [h]

/-! ## Helper lemmas: the executor -/

theorem lastStatus_append (l1 l2 : List Event) :
    ∀ (dflt : Int), lastStatus (l1 ++ l2) dflt = lastStatus l2 (lastStatus l1 dflt) := by
  induction l1 with
  | nil => intro dflt; rfl
  | cons e l1 ih =>
    intro dflt
    cases e <;> simp [lastStatus, ih]

theorem lastStatus_CloseFDs (fds : List (List Char × Int)) (dflt : Int) :
    lastStatus (CloseFDs fds) dflt = dflt := by
  induction fds with
  | nil => rfl
  | cons e fds ih => simpa [CloseFDs, lastStatus] using ih

theorem lastStatus_closeStage (boot_kit : BootKit) (dflt : Int) :
    lastStatus (closeStage boot_kit) dflt = dflt := by
  unfold closeStage
  split <;> split <;> simp [lastStatus]

theorem spawnCount_append (l1 l2 : List Event) :
    spawnCount (l1 ++ l2) = spawnCount l1 + spawnCount l2 := by
  induction l1 with
  | nil => simp [spawnCount]
  | cons e l1 ih => cases e <;> simp [spawnCount, ih]; omega

theorem spawnCount_CloseFDs (fds : List (List Char × Int)) :
    spawnCount (CloseFDs fds) = 0 := by
  induction fds with
  | nil => rfl
  | cons e fds ih => simpa [CloseFDs, spawnCount] using ih

/-- The dispatch of the executor on a `BootKit` with a program name ends
normally, only adds to the log, and adds no `status` marker. -/
theorem evalCommand_ok (os : OS) (boot_kit : BootKit) (log : List Event)
    (hname : boot_kit.program_name ≠ none) :
    ∃ return_code ext, evalCommand os boot_kit log = Except.ok (return_code, log ++ ext) ∧
      ∀ dflt, lastStatus ext dflt = dflt := by
  unfold evalCommand
  split
  · exact ⟨1, [], by simp, fun _ => rfl⟩
  · cases hn : boot_kit.program_name with
    | none => exact absurd hn hname
    | some name =>
      simp only []
      split
      · exact ⟨0, [], by simp, fun _ => rfl⟩
      · split
        · exact ⟨1, [], by simp, fun _ => rfl⟩
        · split
          · exact ⟨1, [], by simp, fun _ => rfl⟩
          · split
            · exact ⟨127, [Event.stderr (commandNotFound name)], rfl, fun _ => rfl⟩
            · refine ⟨os.wait log boot_kit,
                Event.spawn boot_kit (os.wait log boot_kit) :: closeStage boot_kit,
                by simp, fun dflt => ?_⟩
              simp [lastStatus, lastStatus_closeStage]

theorem skipLoop_ge (l : List BootKit) : ∀ (i : Nat), i ≤ skipLoop l i := by
  induction l with
  | nil => intro i; simp [skipLoop]
  | cons k l ih =>
    intro i
    simp only [skipLoop]
    split
    · exact le_trans (Nat.le_succ i) (ih (i + 1))
    · exact le_refl i

/-- The skip loop stops on the first `BootKit` whose `next_oper` is neither
`AND` nor `NONE`. -/
theorem skipLoop_index (l : List BootKit) :
    ∀ (i k : Nat) (boot_kit : BootKit), l[k]? = some boot_kit →
      ¬ (boot_kit.next_oper = Operator.AND ∨ boot_kit.next_oper = Operator.NONE) →
      (∀ m km, m < k → l[m]? = some km →
        km.next_oper = Operator.AND ∨ km.next_oper = Operator.NONE) →
      skipLoop l i = i + k := by
  induction l with
  | nil => intro i k boot_kit hk; simp at hk
  | cons a l ih =>
    intro i k boot_kit hk hstop hbefore
    cases k with
    | zero =>
      simp at hk
      subst hk
      simp [skipLoop, hstop]
    | succ k =>
      have ha := hbefore 0 a (by omega) (by simp)
      simp only [skipLoop, ha, if_true]
      rw [ih (i + 1) k boot_kit (by simpa using hk) hstop
        (fun m km hm hkm => hbefore (m + 1) km (by omega) (by simpa using hkm))]
      omega

/-- The skip loop runs to the end when every `next_oper` is `AND` or
`NONE`. -/
theorem skipLoop_all (l : List BootKit) :
    ∀ (i : Nat), (∀ (m : Nat) (km : BootKit), l[m]? = some km →
        km.next_oper = Operator.AND ∨ km.next_oper = Operator.NONE) →
      skipLoop l i = i + l.length := by
  induction l with
  | nil => intro i _; rfl
  | cons a l ih =>
    intro i h
    have ha := h 0 a (by simp)
    simp only [skipLoop, ha, if_true]
    rw [ih (i + 1) (fun m km hkm => h (m + 1) km (by simpa using hkm))]
    simp only [List.length_cons]
    omega

theorem execBody_goto_gt (os : OS) (programs : List BootKit)
    (fds : List (List Char × Int)) (i : Nat) (boot_kit : BootKit) (log : List Event)
    (i1 : Nat) (return_code1 : Int) (log1 : List Event)
    (h : execBody os programs fds i boot_kit log = ExecNext.goto i1 return_code1 log1) :
    i < i1 := by
  have hs := skipLoop_ge (programs.drop i) i
  unfold execBody at h
  split at h
  · simp at h
  · split at h
    · split at h
      · simp at h
      · simp only [ExecNext.goto.injEq] at h; omega
    · split at h
      · simp only [ExecNext.goto.injEq] at h; omega
      · simp only [ExecNext.goto.injEq] at h; omega

/-- What one iteration of the executor loop yields in terms of the status
markers, for a `BootKit` with a program name. -/
theorem execBody_status (os : OS) (programs : List BootKit)
    (fds : List (List Char × Int)) (i : Nat) (boot_kit : BootKit) (log : List Event)
    (hname : boot_kit.program_name ≠ none) :
    (∃ i1 return_code1 ext,
        execBody os programs fds i boot_kit log = ExecNext.goto i1 return_code1 (log ++ ext) ∧
        ∀ dflt, lastStatus ext dflt = return_code1) ∨
    (∃ return_code1 ext,
        execBody os programs fds i boot_kit log =
          ExecNext.done { outcome := Outcome.returned return_code1, log := log ++ ext } ∧
        ∀ dflt, lastStatus ext dflt = return_code1) := by
  obtain ⟨rc, ext, hev, hext⟩ := evalCommand_ok os boot_kit log hname
  have hl : ∀ dflt, lastStatus (ext ++ [Event.status i rc]) dflt = rc := by
    intro dflt
    rw [lastStatus_append]
    rfl
  have hl2 : ∀ dflt, lastStatus (ext ++ [Event.status i rc] ++ CloseFDs fds) dflt = rc := by
    intro dflt
    rw [lastStatus_append, lastStatus_CloseFDs, hl]
  unfold execBody
  rw [hev]
  simp only []
  split
  · split
    · right
      exact ⟨rc, ext ++ [Event.status i rc] ++ CloseFDs fds, by simp, hl2⟩
    · left
      exact ⟨i + 1, rc, ext ++ [Event.status i rc], by simp, hl⟩
  · split
    · left
      exact ⟨skipLoop (programs.drop i) i + 1, rc, ext ++ [Event.status i rc], by simp, hl⟩
    · left
      exact ⟨i + 1, rc, ext ++ [Event.status i rc], by simp, hl⟩

/-- The executor loop ends when it has one unit of fuel for each index left,
and the status it returns is that of the last command evaluated (the
`return_code` it started with when none was). -/
theorem execLoop_final_status (os : OS) (programs : List BootKit)
    (fds : List (List Char × Int))
    (hnames : ∀ k ∈ programs, k.program_name ≠ none) (fuel : Nat) :
    ∀ (i : Nat) (return_code : Int) (log : List Event), programs.length - i ≤ fuel →
      ∃ ext, execLoop os programs fds fuel i return_code log =
        some { outcome := Outcome.returned (lastStatus ext return_code),
               log := log ++ ext } := by
  induction fuel with
  | zero =>
    intro i return_code log hfuel
    have hi : programs[i]? = none := by
      rw [List.getElem?_eq_none_iff]; omega
    rw [execLoop_end os programs fds 0 i return_code log hi]
    exact ⟨CloseFDs fds, by rw [lastStatus_CloseFDs]⟩
  | succ fuel ih =>
    intro i return_code log hfuel
    cases hi : programs[i]? with
    | none =>
      rw [execLoop_end os programs fds _ i return_code log hi]
      exact ⟨CloseFDs fds, by rw [lastStatus_CloseFDs]⟩
    | some boot_kit =>
      have hmem : boot_kit ∈ programs := List.getElem?_mem hi
      rw [execLoop_succ os programs fds fuel i return_code log boot_kit hi]
      rcases execBody_status os programs fds i boot_kit log (hnames boot_kit hmem) with
        ⟨i1, rc1, ext, hb, hext⟩ | ⟨rc1, ext, hb, hext⟩
      · have hgt := execBody_goto_gt os programs fds i boot_kit log i1 rc1 _ hb
        rw [hb]
        simp only []
        obtain ⟨ext2, h2⟩ := ih i1 rc1 (log ++ ext) (by omega)
        refine ⟨ext ++ ext2, ?_⟩
        rw [h2, lastStatus_append, hext, List.append_assoc]
      · rw [hb]
        exact ⟨ext, by rw [hext]⟩

theorem whitelisted_not_reserved (name : List Char) (h : name ∈ set_of_programs) :
    name ≠ "true".toList ∧ name ≠ "false".toList ∧ name ≠ "no_txt".toList := by
  have hs : set_of_programs =
      ["echo".toList, "wc".toList, "cat".toList, "./tools/print_args".toList] := rfl
  rw [hs] at h
  simp only [List.mem_cons, List.mem_singleton, List.not_mem_nil, or_false] at h
  rcases h with rfl | rfl | rfl | rfl <;> decide

/-- The dispatch of the executor on a whitelisted command that may boot: one
process is spawned and `return_code` is the word stored by `wait`. -/
theorem evalCommand_spawn (os : OS) (boot_kit : BootKit) (log : List Event)
    (name : List Char) (hboot : boot_kit.need_to_boot = true)
    (hname : boot_kit.program_name = some name) (hw : name ∈ set_of_programs) :
    evalCommand os boot_kit log =
      Except.ok (os.wait log boot_kit,
        log ++ [Event.spawn boot_kit (os.wait log boot_kit)] ++ closeStage boot_kit) := by
  obtain ⟨h1, h2, h3⟩ := whitelisted_not_reserved name hw
  unfold evalCommand
  rw [hname]
  simp only [hboot, Bool.not_true, Bool.false_eq_true, if_false, if_neg h1, if_neg h2,
    if_neg h3, if_neg (not_not.2 hw)]

/-- The executor loop on a last command that is whitelisted, may boot and has
no chain operator: the process is spawned and the run returns the word stored
by `wait`. -/
theorem execLoop_last_spawn (os : OS) (programs : List BootKit)
    (fds : List (List Char × Int)) (fuel i : Nat) (return_code : Int)
    (log : List Event) (boot_kit : BootKit) (name : List Char)
    (hi : programs[i]? = some boot_kit) (hlast : programs[i + 1]? = none)
    (hboot : boot_kit.need_to_boot = true)
    (hname : boot_kit.program_name = some name) (hw : name ∈ set_of_programs)
    (hop : boot_kit.next_oper = Operator.NONE) :
    execLoop os programs fds (fuel + 1) i return_code log =
      some { outcome := Outcome.returned (os.wait log boot_kit),
             log := log ++ [Event.spawn boot_kit (os.wait log boot_kit)] ++
               closeStage boot_kit ++ [Event.status i (os.wait log boot_kit)] ++
               CloseFDs fds } := by
  have hb : execBody os programs fds i boot_kit log =
      ExecNext.goto (i + 1) (os.wait log boot_kit)
        (log ++ [Event.spawn boot_kit (os.wait log boot_kit)] ++ closeStage boot_kit ++
          [Event.status i (os.wait log boot_kit)]) := by
    unfold execBody
    rw [evalCommand_spawn os boot_kit log name hboot hname hw]
    simp only [hop]
    split <;> simp
  rw [execLoop_succ os programs fds fuel i return_code log boot_kit hi, hb]
  simp only []
  rw [execLoop_end os programs fds fuel _ _ _ hlast]

/-! ## Helper lemmas: what the build loop puts in `programs` -/

theorem setArgument_fields (boot_kit kit1 : BootKit) (idx : Nat) (v : ArgSlot)
    (h : setArgument boot_kit idx v = Except.ok kit1) :
    kit1.program_name = boot_kit.program_name ∧ kit1.next_oper = boot_kit.next_oper := by
  unfold setArgument at h
  split at h
  · cases h
    exact ⟨rfl, rfl⟩
  · cases h

theorem formFinish_fields (boot_kit kit1 : BootKit) (cur_idx cur cur1 : Nat)
    (h : formFinish boot_kit cur_idx cur = Except.ok (kit1, cur1)) :
    kit1.program_name = boot_kit.program_name ∧ kit1.next_oper = boot_kit.next_oper := by
  unfold formFinish at h
  cases hs : setArgument boot_kit cur_idx ArgSlot.null with
  | error e => rw [hs] at h; cases h
  | ok kit2 =>
    rw [hs] at h
    cases h
    exact setArgument_fields boot_kit kit2 cur_idx _ hs

theorem formLoop_step (t : Token) (rest : List Token) (cur : Nat) (boot_kit : BootKit)
    (idx : Nat) (ht : isOperator t = false) :
    formLoop (t :: rest) cur boot_kit idx =
      match formStore boot_kit idx (tokenText t) with
      | Except.error e => Except.error e
      | Except.ok kit1 => formLoop rest (cur + 1) kit1 (idx + 1) := by
  cases t with
  | Operator op => simp [isOperator] at ht
  | Program name => rfl
  | File path => rfl
  | string arg => rfl
  | bool b => rfl

theorem formLoop_fields (l : List Token) :
    ∀ (cur idx : Nat) (boot_kit kit1 : BootKit) (cur1 : Nat),
      formLoop l cur boot_kit idx = Except.ok (kit1, cur1) →
      kit1.program_name = boot_kit.program_name ∧ kit1.next_oper = boot_kit.next_oper := by
  induction l with
  | nil =>
    intro cur idx boot_kit kit1 cur1 h
    exact formFinish_fields boot_kit kit1 idx cur cur1 h
  | cons t l ih =>
    intro cur idx boot_kit kit1 cur1 h
    cases ht : isOperator t with
    | true =>
      cases t with
      | Operator op => exact formFinish_fields boot_kit kit1 idx cur cur1 h
      | Program name => simp [isOperator] at ht
      | File path => simp [isOperator] at ht
      | string arg => simp [isOperator] at ht
      | bool b => simp [isOperator] at ht
    | false =>
      rw [formLoop_step t l cur boot_kit idx ht] at h
      cases hs : formStore boot_kit idx (tokenText t) with
      | error e => rw [hs] at h; cases h
      | ok kit2 =>
        rw [hs] at h
        have h1 := setArgument_fields boot_kit kit2 idx _ hs
        have h2 := ih (cur + 1) (idx + 1) kit2 kit1 cur1 h
        exact ⟨h2.1.trans h1.1, h2.2.trans h1.2⟩

theorem FormBootKit_builtKit (tokenizer tokenizer1 : Tokenizer) (boot_kit : BootKit)
    (h : FormBootKit tokenizer = Except.ok (boot_kit, tokenizer1)) : builtKit boot_kit := by
  unfold FormBootKit at h
  split at h
  · cases h
  · rename_i name rest _
    try simp only [] at h
    cases h0 : setArgument { program_name := some (CopyStr name).chars } 0
        (ArgSlot.str (CopyStr name)) with
    | error e => rw [h0] at h; cases h
    | ok kit1 =>
      rw [h0] at h
      try simp only [] at h
      cases h1 : formLoop rest (tokenizer.cur_token_ + 1) kit1 1 with
      | error e => rw [h1] at h; cases h
      | ok v =>
        obtain ⟨kit2, cur⟩ := v
        rw [h1] at h
        cases h
        have f0 := setArgument_fields _ kit1 0 _ h0
        have f1 := formLoop_fields rest _ _ kit1 boot_kit cur h1
        constructor
        · rw [f1.1, f0.1]; simp
        · right; right
          rw [f1.2, f0.2]
  · cases h

theorem updateBack_all (P : BootKit → Prop) (programs programs1 : List BootKit)
    (f : BootKit → BootKit) (hall : ∀ k ∈ programs, P k)
    (h : updateBack programs f = some programs1) (hf : ∀ k, P k → P (f k)) :
    ∀ k ∈ programs1, P k := by
  unfold updateBack at h
  cases hl : programs.getLast? with
  | none => rw [hl] at h; cases h
  | some last =>
    rw [hl] at h
    cases h
    intro k hk
    rw [List.mem_append] at hk
    rcases hk with hk | hk
    · exact hall k (List.mem_of_mem_dropLast hk)
    · rw [List.mem_singleton] at hk
      rw [hk]
      exact hf last (hall last (List.mem_of_getLast?_eq_some hl))

theorem builtKit_default (name : List Char) :
    builtKit { program_name := some name } :=
  ⟨by simp, Or.inr (Or.inr rfl)⟩

theorem all_append_singleton (P : BootKit → Prop) (programs : List BootKit)
    (boot_kit : BootKit) (hall : ∀ k ∈ programs, P k) (hk : P boot_kit) :
    ∀ k ∈ programs ++ [boot_kit], P k := by
  intro k hmem
  rw [List.mem_append, List.mem_singleton] at hmem
  rcases hmem with h | h
  · exact hall k h
  · rw [h]; exact hk

theorem pipeBody_builtKit (os : OS) (st st1 : Shell)
    (hall : ∀ k ∈ st.programs, builtKit k) (h : pipeBody os st = Built.ready st1) :
    ∀ k ∈ st1.programs, builtKit k := by
  unfold pipeBody at h
  split at h
  · cases h
  · rename_i rd wr _
    try simp only [] at h
    split at h
    · cases h
    · rename_i programs1 hp1
      have hall1 := updateBack_all builtKit _ _ _ hall hp1 (fun k hk => ⟨hk.1, hk.2⟩)
      try simp only [] at h
      split at h
      · cases h
      · split at h
        · cases h
        · rename_i boot_kit tokenizer2 hform
          split at h
          · cases h
          · rename_i programs2 hp2
            cases h
            exact updateBack_all builtKit _ _ _
              (all_append_singleton builtKit programs1 boot_kit hall1
                (FormBootKit_builtKit _ _ _ hform))
              hp2 (fun k hk => ⟨hk.1, hk.2⟩)
      · split at h <;> cases h
      · cases h

theorem pipeLoop_builtKit (os : OS) (fuel : Nat) :
    ∀ (st st1 : Shell), (∀ k ∈ st.programs, builtKit k) →
      pipeLoop os fuel st = some (Built.ready st1) → ∀ k ∈ st1.programs, builtKit k := by
  induction fuel with
  | zero =>
    intro st st1 hall h
    by_cases hp : GetCurToken st.tokenizer = some (Token.Operator Operator.PIPE)
    · rw [pipeLoop_zero os st hp] at h; cases h
    · rw [pipeLoop_exit os _ st hp] at h
      cases h
      exact hall
  | succ fuel ih =>
    intro st st1 hall h
    by_cases hp : GetCurToken st.tokenizer = some (Token.Operator Operator.PIPE)
    · rw [pipeLoop_succ os _ st hp] at h
      cases hb : pipeBody os st with
      | stopped r => rw [hb] at h; cases h
      | ready st2 =>
        rw [hb] at h
        exact ih st2 st1 (pipeBody_builtKit os st st2 hall hb) h
    · rw [pipeLoop_exit os _ st hp] at h
      cases h
      exact hall

theorem bindRedirect_builtKit (st st1 : Shell) (tokenizer1 : Tokenizer)
    (log1 : List Event) (path : List Char) (fd : Int) (bind : BootKit → BootKit)
    (hall : ∀ k ∈ st.programs, builtKit k)
    (h : bindRedirect st tokenizer1 log1 path fd bind = Built.ready st1)
    (hbind : ∀ k, builtKit k → builtKit (bind k)) :
    ∀ k ∈ st1.programs, builtKit k := by
  unfold bindRedirect at h
  simp only [] at h
  split at h
  · split at h
    · cases h
    · split at h
      · cases h
      · rename_i boot_kit tokenizer3 hform
        split at h
        · cases h
        · rename_i programs1 hp
          cases h
          exact updateBack_all builtKit _ _ _
            (all_append_singleton builtKit st.programs boot_kit hall
              (FormBootKit_builtKit _ _ _ hform)) hp hbind
    · cases h
  · split at h
    · cases h
    · rename_i programs1 hp
      cases h
      exact updateBack_all builtKit _ _ _ hall hp hbind

theorem buildBody_builtKit (os : OS) (fuel : Nat) (st st1 : Shell) (cur_token : Token)
    (hall : ∀ k ∈ st.programs, builtKit k)
    (h : buildBody os fuel st cur_token = some (Built.ready st1)) :
    ∀ k ∈ st1.programs, builtKit k := by
  cases cur_token with
  | Program name =>
    simp only [buildBody] at h
    cases hf : FormBootKit st.tokenizer with
    | error e => rw [hf] at h; cases h
    | ok v =>
      obtain ⟨boot_kit, tokenizer1⟩ := v
      rw [hf] at h
      try simp only [] at h
      exact pipeLoop_builtKit os fuel _ st1
        (all_append_singleton builtKit st.programs boot_kit hall
          (FormBootKit_builtKit _ _ _ hf)) h
  | File path =>
    simp only [buildBody] at h
    cases h
    exact hall
  | bool boolean =>
    simp only [buildBody] at h
    cases h
    exact all_append_singleton builtKit st.programs _ hall (builtKit_default _)
  | string arg =>
    simp only [buildBody] at h
    cases h
    exact all_append_singleton builtKit st.programs _ hall (builtKit_default _)
  | Operator op =>
    cases op with
    | NONE =>
      simp only [buildBody] at h
      cases h
      exact hall
    | AND =>
      simp only [buildBody] at h
      split at h
      · cases h
      · rename_i programs1 hp
        cases h
        exact updateBack_all builtKit _ _ _ hall hp (fun k hk => ⟨hk.1, Or.inl rfl⟩)
    | OR =>
      simp only [buildBody] at h
      split at h
      · cases h
      · rename_i programs1 hp
        cases h
        exact updateBack_all builtKit _ _ _ hall hp (fun k hk => ⟨hk.1, Or.inr (Or.inl rfl)⟩)
    | PIPE =>
      simp only [buildBody] at h
      split at h
      · cases h
      · split at h
        · cases h
        · split at h
          · cases h
          · rename_i boot_kit tokenizer2 hform
            split at h
            · cases h
            · rename_i programs1 hp
              cases h
              exact updateBack_all builtKit _ _ _
                (all_append_singleton builtKit st.programs boot_kit hall
                  (FormBootKit_builtKit _ _ _ hform))
                hp (fun k hk => ⟨hk.1, hk.2⟩)
        · cases h
    | OUT_REDIRECT =>
      simp only [buildBody] at h
      split at h
      · cases h
      · split at h
        · cases h
        · simp only [Option.some.injEq] at h
          exact bindRedirect_builtKit st st1 _ _ _ _ _ hall h (fun k hk => ⟨hk.1, hk.2⟩)
      · cases h
    | IN_REDIRECT =>
      simp only [buildBody] at h
      split at h
      · cases h
      · split at h
        · split at h
          · cases h
            exact all_append_singleton builtKit st.programs _ hall (builtKit_default _)
          · split at h
            · cases h
            · rename_i programs1 hp
              cases h
              exact updateBack_all builtKit _ _ _ hall hp (fun k hk => ⟨hk.1, hk.2⟩)
        · simp only [Option.some.injEq] at h
          exact bindRedirect_builtKit st st1 _ _ _ _ _ hall h (fun k hk => ⟨hk.1, hk.2⟩)
      · cases h

/-- Every `BootKit` that the build loop leaves in `programs` has a program
name and a chain operator that is `AND`, `OR` or `NONE`. -/
theorem buildLoop_builtKit (os : OS) (fuel : Nat) :
    ∀ (st st1 : Shell), (∀ k ∈ st.programs, builtKit k) →
      buildLoop os fuel st = some (Built.ready st1) → ∀ k ∈ st1.programs, builtKit k := by
  induction fuel with
  | zero =>
    intro st st1 hall h
    cases hc : GetCurToken st.tokenizer with
    | none =>
      rw [buildLoop_end os _ st hc] at h
      cases h
      exact hall
    | some t => rw [buildLoop_zero os st t hc] at h; cases h
  | succ fuel ih =>
    intro st st1 hall h
    cases hc : GetCurToken st.tokenizer with
    | none =>
      rw [buildLoop_end os _ st hc] at h
      cases h
      exact hall
    | some t =>
      rw [buildLoop_succ os _ st t hc] at h
      cases hb : buildBody os (fuel + 1) st t with
      | none => rw [hb] at h; cases h
      | some b =>
        rw [hb] at h
        cases b with
        | stopped r => cases h
        | ready st2 =>
          exact ih st2 st1 (buildBody_builtKit os _ st st2 t hall hb) h

/-! ## C5 -/

/-- C5: when the command `programs[i]` evaluated by the executor loop ends
with status 0 and its `next_oper` is `OR`, the loop body ends `main`: the run
returns 0, and after the events of that command the log holds only its
status marker and the closes of `CloseFDs`, so no later command is evaluated
and no process is spawned for one. The command line `true || echo ok` spawns
nothing and returns 0. -/
theorem C5_or_short_circuits_after_success (os : OS) (programs : List BootKit)
    (fds : List (List Char × Int)) (fuel i : Nat) (return_code : Int)
    (log log1 : List Event) (boot_kit : BootKit)
    (hi : programs[i]? = some boot_kit)
    (hev : evalCommand os boot_kit log = Except.ok (0, log1))
    (hop : boot_kit.next_oper = Operator.OR) :
    execBody os programs fds i boot_kit log =
      ExecNext.done { outcome := Outcome.returned 0,
                      log := log1 ++ [Event.status i 0] ++ CloseFDs fds } ∧
    execLoop os programs fds (fuel + 1) i return_code log =
      some { outcome := Outcome.returned 0,
             log := log1 ++ [Event.status i 0] ++ CloseFDs fds } ∧
    spawnCount (log1 ++ [Event.status i 0] ++ CloseFDs fds) = spawnCount log1 ∧
    (∀ j rc, Event.status j rc ∈ Event.status i 0 :: CloseFDs fds → j = i) ∧
    (∀ (os1 : OS) (k : Nat), main os1 (3 + k) (argvOf "true || echo ok") =
      some { outcome := Outcome.returned 0, log := [Event.status 0 0] }) := by
  have hb : execBody os programs fds i boot_kit log =
      ExecNext.done { outcome := Outcome.returned 0,
                      log := log1 ++ [Event.status i 0] ++ CloseFDs fds } := by
    unfold execBody
    rw [hev]
    simp [hop]
  refine ⟨hb, ?_, ?_, ?_, ?_⟩
  · rw [execLoop_succ os programs fds fuel i return_code log boot_kit hi, hb]
  · rw [spawnCount_append, spawnCount_append, spawnCount_CloseFDs]
    rfl
  · intro j rc hmem
    simp only [List.mem_cons, Event.status.injEq, CloseFDs, List.mem_map] at hmem
    rcases hmem with ⟨h, -⟩ | ⟨e, -, he⟩
    · exact h
    · exact absurd he (by simp)
  · intro os1 k
    exact main_mono os1 3 k _ _ rfl

/-- C5 on the two commands built from `true || echo ok`. -/
theorem C5_or_short_circuits_witness :
    ([({ program_name := some "true".toList, next_oper := Operator.OR } : BootKit),
        commandKit "echo".toList [Token.string "ok".toList]][0]? =
        some { program_name := some "true".toList, next_oper := Operator.OR } ∧
      evalCommand (fixedOS 0)
          { program_name := some "true".toList, next_oper := Operator.OR } [] =
        Except.ok (0, []) ∧
      ({ program_name := some "true".toList, next_oper := Operator.OR } : BootKit).next_oper =
        Operator.OR) ∧
    execLoop (fixedOS 0)
        [{ program_name := some "true".toList, next_oper := Operator.OR },
          commandKit "echo".toList [Token.string "ok".toList]] [] 1 0 0 [] =
      some { outcome := Outcome.returned 0, log := [Event.status 0 0] } :=
  ⟨⟨rfl, rfl, rfl⟩,
    (C5_or_short_circuits_after_success (fixedOS 0)
      [{ program_name := some "true".toList, next_oper := Operator.OR },
        commandKit "echo".toList [Token.string "ok".toList]] [] 0 0 0 [] []
      { program_name := some "true".toList, next_oper := Operator.OR } rfl rfl rfl).2.1⟩

/-! ## C6 -/

/-- C6: when the command `programs[i]` ends with a non-zero status and its
`next_oper` is `OR`, the loop goes on with index `i + 1`, so the body runs
next on the immediately following command; for every command sequence the
executor loop ends and the status it returns is that of the last status
marker, the last command evaluated (every command has a program name, as
all commands that the build loop makes have); and `false || echo ok` spawns
`echo ok` once and returns 0 when `echo` exits with 0. -/
theorem C6_or_runs_next_after_failure (os : OS) (programs : List BootKit)
    (fds : List (List Char × Int)) (fuel i : Nat) (return_code return_code1 : Int)
    (log log1 : List Event) (boot_kit : BootKit)
    (hi : programs[i]? = some boot_kit)
    (hev : evalCommand os boot_kit log = Except.ok (return_code1, log1))
    (hne : return_code1 ≠ 0)
    (hop : boot_kit.next_oper = Operator.OR) :
    execBody os programs fds i boot_kit log =
      ExecNext.goto (i + 1) return_code1 (log1 ++ [Event.status i return_code1]) ∧
    execLoop os programs fds (fuel + 1) i return_code log =
      execLoop os programs fds fuel (i + 1) return_code1
        (log1 ++ [Event.status i return_code1]) ∧
    (∀ next_kit, programs[i + 1]? = some next_kit →
      execLoop os programs fds (fuel + 2) i return_code log =
        match execBody os programs fds (i + 1) next_kit
            (log1 ++ [Event.status i return_code1]) with
        | ExecNext.done r => some r
        | ExecNext.goto i2 return_code2 log2 =>
          execLoop os programs fds fuel i2 return_code2 log2) ∧
    (∀ (os1 : OS) (programs1 : List BootKit) (fds1 : List (List Char × Int))
        (log0 : List Event), (∀ k ∈ programs1, k.program_name ≠ none) →
      ∃ ext, execLoop os1 programs1 fds1 programs1.length 0 0 log0 =
        some { outcome := Outcome.returned (lastStatus ext 0), log := log0 ++ ext }) ∧
    (∀ (os1 : OS) (k : Nat),
      os1.wait [Event.status 0 1] (commandKit "echo".toList [Token.string "ok".toList]) =
        exitedStatus 0 →
      main os1 (3 + k) (argvOf "false || echo ok") =
        some { outcome := Outcome.returned 0,
               log := [Event.status 0 1,
                       Event.spawn (commandKit "echo".toList [Token.string "ok".toList]) 0,
                       Event.status 1 0] }) ∧
    (∀ (os1 : OS) (fuel1 : Nat) (tokens : List Token) (st1 : Shell),
      buildLoop os1 fuel1
          { tokenizer := { tokens_ := tokens, cur_token_ := 0 },
            programs := [], fds := [], log := [] } = some (Built.ready st1) →
      ∀ k ∈ st1.programs, k.program_name ≠ none) := by
  have hb : execBody os programs fds i boot_kit log =
      ExecNext.goto (i + 1) return_code1 (log1 ++ [Event.status i return_code1]) := by
    unfold execBody
    rw [hev]
    simp [hop, hne]
  have hstep : execLoop os programs fds (fuel + 1) i return_code log =
      execLoop os programs fds fuel (i + 1) return_code1
        (log1 ++ [Event.status i return_code1]) := by
    rw [execLoop_succ os programs fds fuel i return_code log boot_kit hi, hb]
  refine ⟨hb, hstep, ?_, ?_, ?_, ?_⟩
  · intro next_kit hnext
    rw [execLoop_succ os programs fds (fuel + 1) i return_code log boot_kit hi, hb]
    simp only []
    rw [execLoop_succ os programs fds fuel (i + 1) return_code1 _ next_kit hnext]
  · intro os1 programs1 fds1 log0 hnames
    exact execLoop_final_status os1 programs1 fds1 hnames programs1.length 0 0 log0
      (by omega)
  · intro os1 k hw
    have h1 : main os1 3 (argvOf "false || echo ok") =
        execLoop os1
          [{ program_name := some "false".toList, next_oper := Operator.OR },
            commandKit "echo".toList [Token.string "ok".toList]] [] 1 1 1
          [Event.status 0 1] := rfl
    have h2 := execLoop_last_spawn os1
      [{ program_name := some "false".toList, next_oper := Operator.OR },
        commandKit "echo".toList [Token.string "ok".toList]] [] 0 1 1
      [Event.status 0 1] (commandKit "echo".toList [Token.string "ok".toList])
      "echo".toList rfl rfl rfl rfl (by decide) rfl
    rw [hw] at h2
    exact main_mono os1 3 k _ _ (h1.trans h2)
  · intro os1 fuel1 tokens st1 hbuild k hk
    exact (buildLoop_builtKit os1 fuel1 _ st1 (by simp) hbuild k hk).1

/-- C6 on the two commands built from `false || echo ok`. -/
theorem C6_or_runs_next_witness :
    ([({ program_name := some "false".toList, next_oper := Operator.OR } : BootKit),
        commandKit "echo".toList [Token.string "ok".toList]][0]? =
        some { program_name := some "false".toList, next_oper := Operator.OR } ∧
      evalCommand (fixedOS 0)
          { program_name := some "false".toList, next_oper := Operator.OR } [] =
        Except.ok (1, []) ∧
      (1 : Int) ≠ 0 ∧
      ({ program_name := some "false".toList, next_oper := Operator.OR } : BootKit).next_oper =
        Operator.OR) ∧
    execBody (fixedOS 0)
        [{ program_name := some "false".toList, next_oper := Operator.OR },
          commandKit "echo".toList [Token.string "ok".toList]] [] 0
        { program_name := some "false".toList, next_oper := Operator.OR } [] =
      ExecNext.goto 1 1 [Event.status 0 1] :=
  ⟨⟨rfl, rfl, by decide, rfl⟩,
    (C6_or_runs_next_after_failure (fixedOS 0)
      [{ program_name := some "false".toList, next_oper := Operator.OR },
        commandKit "echo".toList [Token.string "ok".toList]] [] 0 0 0 1 [] []
      { program_name := some "false".toList, next_oper := Operator.OR }
      rfl rfl (by decide) rfl).1⟩

/-! ## C7 -/

/-- C7: in a command sequence whose chain operators are `AND`, `OR` or none
(as they are in every sequence that the build loop makes, last part), when
the command `programs[i]` ends with a non-zero status and its
`next_oper` is `AND`: with `j` the least index from `i` on whose `next_oper`
is `OR`, the loop goes on with index `j + 1`, so the body runs on none of the
commands `i + 1 .. j`; when there is no such `j` the run ends with the
failing status of command `i` and nothing more is evaluated. The command line
`false && echo a || echo b` evaluates `false` and `echo b` only. -/
theorem C7_and_failure_skips_to_first_or (os : OS) (programs : List BootKit)
    (fds : List (List Char × Int)) (fuel i : Nat) (return_code return_code1 : Int)
    (log log1 : List Event) (boot_kit : BootKit)
    (hi : programs[i]? = some boot_kit)
    (hev : evalCommand os boot_kit log = Except.ok (return_code1, log1))
    (hne : return_code1 ≠ 0)
    (hop : boot_kit.next_oper = Operator.AND)
    (hbuilt : ∀ k ∈ programs, k.next_oper = Operator.AND ∨ k.next_oper = Operator.OR ∨
      k.next_oper = Operator.NONE) :
    (∀ j kitj, i ≤ j → programs[j]? = some kitj → kitj.next_oper = Operator.OR →
      (∀ m km, i ≤ m → m < j → programs[m]? = some km → km.next_oper ≠ Operator.OR) →
      execBody os programs fds i boot_kit log =
        ExecNext.goto (j + 1) return_code1 (log1 ++ [Event.status i return_code1]) ∧
      execLoop os programs fds (fuel + 1) i return_code log =
        execLoop os programs fds fuel (j + 1) return_code1
          (log1 ++ [Event.status i return_code1])) ∧
    ((∀ m km, i ≤ m → programs[m]? = some km → km.next_oper ≠ Operator.OR) →
      execLoop os programs fds (fuel + 1) i return_code log =
        some { outcome := Outcome.returned return_code1,
               log := log1 ++ [Event.status i return_code1] ++ CloseFDs fds }) ∧
    (∀ (os1 : OS) (k : Nat),
      main os1 (5 + k) (argvOf "false && echo a || echo b") =
        some { outcome := Outcome.returned
                 (os1.wait [Event.status 0 1]
                   (commandKit "echo".toList [Token.string "b".toList])),
               log := [Event.status 0 1,
                       Event.spawn (commandKit "echo".toList [Token.string "b".toList])
                         (os1.wait [Event.status 0 1]
                           (commandKit "echo".toList [Token.string "b".toList])),
                       Event.status 2
                         (os1.wait [Event.status 0 1]
                           (commandKit "echo".toList [Token.string "b".toList]))] }) ∧
    (∀ (os1 : OS) (fuel1 : Nat) (tokens : List Token) (st1 : Shell),
      buildLoop os1 fuel1
          { tokenizer := { tokens_ := tokens, cur_token_ := 0 },
            programs := [], fds := [], log := [] } = some (Built.ready st1) →
      ∀ k ∈ st1.programs, k.next_oper = Operator.AND ∨ k.next_oper = Operator.OR ∨
        k.next_oper = Operator.NONE) := by
  have hb : execBody os programs fds i boot_kit log =
      ExecNext.goto (skipLoop (programs.drop i) i + 1) return_code1
        (log1 ++ [Event.status i return_code1]) := by
    unfold execBody
    rw [hev]
    simp [hop, hne]
  have hskip : ∀ (km : BootKit), km ∈ programs → km.next_oper ≠ Operator.OR →
      km.next_oper = Operator.AND ∨ km.next_oper = Operator.NONE := by
    intro km hmem hnor
    rcases hbuilt km hmem with h | h | h
    · exact Or.inl h
    · exact absurd h hnor
    · exact Or.inr h
  refine ⟨?_, ?_, ?_, ?_⟩
  · intro j kitj hij hj hor hleast
    have hs : skipLoop (programs.drop i) i = j := by
      rw [skipLoop_index (programs.drop i) i (j - i) kitj
        (by rw [List.getElem?_drop]; rw [show i + (j - i) = j by omega]; exact hj)
        (by rw [hor]; decide)
        (fun m km hm hkm => by
          rw [List.getElem?_drop] at hkm
          exact hskip km (List.getElem?_mem hkm) (hleast (i + m) km (by omega) (by omega) hkm))]
      omega
    rw [hs] at hb
    refine ⟨hb, ?_⟩
    rw [execLoop_succ os programs fds fuel i return_code log boot_kit hi, hb]
  · intro hnone
    have hlt : i < programs.length := by
      rcases List.getElem?_eq_some.1 hi with ⟨h, -⟩
      exact h
    have hs : skipLoop (programs.drop i) i = programs.length := by
      rw [skipLoop_all (programs.drop i) i
        (fun m km hkm => by
          rw [List.getElem?_drop] at hkm
          exact hskip km (List.getElem?_mem hkm) (hnone (i + m) km (by omega) hkm))]
      simp only [List.length_drop]
      omega
    rw [hs] at hb
    rw [execLoop_succ os programs fds fuel i return_code log boot_kit hi, hb]
    simp only []
    rw [execLoop_end os programs fds fuel _ _ _
      (by rw [List.getElem?_eq_none_iff]; omega)]
  · intro os1 k
    have h1 : main os1 5 (argvOf "false && echo a || echo b") =
        execLoop os1
          [{ program_name := some "false".toList, next_oper := Operator.AND },
            { commandKit "echo".toList [Token.string "a".toList] with
              next_oper := Operator.OR },
            commandKit "echo".toList [Token.string "b".toList]] [] 2 2 1
          [Event.status 0 1] := rfl
    have h2 := execLoop_last_spawn os1
      [{ program_name := some "false".toList, next_oper := Operator.AND },
        { commandKit "echo".toList [Token.string "a".toList] with
          next_oper := Operator.OR },
        commandKit "echo".toList [Token.string "b".toList]] [] 1 2 1
      [Event.status 0 1] (commandKit "echo".toList [Token.string "b".toList])
      "echo".toList rfl rfl rfl rfl (by decide) rfl
    exact main_mono os1 5 k _ _ (h1.trans h2)
  · intro os1 fuel1 tokens st1 hbuild k hk
    exact (buildLoop_builtKit os1 fuel1 _ st1 (by simp) hbuild k hk).2

/-- C7 on the three commands built from `false && echo a || echo b`: the
first `OR` is at index 1, the loop goes on with index 2. -/
theorem C7_and_failure_skips_witness :
    ([({ program_name := some "false".toList, next_oper := Operator.AND } : BootKit),
        { commandKit "echo".toList [Token.string "a".toList] with next_oper := Operator.OR },
        commandKit "echo".toList [Token.string "b".toList]][0]? =
        some { program_name := some "false".toList, next_oper := Operator.AND } ∧
      evalCommand (fixedOS 0)
          { program_name := some "false".toList, next_oper := Operator.AND } [] =
        Except.ok (1, []) ∧
      (1 : Int) ≠ 0 ∧
      ({ program_name := some "false".toList, next_oper := Operator.AND } : BootKit).next_oper =
        Operator.AND ∧
      (∀ k ∈ [({ program_name := some "false".toList, next_oper := Operator.AND } : BootKit),
          { commandKit "echo".toList [Token.string "a".toList] with
            next_oper := Operator.OR },
          commandKit "echo".toList [Token.string "b".toList]],
        k.next_oper = Operator.AND ∨ k.next_oper = Operator.OR ∨
          k.next_oper = Operator.NONE)) ∧
    execBody (fixedOS 0)
        [{ program_name := some "false".toList, next_oper := Operator.AND },
          { commandKit "echo".toList [Token.string "a".toList] with
            next_oper := Operator.OR },
          commandKit "echo".toList [Token.string "b".toList]] [] 0
        { program_name := some "false".toList, next_oper := Operator.AND } [] =
      ExecNext.goto 2 1 [Event.status 0 1] :=
  ⟨⟨rfl, rfl, by decide, rfl, by decide⟩,
    ((C7_and_failure_skips_to_first_or (fixedOS 0)
      [{ program_name := some "false".toList, next_oper := Operator.AND },
        { commandKit "echo".toList [Token.string "a".toList] with
          next_oper := Operator.OR },
        commandKit "echo".toList [Token.string "b".toList]] [] 0 0 0 1 [] []
      { program_name := some "false".toList, next_oper := Operator.AND }
      rfl rfl (by decide) rfl (by decide)).1 1
      { commandKit "echo".toList [Token.string "a".toList] with next_oper := Operator.OR }
      (by decide) rfl rfl
      (fun m km _ hm hkm => by
        have h0 : m = 0 := by omega
        subst h0
        simp only [List.getElem?_cons_zero, Option.some.injEq] at hkm
        subst hkm
        decide)).1⟩

/-! ## C8 -/

/-- C8, what the code does: for every whitelisted name `C` and every exit
code `e` below 256 of the child, the command line `true && C` spawns `C`
exactly once, and `main` returns the status word `e * 256` that `wait`
stored, not `e`; the exit status of the interpreter, the low eight bits of
that word, is 0. -/
theorem C8_true_and_C_returns_the_status_word (os : OS) (k : Nat) (C : List Char)
    (e : Nat) (hC : C ∈ set_of_programs) (he : e < 256)
    (hw : os.wait [Event.status 0 0] (commandKit C []) = exitedStatus e) :
    main os (3 + k) ["./lavash".toList, "-c".toList, "true && ".toList ++ C] =
      some { outcome := Outcome.returned ((e : Int) * 256),
             log := [Event.status 0 0,
                     Event.spawn (commandKit C []) ((e : Int) * 256),
                     Event.status 1 ((e : Int) * 256)] } ∧
    spawnCount [Event.status 0 0, Event.spawn (commandKit C []) ((e : Int) * 256),
      Event.status 1 ((e : Int) * 256)] = 1 ∧
    exitStatus ((e : Int) * 256) = 0 ∧
    (e ≠ 0 → (e : Int) * 256 ≠ (e : Int)) := by
  have hex : exitedStatus e = (e : Int) * 256 := by
    unfold exitedStatus
    rw [Nat.mod_eq_of_lt he]
  have hrun : ∀ (C1 : List Char), C1 ∈ set_of_programs →
      main os 3 ["./lavash".toList, "-c".toList, "true && ".toList ++ C1] =
        execLoop os
          [{ program_name := some "true".toList, next_oper := Operator.AND },
            commandKit C1 []] [] 1 1 0 [Event.status 0 0] := by
    intro C1 h1
    have hs : set_of_programs =
        ["echo".toList, "wc".toList, "cat".toList, "./tools/print_args".toList] := rfl
    rw [hs] at h1
    simp only [List.mem_cons, List.mem_singleton, List.not_mem_nil, or_false] at h1
    rcases h1 with rfl | rfl | rfl | rfl <;> rfl
  have h2 := execLoop_last_spawn os
    [{ program_name := some "true".toList, next_oper := Operator.AND },
      commandKit C []] [] 0 1 0 [Event.status 0 0] (commandKit C []) C
    rfl rfl rfl rfl hC rfl
  rw [hw, hex] at h2
  refine ⟨main_mono os 3 k _ _ ((hrun C hC).trans h2), rfl, ?_, ?_⟩
  · unfold exitStatus
    simp
  · intro hne h
    have : (e : Int) * 256 = (e : Int) * 1 := by rw [h]; ring
    have h0 : (e : Int) ≠ 0 := by exact_mod_cast hne
    have := mul_left_cancel₀ h0 this
    omega

/-- C8 at `true && cat` with the child `cat` ending with exit code 1: `main`
returns 256 and the exit status of the interpreter is 0. -/
theorem C8_true_and_cat_exit_code_1 :
    ("cat".toList ∈ set_of_programs ∧ 1 < 256 ∧
      (fixedOS (exitedStatus 1)).wait [Event.status 0 0] (commandKit "cat".toList []) =
        exitedStatus 1) ∧
    main (fixedOS (exitedStatus 1)) 3 (argvOf "true && cat") =
      some { outcome := Outcome.returned 256,
             log := [Event.status 0 0, Event.spawn (commandKit "cat".toList []) 256,
                     Event.status 1 256] } ∧
    exitStatus 256 = 0 :=
  ⟨⟨by decide, by decide, rfl⟩,
    (C8_true_and_C_returns_the_status_word (fixedOS (exitedStatus 1)) 0 "cat".toList 1
      (by decide) (by decide) rfl).1,
    by decide⟩

/-! ## C9 -/

/-- A word of plain characters that passes none of the tests of `AddToken`
is lexed to one string token. -/
theorem Tokenize_string_word (n : List Char) (hne : n ≠ [])
    (hplain : ∀ c ∈ n, plain c = true)
    (hop : n ∉ operator_map_.map Prod.fst) (hwl : n ∉ set_of_programs)
    (hfile : ¬ ∃ stem, stem ≠ [] ∧ n = stem ++ ".txt".toList)
    (ht : n ≠ "true".toList) (hf : n ≠ "false".toList) :
    Tokenize n = some [Token.string n] := by
  rw [Tokenize_plain_word n hplain, AddToken_classify [] n hne hop, if_neg hwl,
    if_neg (fun x => hfile ((file_test_iff n).1 x)), if_neg ht, if_neg hf]
  rfl

/-- The dispatch of the executor on a name that is not reserved and not
whitelisted. -/
theorem evalCommand_not_found (os : OS) (boot_kit : BootKit) (log : List Event)
    (n : List Char) (hboot : boot_kit.need_to_boot = true)
    (hname : boot_kit.program_name = some n) (hwl : n ∉ set_of_programs)
    (ht : n ≠ "true".toList) (hf : n ≠ "false".toList) (hr : n ≠ "no_txt".toList) :
    evalCommand os boot_kit log =
      Except.ok (127, log ++ [Event.stderr (commandNotFound n)]) := by
  unfold evalCommand
  rw [hname]
  simp only [hboot, Bool.not_true, Bool.false_eq_true, if_false, if_neg ht, if_neg hf,
    if_neg hr, if_pos hwl]

/-- C9, the claim fails: `true`, `false` and `no_txt` are not in the
whitelist, yet the command lines made of these single words end with status
0, 1 and 1, and no diagnostic is written. -/
theorem C9_reserved_names_are_not_reported :
    "true".toList ∉ set_of_programs ∧
    main (fixedOS 0) 1 (argvOf "true") =
      some { outcome := Outcome.returned 0, log := [Event.status 0 0] } ∧
    "false".toList ∉ set_of_programs ∧
    main (fixedOS 0) 1 (argvOf "false") =
      some { outcome := Outcome.returned 1, log := [Event.status 0 1] } ∧
    "no_txt".toList ∉ set_of_programs ∧
    main (fixedOS 0) 1 (argvOf "no_txt") =
      some { outcome := Outcome.returned 1, log := [Event.status 0 1] } := by
  decide

/-- The command line made of one word that the lexer makes a string argument
and that is neither whitelisted nor reserved. -/
theorem main_unknown_command (os : OS) (k : Nat) (n : List Char)
    (hne : n ≠ []) (hplain : ∀ c ∈ n, plain c = true)
    (hop : n ∉ operator_map_.map Prod.fst) (hwl : n ∉ set_of_programs)
    (hfile : ¬ ∃ stem, stem ≠ [] ∧ n = stem ++ ".txt".toList)
    (ht : n ≠ "true".toList) (hf : n ≠ "false".toList) (hr : n ≠ "no_txt".toList) :
    main os (1 + k) ["./lavash".toList, "-c".toList, n] =
      some { outcome := Outcome.returned 127,
             log := [Event.stderr (commandNotFound n), Event.status 0 127] } := by
  refine main_mono os 1 k _ _ ?_
  have hm : main os 1 ["./lavash".toList, "-c".toList, n] = runLine os 1 n := rfl
  have hrun : runTokens os 1 [Token.string n] =
      execLoop os [{ program_name := some n }] [] 1 0 0 [] := rfl
  have hb : execBody os [{ program_name := some n }] [] 0 { program_name := some n } [] =
      ExecNext.goto 1 127 [Event.stderr (commandNotFound n), Event.status 0 127] := by
    unfold execBody
    rw [evalCommand_not_found os _ [] n rfl rfl hwl ht hf hr]
    rfl
  rw [hm]
  unfold runLine
  rw [Tokenize_string_word n hne hplain hop hwl hfile ht hf]
  simp only []
  rw [hrun, execLoop_succ os _ [] 0 0 0 [] { program_name := some n } rfl, hb]
  rfl

/-- C9 as amended: for every word `n` of plain characters that the lexer
makes a string argument (not empty, no operator spelling, not whitelisted,
not a stem followed by `.txt`, not `true` or `false`) and that is not the
name `no_txt`, the command line `n` spawns no process, writes to standard
error the one line `./lavash: line 1: `, `n`, `: command not found`, and
ends with status 127. -/
theorem C9_unknown_command_gives_127 (os : OS) (k : Nat) (n : List Char)
    (hne : n ≠ []) (hplain : ∀ c ∈ n, plain c = true)
    (hop : n ∉ operator_map_.map Prod.fst) (hwl : n ∉ set_of_programs)
    (hfile : ¬ ∃ stem, stem ≠ [] ∧ n = stem ++ ".txt".toList)
    (ht : n ≠ "true".toList) (hf : n ≠ "false".toList) (hr : n ≠ "no_txt".toList) :
    main os (1 + k) ["./lavash".toList, "-c".toList, n] =
      some { outcome := Outcome.returned 127,
             log := [Event.stderr ("./lavash: line 1: ".toList ++ n ++
                       ": command not found".toList ++ ['\n']),
                     Event.status 0 127] } ∧
    spawnCount [Event.stderr ("./lavash: line 1: ".toList ++ n ++
                  ": command not found".toList ++ ['\n']),
                Event.status 0 127] = 0 :=
  ⟨main_unknown_command os k n hne hplain hop hwl hfile ht hf hr, rfl⟩

/-- C9 as amended, at the word `ls`. -/
theorem C9_unknown_command_witness :
    ("ls".toList ≠ [] ∧ (∀ c ∈ "ls".toList, plain c = true) ∧
      "ls".toList ∉ operator_map_.map Prod.fst ∧ "ls".toList ∉ set_of_programs ∧
      (¬ ∃ stem, stem ≠ [] ∧ "ls".toList = stem ++ ".txt".toList) ∧
      "ls".toList ≠ "true".toList ∧ "ls".toList ≠ "false".toList ∧
      "ls".toList ≠ "no_txt".toList) ∧
    main (fixedOS 0) 1 (argvOf "ls") =
      some { outcome := Outcome.returned 127,
             log := [Event.stderr "./lavash: line 1: ls: command not found\n".toList,
                     Event.status 0 127] } :=
  ⟨⟨by decide, by decide, by decide, by decide,
      fun h => absurd ((file_test_iff "ls".toList).2 h) (by decide),
      by decide, by decide, by decide⟩,
    (C9_unknown_command_gives_127 (fixedOS 0) 0 "ls".toList (by decide) (by decide)
      (by decide) (by decide)
      (fun h => absurd ((file_test_iff "ls".toList).2 h) (by decide))
      (by decide) (by decide) (by decide)).1⟩

/-! ## C10 -/

theorem updateBack_append_singleton (programs : List BootKit) (boot_kit : BootKit)
    (f : BootKit → BootKit) :
    updateBack (programs ++ [boot_kit]) f = some (programs ++ [f boot_kit]) := by
  simp [updateBack]

/-- The token `k` places behind a command and its arguments. -/
theorem getElem?_after_command (pre args post : List Token) (p : List Char) (k : Nat) :
    (pre ++ Token.Program p :: (args ++ post))[pre.length + 1 + args.length + k]? =
      post[k]? := by
  rw [show pre.length + 1 + args.length + k = pre.length + (1 + args.length + k) by omega,
    getElem?_cursor, show 1 + args.length + k = (args.length + k) + 1 by omega,
    List.getElem?_cons_succ, List.getElem?_append_right (by omega)]
  congr 1
  omega

/-- Two iterations of the build loop on a command, its arguments, `<` and a
file that cannot be opened for reading. -/
theorem buildLoop_missing_input (os : OS) (fuel : Nat) (st : Shell)
    (pre args rest : List Token) (C F : List Char)
    (hargs : ∀ t ∈ args, isOperator t = false) (hk : args.length ≤ 8)
    (htok : st.tokenizer =
      { tokens_ := pre ++ Token.Program C ::
          (args ++ Token.Operator Operator.IN_REDIRECT :: Token.File F :: rest),
        cur_token_ := pre.length })
    (hopen : os.open_ st.log F [OFlag.O_RDONLY] = -1) :
    buildLoop os (fuel + 2) st =
      buildLoop os fuel
        { tokenizer :=
            { tokens_ := pre ++ Token.Program C ::
                (args ++ Token.Operator Operator.IN_REDIRECT :: Token.File F :: rest),
              cur_token_ := pre.length + 1 + args.length + 2 },
          programs := st.programs ++ [{ commandKit C args with need_to_boot := false }],
          fds := st.fds,
          log := st.log ++ [Event.open_ F [OFlag.O_RDONLY] (-1),
                            Event.stderr (noSuchFile F)] } := by
  obtain ⟨tokenizer, programs, fds, log⟩ := st
  simp only [] at htok hopen
  subst htok
  have hform := FormBootKit_command pre args
    (Token.Operator Operator.IN_REDIRECT :: Token.File F :: rest) C hargs hk
    (Or.inr ⟨_, _, rfl⟩)
  have hcur0 : GetCurToken
      { tokens_ := pre ++ Token.Program C ::
          (args ++ Token.Operator Operator.IN_REDIRECT :: Token.File F :: rest),
        cur_token_ := pre.length } = some (Token.Program C) := by
    have := getElem?_cursor pre (Token.Program C ::
      (args ++ Token.Operator Operator.IN_REDIRECT :: Token.File F :: rest)) 0
    simpa [GetCurToken] using this
  have hcur1 : GetCurToken
      { tokens_ := pre ++ Token.Program C ::
          (args ++ Token.Operator Operator.IN_REDIRECT :: Token.File F :: rest),
        cur_token_ := pre.length + 1 + args.length } =
      some (Token.Operator Operator.IN_REDIRECT) := by
    have := getElem?_after_command pre args
      (Token.Operator Operator.IN_REDIRECT :: Token.File F :: rest) C 0
    simpa [GetCurToken] using this
  have hcur2 : GetCurToken
      { tokens_ := pre ++ Token.Program C ::
          (args ++ Token.Operator Operator.IN_REDIRECT :: Token.File F :: rest),
        cur_token_ := pre.length + 1 + args.length + 1 } = some (Token.File F) := by
    have := getElem?_after_command pre args
      (Token.Operator Operator.IN_REDIRECT :: Token.File F :: rest) C 1
    simpa [GetCurToken] using this
  have hemp : (programs ++ [commandKit C args]).isEmpty = false := by
    cases programs <;> rfl
  rw [buildLoop_succ os (fuel + 1) _ _ hcur0]
  simp only [buildBody, hform]
  rw [pipeLoop_exit os _ _ (by simp only [hcur1]; decide)]
  simp only []
  rw [buildLoop_succ os fuel _ _ hcur1]
  simp only [buildBody, MoveTokenCnt, hcur2, hopen, if_true, hemp, Bool.false_eq_true,
    if_false, updateBack_append_singleton]
  simp only [List.append_assoc, List.singleton_append, Nat.add_assoc]

/-- The build and the run of a command at the cursor with at most eight
arguments and `< F` behind it, where `F` cannot be opened read-only. -/
theorem missing_input_file_run (os : OS) (fuel : Nat) (st : Shell)
    (pre args rest : List Token) (C F : List Char)
    (hargs : ∀ t ∈ args, isOperator t = false) (hk : args.length ≤ 8)
    (htok : st.tokenizer =
      { tokens_ := pre ++ Token.Program C ::
          (args ++ Token.Operator Operator.IN_REDIRECT :: Token.File F :: rest),
        cur_token_ := pre.length })
    (hopen : os.open_ st.log F [OFlag.O_RDONLY] = -1) :
    buildLoop os (fuel + 2) st =
      buildLoop os fuel
        { tokenizer :=
            { tokens_ := pre ++ Token.Program C ::
                (args ++ Token.Operator Operator.IN_REDIRECT :: Token.File F :: rest),
              cur_token_ := pre.length + 1 + args.length + 2 },
          programs := st.programs ++ [{ commandKit C args with need_to_boot := false }],
          fds := st.fds,
          log := st.log ++ [Event.open_ F [OFlag.O_RDONLY] (-1),
                            Event.stderr (noSuchFile F)] } ∧
    GetCurToken
        { tokens_ := pre ++ Token.Program C ::
            (args ++ Token.Operator Operator.IN_REDIRECT :: Token.File F :: rest),
          cur_token_ := pre.length + 1 + args.length + 2 } = rest.head? ∧
    (∀ (os1 : OS) (log1 : List Event),
      evalCommand os1 { commandKit C args with need_to_boot := false } log1 =
        Except.ok (1, log1)) ∧
    (∀ (os1 : OS) (k : Nat), os1.open_ [] F [OFlag.O_RDONLY] = -1 →
      runTokens os1 (2 + k)
          (Token.Program C ::
            (args ++ [Token.Operator Operator.IN_REDIRECT, Token.File F])) =
        some { outcome := Outcome.returned 1,
               log := [Event.open_ F [OFlag.O_RDONLY] (-1), Event.stderr (noSuchFile F),
                       Event.status 0 1] }) ∧
    (∀ (os1 : OS) (k : Nat),
      os1.open_ [] "missing.txt".toList [OFlag.O_RDONLY] = -1 →
      main os1 (2 + k) (argvOf "cat a b < missing.txt") =
        some { outcome := Outcome.returned 1,
               log := [Event.open_ "missing.txt".toList [OFlag.O_RDONLY] (-1),
                       Event.stderr (noSuchFile "missing.txt".toList),
                       Event.status 0 1] }) := by
  have hrun : ∀ (os1 : OS) (k : Nat), os1.open_ [] F [OFlag.O_RDONLY] = -1 →
      runTokens os1 (2 + k)
          (Token.Program C ::
            (args ++ [Token.Operator Operator.IN_REDIRECT, Token.File F])) =
        some { outcome := Outcome.returned 1,
               log := [Event.open_ F [OFlag.O_RDONLY] (-1), Event.stderr (noSuchFile F),
                       Event.status 0 1] } := by
    intro os1 k ho
    apply runTokens_mono os1 2 k
    have hb := buildLoop_missing_input os1 0
      { tokenizer :=
          { tokens_ := Token.Program C ::
              (args ++ [Token.Operator Operator.IN_REDIRECT, Token.File F]),
            cur_token_ := 0 },
        programs := [], fds := [], log := [] } [] args [] C F hargs hk rfl ho
    have hend : GetCurToken
        { tokens_ := [] ++ Token.Program C ::
            (args ++ [Token.Operator Operator.IN_REDIRECT, Token.File F]),
          cur_token_ := ([] : List Token).length + 1 + args.length + 2 } = none := by
      have := getElem?_after_command [] args
        [Token.Operator Operator.IN_REDIRECT, Token.File F] C 2
      simpa [GetCurToken] using this
    rw [buildLoop_end os1 0 _ hend] at hb
    unfold runTokens
    rw [hb]
    rfl
  refine ⟨buildLoop_missing_input os fuel st pre args rest C F hargs hk htok hopen,
    ?_, fun _ _ => rfl, hrun, ?_⟩
  · have := getElem?_after_command pre args
      (Token.Operator Operator.IN_REDIRECT :: Token.File F :: rest) C 2
    simpa [GetCurToken, List.head?_eq_getElem?] using this
  · intro os1 k ho
    apply main_mono os1 2 k
    have hm : main os1 2 (argvOf "cat a b < missing.txt") =
        runTokens os1 (2 + 0)
          (Token.Program "cat".toList ::
            ([Token.string "a".toList, Token.string "b".toList] ++
              [Token.Operator Operator.IN_REDIRECT, Token.File "missing.txt".toList])) :=
      rfl
    rw [hm]
    have hb := buildLoop_missing_input os1 0
      { tokenizer :=
          { tokens_ := Token.Program "cat".toList ::
              ([Token.string "a".toList, Token.string "b".toList] ++
                [Token.Operator Operator.IN_REDIRECT, Token.File "missing.txt".toList]),
            cur_token_ := 0 },
        programs := [], fds := [], log := [] } []
      [Token.string "a".toList, Token.string "b".toList] [] "cat".toList
      "missing.txt".toList (by decide) (by decide) rfl ho
    unfold runTokens
    rw [hb]
    rfl

/-- The build loop started on `> out.txt cat < missing.txt`, where `out.txt`
can be opened: the step of the cursor behind `FormBootKit` in the `>` branch
passes over `<`, the current token is then `File missing.txt`, and the loop
does not end. -/
theorem main_redirect_in_front_spins (os : OS)
    (hopen : os.open_ [] "out.txt".toList [OFlag.O_CREAT, OFlag.O_WRONLY] ≠ -1) :
    ∀ fuel : Nat, main os fuel (argvOf "> out.txt cat < missing.txt") = none := by
  intro fuel
  have hm : main os fuel (argvOf "> out.txt cat < missing.txt") =
      runTokens os fuel
        [Token.Operator Operator.OUT_REDIRECT, Token.File "out.txt".toList,
         Token.Program "cat".toList, Token.Operator Operator.IN_REDIRECT,
         Token.File "missing.txt".toList] := rfl
  rw [hm]
  unfold runTokens
  cases fuel with
  | zero => rfl
  | succ fuel =>
    rw [buildLoop_succ os fuel
      { tokenizer :=
          { tokens_ := [Token.Operator Operator.OUT_REDIRECT, Token.File "out.txt".toList,
              Token.Program "cat".toList, Token.Operator Operator.IN_REDIRECT,
              Token.File "missing.txt".toList],
            cur_token_ := 0 },
        programs := [], fds := [], log := [] }
      (Token.Operator Operator.OUT_REDIRECT) rfl]
    have hb : buildBody os (fuel + 1)
        { tokenizer :=
            { tokens_ := [Token.Operator Operator.OUT_REDIRECT, Token.File "out.txt".toList,
                Token.Program "cat".toList, Token.Operator Operator.IN_REDIRECT,
                Token.File "missing.txt".toList],
              cur_token_ := 0 },
          programs := [], fds := [], log := [] }
        (Token.Operator Operator.OUT_REDIRECT) =
        some (Built.ready
          { tokenizer :=
              { tokens_ := [Token.Operator Operator.OUT_REDIRECT,
                  Token.File "out.txt".toList, Token.Program "cat".toList,
                  Token.Operator Operator.IN_REDIRECT, Token.File "missing.txt".toList],
                cur_token_ := 4 },
            programs := [{ commandKit "cat".toList [] with
              out_descriptor :=
                (os.open_ [] "out.txt".toList [OFlag.O_CREAT, OFlag.O_WRONLY]) }],
            fds := [("out.txt".toList,
              os.open_ [] "out.txt".toList [OFlag.O_CREAT, OFlag.O_WRONLY])],
            log := [Event.open_ "out.txt".toList [OFlag.O_CREAT, OFlag.O_WRONLY]
              (os.open_ [] "out.txt".toList [OFlag.O_CREAT, OFlag.O_WRONLY])] }) := by
      have h1 : buildBody os (fuel + 1)
          { tokenizer :=
              { tokens_ := [Token.Operator Operator.OUT_REDIRECT,
                  Token.File "out.txt".toList, Token.Program "cat".toList,
                  Token.Operator Operator.IN_REDIRECT, Token.File "missing.txt".toList],
                cur_token_ := 0 },
            programs := [], fds := [], log := [] }
          (Token.Operator Operator.OUT_REDIRECT) =
          if os.open_ [] "out.txt".toList [OFlag.O_CREAT, OFlag.O_WRONLY] = -1 then
            some (abortWith (Abort.runtime_error ("Cannot open ".toList ++ "out.txt".toList))
              [Event.open_ "out.txt".toList [OFlag.O_CREAT, OFlag.O_WRONLY]
                (os.open_ [] "out.txt".toList [OFlag.O_CREAT, OFlag.O_WRONLY])])
          else
            some (bindRedirect
              { tokenizer :=
                  { tokens_ := [Token.Operator Operator.OUT_REDIRECT,
                      Token.File "out.txt".toList, Token.Program "cat".toList,
                      Token.Operator Operator.IN_REDIRECT,
                      Token.File "missing.txt".toList],
                    cur_token_ := 0 },
                programs := [], fds := [], log := [] }
              { tokens_ := [Token.Operator Operator.OUT_REDIRECT,
                  Token.File "out.txt".toList, Token.Program "cat".toList,
                  Token.Operator Operator.IN_REDIRECT, Token.File "missing.txt".toList],
                cur_token_ := 1 }
              [Event.open_ "out.txt".toList [OFlag.O_CREAT, OFlag.O_WRONLY]
                (os.open_ [] "out.txt".toList [OFlag.O_CREAT, OFlag.O_WRONLY])]
              "out.txt".toList
              (os.open_ [] "out.txt".toList [OFlag.O_CREAT, OFlag.O_WRONLY])
              (fun k => { k with out_descriptor :=
                (os.open_ [] "out.txt".toList [OFlag.O_CREAT, OFlag.O_WRONLY]) })) := rfl
      rw [h1, if_neg hopen]
      rfl
    obtain ⟨st1, hb1, hcur⟩ : ∃ st1, buildBody os (fuel + 1)
        { tokenizer :=
            { tokens_ := [Token.Operator Operator.OUT_REDIRECT, Token.File "out.txt".toList,
                Token.Program "cat".toList, Token.Operator Operator.IN_REDIRECT,
                Token.File "missing.txt".toList],
              cur_token_ := 0 },
          programs := [], fds := [], log := [] }
        (Token.Operator Operator.OUT_REDIRECT) = some (Built.ready st1) ∧
        GetCurToken st1.tokenizer = some (Token.File "missing.txt".toList) :=
      ⟨_, hb, rfl⟩
    rw [hb1]
    simp only []
    rw [buildLoop_file_token os st1 "missing.txt".toList hcur fuel]

/-- C10, what the code does: when the build loop has the command `C` as its
current token and `C` has at most eight arguments, then with `< F` behind
them, where `F` is a file token that cannot be opened read-only, the build
does not abort: after the two iterations for the command and the redirection
the loop goes on with the cursor behind `F`, the command built for `C` has
`need_to_boot = false`, nothing is entered in `fds`, and the log holds the
failed `open` and the line `./lavash: line 1: `, `F`,
`: No such file or directory` written to standard error; the executor gives
such a command status 1 and leaves the log as it is (no process); and
`C args < F` alone ends with status 1.  The claim asks this of every command
followed by `< F`.  It fails when a redirection stands in front of the
command: on `> out.txt cat < missing.txt`, where `out.txt` can be opened, the
`>` branch builds `cat` and then steps the cursor over `<`, the build loop
finds the token `File missing.txt`, which no branch takes, and never ends, so
there is no diagnostic and no status.  It fails also with nine arguments:
`cat 1 2 3 4 5 6 7 8 9 < missing.txt` ends in the store outside
`arguments`. -/
theorem C10_missing_input_file_needs_command_at_cursor (os : OS) (fuel : Nat) (st : Shell)
    (pre args rest : List Token) (C F : List Char)
    (hargs : ∀ t ∈ args, isOperator t = false) (hk : args.length ≤ 8)
    (htok : st.tokenizer =
      { tokens_ := pre ++ Token.Program C ::
          (args ++ Token.Operator Operator.IN_REDIRECT :: Token.File F :: rest),
        cur_token_ := pre.length })
    (hopen : os.open_ st.log F [OFlag.O_RDONLY] = -1) :
    buildLoop os (fuel + 2) st =
      buildLoop os fuel
        { tokenizer :=
            { tokens_ := pre ++ Token.Program C ::
                (args ++ Token.Operator Operator.IN_REDIRECT :: Token.File F :: rest),
              cur_token_ := pre.length + 1 + args.length + 2 },
          programs := st.programs ++ [{ commandKit C args with need_to_boot := false }],
          fds := st.fds,
          log := st.log ++ [Event.open_ F [OFlag.O_RDONLY] (-1),
                            Event.stderr ("./lavash: line 1: ".toList ++ F ++
                              ": No such file or directory".toList ++ ['\n'])] } ∧
    GetCurToken
        { tokens_ := pre ++ Token.Program C ::
            (args ++ Token.Operator Operator.IN_REDIRECT :: Token.File F :: rest),
          cur_token_ := pre.length + 1 + args.length + 2 } = rest.head? ∧
    (∀ (os1 : OS) (log1 : List Event),
      evalCommand os1 { commandKit C args with need_to_boot := false } log1 =
        Except.ok (1, log1)) ∧
    (∀ (os1 : OS) (k : Nat), os1.open_ [] F [OFlag.O_RDONLY] = -1 →
      runTokens os1 (2 + k)
          (Token.Program C ::
            (args ++ [Token.Operator Operator.IN_REDIRECT, Token.File F])) =
        some { outcome := Outcome.returned 1,
               log := [Event.open_ F [OFlag.O_RDONLY] (-1),
                       Event.stderr ("./lavash: line 1: ".toList ++ F ++
                         ": No such file or directory".toList ++ ['\n']),
                       Event.status 0 1] }) ∧
    (∀ (os1 : OS) (k : Nat),
      os1.open_ [] "missing.txt".toList [OFlag.O_RDONLY] = -1 →
      main os1 (2 + k) (argvOf "cat a b < missing.txt") =
        some { outcome := Outcome.returned 1,
               log := [Event.open_ "missing.txt".toList [OFlag.O_RDONLY] (-1),
                       Event.stderr
                         "./lavash: line 1: missing.txt: No such file or directory\n".toList,
                       Event.status 0 1] }) ∧
    (∀ (os1 : OS) (fuel1 : Nat),
      os1.open_ [] "out.txt".toList [OFlag.O_CREAT, OFlag.O_WRONLY] ≠ -1 →
      main os1 fuel1 (argvOf "> out.txt cat < missing.txt") = none) ∧
    (∀ (os1 : OS) (k : Nat),
      main os1 (1 + k) (argvOf "cat 1 2 3 4 5 6 7 8 9 < missing.txt") =
        some { outcome := Outcome.aborted (Abort.arguments_out_of_bounds 10),
               log := [] }) := by
  obtain ⟨h1, h2, h3, h4, h5⟩ :=
    missing_input_file_run os fuel st pre args rest C F hargs hk htok hopen
  exact ⟨h1, h2, h3, h4, h5, fun os1 fuel1 ho => main_redirect_in_front_spins os1 ho fuel1,
    fun os1 k => main_mono os1 1 k _ _ rfl⟩

/-- C10 on `cat a b < missing.txt` in a system where no file can be opened,
and on `> out.txt cat < missing.txt` in a system where `out.txt` can be
opened and `missing.txt` cannot: the first ends with status 1, the build of
the second does not end. -/
theorem C10_missing_input_file_witness :
    ((∀ t ∈ [Token.string "a".toList, Token.string "b".toList], isOperator t = false) ∧
      [Token.string "a".toList, Token.string "b".toList].length ≤ 8 ∧
      (fixedOS 0).open_ [] "missing.txt".toList [OFlag.O_RDONLY] = -1) ∧
    main (fixedOS 0) 2 (argvOf "cat a b < missing.txt") =
      some { outcome := Outcome.returned 1,
             log := [Event.open_ "missing.txt".toList [OFlag.O_RDONLY] (-1),
                     Event.stderr
                       "./lavash: line 1: missing.txt: No such file or directory\n".toList,
                     Event.status 0 1] } ∧
    ((writeOnlyOS 0).open_ [] "out.txt".toList [OFlag.O_CREAT, OFlag.O_WRONLY] ≠ -1 ∧
      (∀ log : List Event,
        (writeOnlyOS 0).open_ log "missing.txt".toList [OFlag.O_RDONLY] = -1)) ∧
    (∀ fuel1 : Nat,
      main (writeOnlyOS 0) fuel1 (argvOf "> out.txt cat < missing.txt") = none) :=
  ⟨⟨by decide, by decide, rfl⟩,
    (C10_missing_input_file_needs_command_at_cursor (fixedOS 0) 0
      { tokenizer :=
          { tokens_ := [] ++ Token.Program "cat".toList ::
              ([Token.string "a".toList, Token.string "b".toList] ++
                Token.Operator Operator.IN_REDIRECT :: Token.File "missing.txt".toList ::
                  []),
            cur_token_ := 0 },
        programs := [], fds := [], log := [] } []
      [Token.string "a".toList, Token.string "b".toList] [] "cat".toList
      "missing.txt".toList (by decide) (by decide) rfl rfl).2.2.2.2.1 (fixedOS 0) 0 rfl,
    ⟨by decide, fun _ => rfl⟩,
    fun fuel1 =>
      (C10_missing_input_file_needs_command_at_cursor (fixedOS 0) 0
        { tokenizer :=
            { tokens_ := [] ++ Token.Program "cat".toList ::
                ([Token.string "a".toList, Token.string "b".toList] ++
                  Token.Operator Operator.IN_REDIRECT :: Token.File "missing.txt".toList ::
                    []),
              cur_token_ := 0 },
          programs := [], fds := [], log := [] } []
        [Token.string "a".toList, Token.string "b".toList] [] "cat".toList
        "missing.txt".toList (by decide) (by decide) rfl rfl).2.2.2.2.2.1 (writeOnlyOS 0)
        fuel1 (by decide)⟩

/-! ## C11 -/

/-- The branch of the build loop for a `PIPE` token that is not behind a
command just formed, when no `Program` token follows. -/
theorem buildBody_pipe_without_command (os : OS) (fuel : Nat) (st : Shell)
    (hnext : ∀ p, GetCurToken (MoveTokenCnt st.tokenizer) ≠ some (Token.Program p)) :
    buildBody os fuel st (Token.Operator Operator.PIPE) =
      some (match os.pipe st.log with
        | none =>
          abortWith (Abort.runtime_error "Could not create pipe".toList)
            (st.log ++ [Event.pipe_failed])
        | some (rd, wr) =>
          abortWith (Abort.invalid_argument "After pipe should follow program".toList)
            (st.log ++ [Event.pipe rd wr, Event.close wr])) := by
  simp only [buildBody]
  cases hp : os.pipe st.log with
  | none => rfl
  | some v =>
    obtain ⟨rd, wr⟩ := v
    simp only []
    cases hn : GetCurToken (MoveTokenCnt st.tokenizer) with
    | none => rfl
    | some t =>
      cases t with
      | Program name => exact absurd hn (hnext name)
      | Operator op => rfl
      | File path => rfl
      | bool b => rfl
      | string arg => rfl

theorem updateBack_of_ne_nil (programs : List BootKit) (f : BootKit → BootKit)
    (h : programs ≠ []) : ∃ programs1, updateBack programs f = some programs1 := by
  unfold updateBack
  cases hl : programs.getLast? with
  | none => exact absurd (List.getLast?_eq_none_iff.1 hl) h
  | some k => exact ⟨_, rfl⟩

/-- The body of the pipe loop behind a command, when neither a `Program`
token nor the argument `1984` follows. -/
theorem pipeBody_without_command (os : OS) (st : Shell) (hprog : st.programs ≠ [])
    (hnext : ∀ p, GetCurToken (MoveTokenCnt st.tokenizer) ≠ some (Token.Program p))
    (hsent : GetCurToken (MoveTokenCnt st.tokenizer) ≠ some (Token.string "1984".toList)) :
    pipeBody os st =
      match os.pipe st.log with
      | none =>
        abortWith (Abort.runtime_error "Could not create pipe".toList)
          (st.log ++ [Event.pipe_failed])
      | some (rd, wr) =>
        abortWith (Abort.invalid_argument "After pipe should follow program".toList)
          (st.log ++ [Event.pipe rd wr]) := by
  unfold pipeBody
  cases hp : os.pipe st.log with
  | none => rfl
  | some v =>
    obtain ⟨rd, wr⟩ := v
    simp only []
    obtain ⟨programs1, hu⟩ := updateBack_of_ne_nil st.programs
      (fun k => { k with out_descriptor := wr }) hprog
    rw [hu]
    simp only []
    cases hn : GetCurToken (MoveTokenCnt st.tokenizer) with
    | none => rfl
    | some t =>
      cases t with
      | Program name => exact absurd hn (hnext name)
      | Operator op => rfl
      | File path => rfl
      | bool b => rfl
      | string arg =>
        have hne : arg ≠ "1984".toList := fun h => hsent (by rw [hn, h])
        simp only [if_neg hne]

/-- C11, the claim fails: the tokens of `echo | 1984 |` end with a `PIPE`,
yet the build returns 0 at the first pipe and does not abort; and in
`> f.txt echo | x` the `PIPE` is followed by the argument `x`, yet the build
does not abort (the cursor steps over the `PIPE`) and `echo` is executed. -/
theorem C11_unreached_pipe_does_not_abort :
    Tokenize "echo | 1984 |".toList =
      some [Token.Program "echo".toList, Token.Operator Operator.PIPE,
            Token.string "1984".toList, Token.Operator Operator.PIPE] ∧
    main (fixedOS 0) 1 (argvOf "echo | 1984 |") =
      some { outcome := Outcome.returned 0, log := [Event.pipe 3 4] } ∧
    Tokenize "> f.txt echo | x".toList =
      some [Token.Operator Operator.OUT_REDIRECT, Token.File "f.txt".toList,
            Token.Program "echo".toList, Token.Operator Operator.PIPE,
            Token.string "x".toList] ∧
    main (freshOS 0) 2 (argvOf "> f.txt echo | x") =
      some { outcome := Outcome.returned 127,
             log := [Event.open_ "f.txt".toList [OFlag.O_CREAT, OFlag.O_WRONLY] 10,
                     Event.spawn { commandKit "echo".toList [] with out_descriptor := 10 } 0,
                     Event.close 10,
                     Event.status 0 0,
                     Event.stderr (commandNotFound "x".toList),
                     Event.status 1 127,
                     Event.close 10] } := by
  decide

/-- C11 as amended: when the build reaches a `PIPE` token, as the current
token of an iteration of the build loop or as the current token of the pipe
loop behind a command, and no `Program` token follows it (behind a command:
nor the argument `1984`), the build aborts, with `After pipe should follow
program` when `pipe` succeeded and with `Could not create pipe` otherwise;
the log gains only the pipe call (and the close of the write end), and a
build that has stopped is the whole run, so no command is executed. -/
theorem C11_reached_pipe_without_command_aborts (os : OS) (fuel : Nat) (st : Shell)
    (hcur : GetCurToken st.tokenizer = some (Token.Operator Operator.PIPE))
    (hnext : ∀ p, GetCurToken (MoveTokenCnt st.tokenizer) ≠ some (Token.Program p)) :
    buildLoop os (fuel + 1) st =
      some (match os.pipe st.log with
        | none =>
          abortWith (Abort.runtime_error "Could not create pipe".toList)
            (st.log ++ [Event.pipe_failed])
        | some (rd, wr) =>
          abortWith (Abort.invalid_argument "After pipe should follow program".toList)
            (st.log ++ [Event.pipe rd wr, Event.close wr])) ∧
    (st.programs ≠ [] →
      GetCurToken (MoveTokenCnt st.tokenizer) ≠ some (Token.string "1984".toList) →
      pipeLoop os (fuel + 1) st =
        some (match os.pipe st.log with
          | none =>
            abortWith (Abort.runtime_error "Could not create pipe".toList)
              (st.log ++ [Event.pipe_failed])
          | some (rd, wr) =>
            abortWith (Abort.invalid_argument "After pipe should follow program".toList)
              (st.log ++ [Event.pipe rd wr]))) ∧
    (∀ (os1 : OS) (fuel1 : Nat) (tokens : List Token) (r : Run),
      buildLoop os1 fuel1
          { tokenizer := { tokens_ := tokens, cur_token_ := 0 },
            programs := [], fds := [], log := [] } = some (Built.stopped r) →
      runTokens os1 fuel1 tokens = some r) ∧
    (∀ k : Nat, main (freshOS 0) (1 + k) (argvOf "echo hi | foo") =
      some { outcome := Outcome.aborted
               (Abort.invalid_argument "After pipe should follow program".toList),
             log := [Event.pipe 10 11] }) ∧
    (∀ k : Nat, main (freshOS 0) (1 + k) (argvOf "echo hi |") =
      some { outcome := Outcome.aborted
               (Abort.invalid_argument "After pipe should follow program".toList),
             log := [Event.pipe 10 11] }) := by
  refine ⟨?_, ?_, ?_, ?_, ?_⟩
  · rw [buildLoop_succ os fuel st _ hcur, buildBody_pipe_without_command os _ st hnext]
    cases os.pipe st.log with
    | none => rfl
    | some v => rfl
  · intro hprog hsent
    rw [pipeLoop_succ os fuel st hcur, pipeBody_without_command os st hprog hnext hsent]
    cases os.pipe st.log with
    | none => rfl
    | some v => rfl
  · intro os1 fuel1 tokens r h
    unfold runTokens
    rw [h]
  · intro k
    exact main_mono (freshOS 0) 1 k _ _ (by decide)
  · intro k
    exact main_mono (freshOS 0) 1 k _ _ (by decide)

/-- C11 as amended, at the tokens of `| foo` with the cursor on the pipe. -/
theorem C11_reached_pipe_witness :
    (GetCurToken { tokens_ := [Token.Operator Operator.PIPE, Token.string "foo".toList],
                   cur_token_ := 0 } = some (Token.Operator Operator.PIPE) ∧
      ∀ p, GetCurToken (MoveTokenCnt
          { tokens_ := [Token.Operator Operator.PIPE, Token.string "foo".toList],
            cur_token_ := 0 }) ≠ some (Token.Program p)) ∧
    buildLoop (freshOS 0) 1
        { tokenizer := { tokens_ := [Token.Operator Operator.PIPE,
                                     Token.string "foo".toList],
                         cur_token_ := 0 },
          programs := [], fds := [], log := [] } =
      some (abortWith (Abort.invalid_argument "After pipe should follow program".toList)
        [Event.pipe 10 11, Event.close 11]) :=
  ⟨⟨rfl, fun p h => by cases h⟩,
    (C11_reached_pipe_without_command_aborts (freshOS 0) 0
      { tokenizer := { tokens_ := [Token.Operator Operator.PIPE,
                                   Token.string "foo".toList],
                       cur_token_ := 0 },
        programs := [], fds := [], log := [] } rfl (fun p h => by cases h)).1⟩

/-! ## C12 -/

/-- Two iterations of the build loop on a command, its arguments, `>` and a
file that `open` can open. -/
theorem buildLoop_out_redirect (os : OS) (fuel : Nat) (st : Shell)
    (pre args rest : List Token) (C F : List Char)
    (hargs : ∀ t ∈ args, isOperator t = false) (hk : args.length ≤ 8)
    (htok : st.tokenizer =
      { tokens_ := pre ++ Token.Program C ::
          (args ++ Token.Operator Operator.OUT_REDIRECT :: Token.File F :: rest),
        cur_token_ := pre.length })
    (hopen : os.open_ st.log F [OFlag.O_CREAT, OFlag.O_WRONLY] ≠ -1) :
    buildLoop os (fuel + 2) st =
      buildLoop os fuel
        { tokenizer :=
            { tokens_ := pre ++ Token.Program C ::
                (args ++ Token.Operator Operator.OUT_REDIRECT :: Token.File F :: rest),
              cur_token_ := pre.length + 1 + args.length + 2 },
          programs := st.programs ++
            [{ commandKit C args with
               out_descriptor := os.open_ st.log F [OFlag.O_CREAT, OFlag.O_WRONLY] }],
          fds := fdsAssign st.fds F (os.open_ st.log F [OFlag.O_CREAT, OFlag.O_WRONLY]),
          log := st.log ++ [Event.open_ F [OFlag.O_CREAT, OFlag.O_WRONLY]
            (os.open_ st.log F [OFlag.O_CREAT, OFlag.O_WRONLY])] } := by
  obtain ⟨tokenizer, programs, fds, log⟩ := st
  simp only [] at htok hopen
  subst htok
  have hform := FormBootKit_command pre args
    (Token.Operator Operator.OUT_REDIRECT :: Token.File F :: rest) C hargs hk
    (Or.inr ⟨_, _, rfl⟩)
  have hcur0 : GetCurToken
      { tokens_ := pre ++ Token.Program C ::
          (args ++ Token.Operator Operator.OUT_REDIRECT :: Token.File F :: rest),
        cur_token_ := pre.length } = some (Token.Program C) := by
    have := getElem?_cursor pre (Token.Program C ::
      (args ++ Token.Operator Operator.OUT_REDIRECT :: Token.File F :: rest)) 0
    simpa [GetCurToken] using this
  have hcur1 : GetCurToken
      { tokens_ := pre ++ Token.Program C ::
          (args ++ Token.Operator Operator.OUT_REDIRECT :: Token.File F :: rest),
        cur_token_ := pre.length + 1 + args.length } =
      some (Token.Operator Operator.OUT_REDIRECT) := by
    have := getElem?_after_command pre args
      (Token.Operator Operator.OUT_REDIRECT :: Token.File F :: rest) C 0
    simpa [GetCurToken] using this
  have hcur2 : GetCurToken
      { tokens_ := pre ++ Token.Program C ::
          (args ++ Token.Operator Operator.OUT_REDIRECT :: Token.File F :: rest),
        cur_token_ := pre.length + 1 + args.length + 1 } = some (Token.File F) := by
    have := getElem?_after_command pre args
      (Token.Operator Operator.OUT_REDIRECT :: Token.File F :: rest) C 1
    simpa [GetCurToken] using this
  have hemp : (programs ++ [commandKit C args]).isEmpty = false := by
    cases programs <;> rfl
  rw [buildLoop_succ os (fuel + 1) _ _ hcur0]
  simp only [buildBody, hform]
  rw [pipeLoop_exit os _ _ (by simp only [hcur1]; decide)]
  simp only []
  rw [buildLoop_succ os fuel _ _ hcur1]
  simp only [buildBody, MoveTokenCnt, hcur2, if_neg hopen, bindRedirect, hemp,
    Bool.false_eq_true, if_false, updateBack_append_singleton]

/-- C12, what the code does: for `> F` behind a command `C` with at most
eight arguments, the build calls `open` on `F` with the flags `O_CREAT` and
`O_WRONLY` and, when that succeeds, enters the descriptor in `fds` and binds
it as `out_descriptor` of the command built for `C`. `O_TRUNC` is not among
the flags, so `open` keeps the previous content of `F`: a file that held
`0123456789` holds `hi`, a newline and `3456789` after `echo hi` wrote to
it. -/
theorem C12_out_redirect_opens_without_truncation (os : OS) (fuel : Nat) (st : Shell)
    (pre args rest : List Token) (C F : List Char)
    (hargs : ∀ t ∈ args, isOperator t = false) (hk : args.length ≤ 8)
    (htok : st.tokenizer =
      { tokens_ := pre ++ Token.Program C ::
          (args ++ Token.Operator Operator.OUT_REDIRECT :: Token.File F :: rest),
        cur_token_ := pre.length })
    (hopen : os.open_ st.log F [OFlag.O_CREAT, OFlag.O_WRONLY] ≠ -1) :
    buildLoop os (fuel + 2) st =
      buildLoop os fuel
        { tokenizer :=
            { tokens_ := pre ++ Token.Program C ::
                (args ++ Token.Operator Operator.OUT_REDIRECT :: Token.File F :: rest),
              cur_token_ := pre.length + 1 + args.length + 2 },
          programs := st.programs ++
            [{ commandKit C args with
               out_descriptor := os.open_ st.log F [OFlag.O_CREAT, OFlag.O_WRONLY] }],
          fds := fdsAssign st.fds F (os.open_ st.log F [OFlag.O_CREAT, OFlag.O_WRONLY]),
          log := st.log ++ [Event.open_ F [OFlag.O_CREAT, OFlag.O_WRONLY]
            (os.open_ st.log F [OFlag.O_CREAT, OFlag.O_WRONLY])] } ∧
    OFlag.O_TRUNC ∉ [OFlag.O_CREAT, OFlag.O_WRONLY] ∧
    (∀ old : List Char, contentAfterOpen [OFlag.O_CREAT, OFlag.O_WRONLY] old = old) ∧
    contentAfterWrite "hi\n".toList
        (contentAfterOpen [OFlag.O_CREAT, OFlag.O_WRONLY] "0123456789".toList) =
      "hi\n3456789".toList ∧
    "hi\n3456789".toList ≠ "hi\n".toList :=
  ⟨buildLoop_out_redirect os fuel st pre args rest C F hargs hk htok hopen,
    by decide, fun _ => rfl, by decide, by decide⟩

/-- C12 on `echo hi > out.txt`: the whole run, with the one `open` and its
flags in the log. -/
theorem C12_out_redirect_witness :
    ((∀ t ∈ [Token.string "hi".toList], isOperator t = false) ∧
      [Token.string "hi".toList].length ≤ 8 ∧
      (freshOS 0).open_ [] "out.txt".toList [OFlag.O_CREAT, OFlag.O_WRONLY] ≠ -1) ∧
    buildLoop (freshOS 0) 2
        { tokenizer :=
            { tokens_ := [] ++ Token.Program "echo".toList ::
                ([Token.string "hi".toList] ++
                  Token.Operator Operator.OUT_REDIRECT :: Token.File "out.txt".toList :: []),
              cur_token_ := 0 },
          programs := [], fds := [], log := [] } =
      some (Built.ready
        { tokenizer :=
            { tokens_ := [Token.Program "echo".toList, Token.string "hi".toList,
                Token.Operator Operator.OUT_REDIRECT, Token.File "out.txt".toList],
              cur_token_ := 4 },
          programs := [{ commandKit "echo".toList [Token.string "hi".toList] with
                         out_descriptor := 10 }],
          fds := [("out.txt".toList, 10)],
          log := [Event.open_ "out.txt".toList [OFlag.O_CREAT, OFlag.O_WRONLY] 10] }) :=
  ⟨⟨by decide, by decide, by decide⟩,
    ((C12_out_redirect_opens_without_truncation (freshOS 0) 0
      { tokenizer :=
          { tokens_ := [] ++ Token.Program "echo".toList ::
              ([Token.string "hi".toList] ++
                Token.Operator Operator.OUT_REDIRECT :: Token.File "out.txt".toList :: []),
            cur_token_ := 0 },
        programs := [], fds := [], log := [] } []
      [Token.string "hi".toList] [] "echo".toList "out.txt".toList
      (by decide) (by decide) rfl (by decide)).1).trans (by decide)⟩

/-! ## C13 -/

/-- C13, what the code does: for every whitelisted command `C` with at most
eight arguments and `> F`, where `open` gives a descriptor other than the
standard output, the descriptor entered in `fds` is closed twice in the run:
once by the parent behind `wait` and once more by `CloseFDs`. -/
theorem C13_redirect_descriptor_is_closed_twice (os : OS) (k : Nat)
    (args : List Token) (C F : List Char)
    (hC : C ∈ set_of_programs)
    (hargs : ∀ t ∈ args, isOperator t = false) (hk : args.length ≤ 8)
    (hopen : os.open_ [] F [OFlag.O_CREAT, OFlag.O_WRONLY] ≠ -1)
    (hstd : os.open_ [] F [OFlag.O_CREAT, OFlag.O_WRONLY] ≠ stdout_fd) :
    runTokens os (2 + k)
        (Token.Program C ::
          (args ++ [Token.Operator Operator.OUT_REDIRECT, Token.File F])) =
      some { outcome := Outcome.returned
               (os.wait [Event.open_ F [OFlag.O_CREAT, OFlag.O_WRONLY]
                   (os.open_ [] F [OFlag.O_CREAT, OFlag.O_WRONLY])]
                 { commandKit C args with
                   out_descriptor := os.open_ [] F [OFlag.O_CREAT, OFlag.O_WRONLY] }),
             log := [Event.open_ F [OFlag.O_CREAT, OFlag.O_WRONLY]
                       (os.open_ [] F [OFlag.O_CREAT, OFlag.O_WRONLY]),
                     Event.spawn
                       { commandKit C args with
                         out_descriptor := os.open_ [] F [OFlag.O_CREAT, OFlag.O_WRONLY] }
                       (os.wait [Event.open_ F [OFlag.O_CREAT, OFlag.O_WRONLY]
                           (os.open_ [] F [OFlag.O_CREAT, OFlag.O_WRONLY])]
                         { commandKit C args with
                           out_descriptor :=
                             os.open_ [] F [OFlag.O_CREAT, OFlag.O_WRONLY] }),
                     Event.close (os.open_ [] F [OFlag.O_CREAT, OFlag.O_WRONLY]),
                     Event.status 0
                       (os.wait [Event.open_ F [OFlag.O_CREAT, OFlag.O_WRONLY]
                           (os.open_ [] F [OFlag.O_CREAT, OFlag.O_WRONLY])]
                         { commandKit C args with
                           out_descriptor :=
                             os.open_ [] F [OFlag.O_CREAT, OFlag.O_WRONLY] }),
                     Event.close (os.open_ [] F [OFlag.O_CREAT, OFlag.O_WRONLY])] } ∧
    (∀ w : Int, closeCount (os.open_ [] F [OFlag.O_CREAT, OFlag.O_WRONLY])
        [Event.open_ F [OFlag.O_CREAT, OFlag.O_WRONLY]
           (os.open_ [] F [OFlag.O_CREAT, OFlag.O_WRONLY]),
         Event.spawn
           { commandKit C args with
             out_descriptor := os.open_ [] F [OFlag.O_CREAT, OFlag.O_WRONLY] } w,
         Event.close (os.open_ [] F [OFlag.O_CREAT, OFlag.O_WRONLY]),
         Event.status 0 w,
         Event.close (os.open_ [] F [OFlag.O_CREAT, OFlag.O_WRONLY])] = 2) := by
  refine ⟨?_, fun w => by simp [closeCount]⟩
  apply runTokens_mono os 2 k
  have hb := buildLoop_out_redirect os 0
    { tokenizer :=
        { tokens_ := Token.Program C ::
            (args ++ [Token.Operator Operator.OUT_REDIRECT, Token.File F]),
          cur_token_ := 0 },
      programs := [], fds := [], log := [] } [] args [] C F hargs hk rfl hopen
  have hend : GetCurToken
      { tokens_ := [] ++ Token.Program C ::
          (args ++ [Token.Operator Operator.OUT_REDIRECT, Token.File F]),
        cur_token_ := ([] : List Token).length + 1 + args.length + 2 } = none := by
    have := getElem?_after_command [] args
      [Token.Operator Operator.OUT_REDIRECT, Token.File F] C 2
    simpa [GetCurToken] using this
  rw [buildLoop_end os 0 _ hend] at hb
  unfold runTokens
  rw [hb]
  simp only [List.nil_append, List.length_singleton]
  have hs := execLoop_last_spawn os
    [{ commandKit C args with
       out_descriptor := os.open_ [] F [OFlag.O_CREAT, OFlag.O_WRONLY] }]
    (fdsAssign [] F (os.open_ [] F [OFlag.O_CREAT, OFlag.O_WRONLY])) 0 0 0
    [Event.open_ F [OFlag.O_CREAT, OFlag.O_WRONLY]
      (os.open_ [] F [OFlag.O_CREAT, OFlag.O_WRONLY])]
    { commandKit C args with
      out_descriptor := os.open_ [] F [OFlag.O_CREAT, OFlag.O_WRONLY] } C
    rfl rfl rfl rfl hC rfl
  rw [hs]
  have hcs : closeStage
      { commandKit C args with
        out_descriptor := os.open_ [] F [OFlag.O_CREAT, OFlag.O_WRONLY] } =
      [Event.close (os.open_ [] F [OFlag.O_CREAT, OFlag.O_WRONLY])] := by
    unfold closeStage
    simp only [if_pos hstd]
    rfl
  rw [hcs]
  rfl

/-- C13 on `echo hi > out.txt`: descriptor 10 is closed twice. -/
theorem C13_redirect_descriptor_witness :
    ("echo".toList ∈ set_of_programs ∧
      (∀ t ∈ [Token.string "hi".toList], isOperator t = false) ∧
      [Token.string "hi".toList].length ≤ 8 ∧
      (freshOS 0).open_ [] "out.txt".toList [OFlag.O_CREAT, OFlag.O_WRONLY] ≠ -1 ∧
      (freshOS 0).open_ [] "out.txt".toList [OFlag.O_CREAT, OFlag.O_WRONLY] ≠ stdout_fd) ∧
    main (freshOS 0) 2 (argvOf "echo hi > out.txt") =
      some { outcome := Outcome.returned 0,
             log := [Event.open_ "out.txt".toList [OFlag.O_CREAT, OFlag.O_WRONLY] 10,
                     Event.spawn { commandKit "echo".toList [Token.string "hi".toList] with
                                   out_descriptor := 10 } 0,
                     Event.close 10, Event.status 0 0, Event.close 10] } ∧
    closeCount 10
        [Event.open_ "out.txt".toList [OFlag.O_CREAT, OFlag.O_WRONLY] 10,
         Event.spawn { commandKit "echo".toList [Token.string "hi".toList] with
                       out_descriptor := 10 } 0,
         Event.close 10, Event.status 0 0, Event.close 10] = 2 :=
  ⟨⟨by decide, by decide, by decide, by decide, by decide⟩,
    (C13_redirect_descriptor_is_closed_twice (freshOS 0) 0 [Token.string "hi".toList]
      "echo".toList "out.txt".toList (by decide) (by decide) (by decide) (by decide)
      (by decide)).1,
    by decide⟩

/-! ## C14 -/

theorem setArgument_out_of_bounds (boot_kit : BootKit) (v : ArgSlot) :
    setArgument boot_kit 10 v = Except.error (Abort.arguments_out_of_bounds 10) := rfl

/-- With the index at 10 the next store of the loop of `FormBootKit`, an
argument or the null terminator, is outside the array. -/
theorem formLoop_at_10 (l : List Token) (cur : Nat) (boot_kit : BootKit) :
    formLoop l cur boot_kit 10 = Except.error (Abort.arguments_out_of_bounds 10) := by
  cases l with
  | nil => rfl
  | cons t l =>
    cases t with
    | Operator op => rfl
    | Program name => rfl
    | File path => rfl
    | string arg => rfl
    | bool b => rfl

/-- The loop of `FormBootKit` stores a run of non-operator tokens as long as
the index stays below 10. -/
theorem formLoop_stored_run (args rest : List Token) :
    ∀ (cur idx : Nat) (boot_kit : BootKit), (∀ t ∈ args, isOperator t = false) →
      idx + args.length ≤ 10 →
      ∃ kit1, formLoop (args ++ rest) cur boot_kit idx =
        formLoop rest (cur + args.length) kit1 (idx + args.length) := by
  induction args with
  | nil => intro cur idx boot_kit _ _; exact ⟨boot_kit, rfl⟩
  | cons t args ih =>
    intro cur idx boot_kit hargs hidx
    have hlt : idx < 10 := by simp at hidx; omega
    have hstore : formStore boot_kit idx (tokenText t) =
        Except.ok { boot_kit with
          arguments := boot_kit.arguments.set idx (ArgSlot.str (CopyStr (tokenText t))) } := by
      unfold formStore setArgument
      rw [if_pos hlt]
    obtain ⟨kit1, h1⟩ := ih (cur + 1) (idx + 1)
      { boot_kit with
        arguments := boot_kit.arguments.set idx (ArgSlot.str (CopyStr (tokenText t))) }
      (fun t1 h1 => hargs t1 (List.mem_cons_of_mem _ h1)) (by simp at hidx ⊢; omega)
    refine ⟨kit1, ?_⟩
    rw [List.cons_append, formLoop_step t (args ++ rest) cur boot_kit idx
      (hargs t (by simp)), hstore]
    simp only []
    rw [h1]
    simp only [List.length_cons]
    have e1 : cur + 1 + args.length = cur + (args.length + 1) := by omega
    have e2 : idx + 1 + args.length = idx + (args.length + 1) := by omega
    rw [e1, e2]

/-- C14, what the code does: with the cursor on a `Program` token followed by
nine or more non-operator tokens, `FormBootKit` fills `arguments[0..9]` and
then stores at index 10, outside the array `char *arguments[10]`: the null
terminator when there are nine, an argument when there are more. The command
line `echo 1 2 3 4 5 6 7 8 9` ends there. -/
theorem C14_store_outside_arguments_array (pre args post : List Token) (p : List Char)
    (hargs : ∀ t ∈ args, isOperator t = false) (hn : 9 ≤ args.length) :
    FormBootKit { tokens_ := pre ++ Token.Program p :: (args ++ post),
                  cur_token_ := pre.length } =
      Except.error (Abort.arguments_out_of_bounds 10) ∧
    (∀ (os : OS) (k : Nat), main os (1 + k) (argvOf "echo 1 2 3 4 5 6 7 8 9") =
      some { outcome := Outcome.aborted (Abort.arguments_out_of_bounds 10), log := [] }) := by
  constructor
  · unfold FormBootKit
    simp only [drop_cursor]
    have h0 : setArgument { program_name := some (CopyStr p).chars } 0
          (ArgSlot.str (CopyStr p)) =
        Except.ok { program_name := some p,
                    arguments := ArgSlot.str (CopyStr p) ::
                      List.replicate 9 ArgSlot.uninit } := by
      rfl
    rw [h0]
    simp only []
    have hsplit : args ++ post = args.take 9 ++ (args.drop 9 ++ post) := by
      rw [← List.append_assoc, List.take_append_drop]
    have hlen : (args.take 9).length = 9 := by
      rw [List.length_take]; omega
    obtain ⟨kit1, h1⟩ := formLoop_stored_run (args.take 9) (args.drop 9 ++ post)
      (pre.length + 1) 1
      { program_name := some p,
        arguments := ArgSlot.str (CopyStr p) :: List.replicate 9 ArgSlot.uninit }
      (fun t ht => hargs t (List.mem_of_mem_take ht)) (by omega)
    rw [hsplit, h1, hlen, formLoop_at_10]
  · intro os k
    exact main_mono os 1 k _ _ rfl

/-- C14 on the tokens of `echo 1 2 3 4 5 6 7 8 9`. -/
theorem C14_store_outside_witness :
    ((∀ t ∈ ["1", "2", "3", "4", "5", "6", "7", "8", "9"].map
          (fun w => Token.string w.toList), isOperator t = false) ∧
      9 ≤ (["1", "2", "3", "4", "5", "6", "7", "8", "9"].map
          (fun w => Token.string w.toList)).length) ∧
    FormBootKit
        { tokens_ := [] ++ Token.Program "echo".toList ::
            (["1", "2", "3", "4", "5", "6", "7", "8", "9"].map
                (fun w => Token.string w.toList) ++ []),
          cur_token_ := 0 } =
      Except.error (Abort.arguments_out_of_bounds 10) :=
  ⟨⟨by decide, by decide⟩,
    (C14_store_outside_arguments_array []
      (["1", "2", "3", "4", "5", "6", "7", "8", "9"].map (fun w => Token.string w.toList))
      [] "echo".toList (by decide) (by decide)).1⟩

/-! ## C15 -/

/-- C15: for every input string `Tokenize` ends and returns a token sequence
(the model of the lexer has no failure); every iteration of its outer loop,
which runs on a stream that is not at its end, leaves fewer characters than
it found. An unterminated quote gives the text with the quote in front, a
trailing backslash gives the word with the stored `EOF` character behind. -/
theorem C15_Tokenize_always_returns (str : List Char) :
    (∃ tokens, Tokenize str = some tokens) ∧
    (∀ (tokens_ : List Token) (ch : Char) (is_ : List Char),
      (tokenizeBody tokens_ (ch :: is_)).2.length < (ch :: is_).length) ∧
    Tokenize "\"abc".toList = some [Token.string "\"abc".toList] ∧
    Tokenize "abc\\".toList = some [Token.string ("abc".toList ++ [eofChar])] :=
  ⟨tokenizeLoop_total str.length [] str (le_refl _),
    tokenizeBody_consumes, by decide, by decide⟩

/-! ## Helper lemmas: quoted literals -/

theorem quotedLoop_plain_run (s : List Char) :
    ∀ (token rest : List Char), '"' ∉ s → '\\' ∉ s → eofChar ∉ s →
      quotedLoop (s ++ rest) token = quotedLoop rest (token ++ s) := by
  induction s with
  | nil => intro token rest _ _ _; simp
  | cons c s ih =>
    intro token rest hq hb he
    have hcq : c ≠ '"' := fun h => hq (by simp [h])
    have hcb : c ≠ '\\' := fun h => hb (by simp [h])
    have hce : c ≠ eofChar := fun h => he (by simp [h])
    have hq1 : '"' ∉ s := fun h => hq (List.mem_cons_of_mem _ h)
    have hb1 : '\\' ∉ s := fun h => hb (List.mem_cons_of_mem _ h)
    have he1 : eofChar ∉ s := fun h => he (List.mem_cons_of_mem _ h)
    rw [List.cons_append, quotedLoop_cons]
    simp [hcq, hcb, hce, ih (token ++ [c]) rest hq1 hb1 he1]

/-- An iteration of the outer loop that starts on an opening quote whose
literal is closed. -/
theorem tokenizeBody_open_quote (tokens_ : List Token) (is_ tok rest : List Char)
    (h : quotedLoop is_ [] = (true, tok, rest)) :
    tokenizeBody tokens_ ('"' :: is_) = (tokens_ ++ [Token.string tok], rest) := by
  rw [tokenizeBody_eq, skipSpaces_nonspace _ _ isspace_quote, wordLoop_cons, h]
  simp [isspace_quote, AddToken]

/-- The lexing of an input that is one closed quoted literal. -/
theorem Tokenize_open_quote (is_ tok : List Char)
    (h : quotedLoop is_ [] = (true, tok, [])) :
    Tokenize ('"' :: is_) = some [Token.string tok] := by
  apply Tokenize_of_fuel 1
  rw [tokenizeLoop_step, tokenizeBody_open_quote [] is_ tok [] h]
  rfl

/-- A closed quoted literal without quote, backslash or `eofChar` inside is
lexed to the string token of its text. -/
theorem Tokenize_quoted (s : List Char) (hq : '"' ∉ s) (hb : '\\' ∉ s)
    (he : eofChar ∉ s) :
    Tokenize ('"' :: (s ++ ['"'])) = some [Token.string s] := by
  apply Tokenize_open_quote
  have := quotedLoop_closed s [] [] hq hb he
  simpa using this

/-! ## C16 -/

/-- C16, what the code does: inside a quoted literal the backslash is kept
and the character behind it is dropped, so the literal `s`, backslash, `c`,
`t` between quotes is lexed to the one string token `s`, backslash, `t`; that
is the claimed text only when `c` is itself a backslash. An escaped quote
does not close the literal. The texts `s` and `t` hold no quote, no
backslash and not the character `eofChar`, which the `char` comparison with
`EOF` takes for the end of the input; the dropped character `c` is any
character. -/
theorem C16_quoted_backslash_is_kept_and_next_dropped (s t : List Char) (c : Char)
    (hsq : '"' ∉ s) (hsb : '\\' ∉ s) (hse : eofChar ∉ s)
    (htq : '"' ∉ t) (htb : '\\' ∉ t) (hte : eofChar ∉ t) :
    Tokenize ('"' :: (s ++ '\\' :: c :: (t ++ ['"']))) =
      some [Token.string (s ++ '\\' :: t)] ∧
    (c ≠ '\\' → s ++ '\\' :: t ≠ s ++ c :: t) := by
  constructor
  · apply Tokenize_open_quote
    rw [quotedLoop_plain_run s [] _ hsq hsb hse, quotedLoop_cons]
    simp only [show ('\\' : Char) ≠ '"' by decide, show ('\\' : Char) ≠ eofChar by decide,
      if_false, if_true, List.tail_cons, List.nil_append]
    have := quotedLoop_closed t (s ++ ['\\']) [] htq htb hte
    simpa using this
  · intro hc h
    have := List.append_cancel_left h
    simp at this
    exact hc this.symm

/-- C16 on the literal `"a\bc"`: the token is `a\c`, not `abc`. -/
theorem C16_quoted_backslash_witness :
    ('"' ∉ "a".toList ∧ '\\' ∉ "a".toList ∧ eofChar ∉ "a".toList ∧
      '"' ∉ "c".toList ∧ '\\' ∉ "c".toList ∧ eofChar ∉ "c".toList) ∧
    Tokenize "\"a\\bc\"".toList = some [Token.string "a\\c".toList] ∧
    Tokenize "\"a\\bc\"".toList ≠ some [Token.string "abc".toList] :=
  ⟨⟨by decide, by decide, by decide, by decide, by decide, by decide⟩,
    (C16_quoted_backslash_is_kept_and_next_dropped "a".toList "c".toList 'b'
      (by decide) (by decide) (by decide) (by decide) (by decide) (by decide)).1,
    by decide⟩

/-! ## C17 -/

/-- A non-empty word becomes exactly one token. -/
theorem AddToken_single (tokens_ : List Token) (w : List Char) (hne : w ≠ []) :
    ∃ t, AddToken tokens_ w = tokens_ ++ [t] := by
  have hne1 : w.isEmpty = false := by
    cases w with
    | nil => exact absurd rfl hne
    | cons c w => rfl
  unfold AddToken
  simp only [hne1, Bool.false_eq_true, if_false]
  split
  · exact ⟨_, rfl⟩
  · split
    · exact ⟨_, rfl⟩
    · split
      · exact ⟨_, rfl⟩
      · split
        · exact ⟨_, rfl⟩
        · split
          · exact ⟨_, rfl⟩
          · exact ⟨_, rfl⟩

/-- C17: for words `u` and `v` of plain characters (no whitespace, quote,
backslash, `<` or `>`) and every character `c`, the input `u`, backslash,
`c`, `v` is lexed to exactly one token, the one `AddToken` makes of the word
`u c v`: the backslash is dropped and `c` is appended whatever it is. -/
theorem C17_backslash_outside_quotes_escapes (u v : List Char) (c : Char)
    (hu : ∀ d ∈ u, plain d = true) (hv : ∀ d ∈ v, plain d = true) :
    Tokenize (u ++ '\\' :: c :: v) = some (AddToken [] (u ++ c :: v)) ∧
    (∃ t, AddToken [] (u ++ c :: v) = [t]) ∧
    (∀ (tokens_ : List Token) (rest : List Char),
      wordLoop tokens_ [] (u ++ '\\' :: c :: (v ++ rest)) =
        wordLoop tokens_ (u ++ c :: v) rest) := by
  have hword : ∀ (tokens_ : List Token) (rest : List Char),
      wordLoop tokens_ [] (u ++ '\\' :: c :: (v ++ rest)) =
        wordLoop tokens_ (u ++ c :: v) rest := by
    intro tokens_ rest
    rw [wordLoop_plain u tokens_ [] _ hu, wordLoop_cons]
    simp only [show isspace '\\' = false by decide, Bool.false_eq_true, if_false, if_true,
      List.headD_cons, List.tail_cons, List.nil_append]
    rw [wordLoop_plain v tokens_ _ rest hv]
    simp
  refine ⟨?_, ?_, hword⟩
  · apply Tokenize_of_fuel 1
    have hskip : skipSpaces (u ++ '\\' :: c :: v) = u ++ '\\' :: c :: v := by
      cases u with
      | nil => exact skipSpaces_nonspace _ _ (by decide)
      | cons d u => exact skipSpaces_plain_word (d :: u) _ hu (by simp)
    have hw := hword [] []
    rw [List.append_nil] at hw
    have hne : u ++ '\\' :: c :: v ≠ [] := by simp
    rw [tokenizeLoop_step_of_ne_nil 0 [] _ hne, tokenizeBody_eq, hskip, hw]
    simp [wordLoop, tokenizeLoop]
  · have := AddToken_single [] (u ++ c :: v) (by simp)
    simpa using this

/-- C17 on `a`, backslash, blank, `b`: one string token `a b`. -/
theorem C17_backslash_outside_quotes_witness :
    ((∀ d ∈ "a".toList, plain d = true) ∧ (∀ d ∈ "b".toList, plain d = true)) ∧
    Tokenize "a\\ b".toList = some [Token.string "a b".toList] :=
  ⟨⟨by decide, by decide⟩,
    (C17_backslash_outside_quotes_escapes "a".toList "b".toList ' '
      (by decide) (by decide)).1.trans (by decide)⟩

/-! ## C18 -/

theorem ordinary_not_spelling (s : List Char) (hs : ∀ c ∈ s, ordinary c = true)
    (hne : s ≠ []) : s ∉ operator_map_.map Prod.fst := by
  cases s with
  | nil => exact absurd rfl hne
  | cons c s =>
    obtain ⟨hp, h1, h2⟩ := (ordinary_iff c).1 (hs c (by simp))
    obtain ⟨-, -, -, h3, h4⟩ := (plain_iff c).1 hp
    rw [operator_map_eq]
    simp only [List.map, List.mem_cons, List.mem_singleton, List.not_mem_nil, or_false,
      List.cons.injEq, not_or, not_and]
    exact ⟨fun h => absurd h h2, fun h => absurd h h1, fun h => absurd h h3,
      fun h => absurd h h4, fun h => absurd h h1⟩

/-- C18, the claim fails: the quoted `echo` and the quoted `out.txt` are
lexed to string tokens, the bare words to a `Program` and a `File` token. -/
theorem C18_quoted_text_is_not_classified :
    Tokenize "\"echo\"".toList = some [Token.string "echo".toList] ∧
    Tokenize "echo".toList = some [Token.Program "echo".toList] ∧
    Tokenize "\"echo\"".toList ≠ Tokenize "echo".toList ∧
    Tokenize "\"out.txt\"".toList = some [Token.string "out.txt".toList] ∧
    Tokenize "out.txt".toList = some [Token.File "out.txt".toList] ∧
    Tokenize "\"out.txt\"".toList ≠ Tokenize "out.txt".toList := by
  decide

/-- C18 as amended: for every word `s` of ordinary characters that holds
no character `eofChar` (byte 255, which the quoted-literal loop takes for the
end of the input) the closed quoted literal `"s"` is lexed to the single
string token `s`, whatever the bare word is lexed to; the bare word is lexed
to what `AddToken` makes of it, and the two results are the same exactly when
`AddToken` makes `s` a string argument: `s` is not empty, not whitelisted,
not a stem followed by `.txt` and not `true` or `false`. -/
theorem C18_quoted_text_is_always_a_string (s : List Char)
    (hs : ∀ c ∈ s, ordinary c = true) (he : eofChar ∉ s) :
    Tokenize ('"' :: (s ++ ['"'])) = some [Token.string s] ∧
    Tokenize s = some (AddToken [] s) ∧
    (Tokenize ('"' :: (s ++ ['"'])) = Tokenize s ↔ AddToken [] s = [Token.string s]) ∧
    (AddToken [] s = [Token.string s] ↔
      s ≠ [] ∧ s ∉ set_of_programs ∧
        (¬ ∃ stem, stem ≠ [] ∧ s = stem ++ ".txt".toList) ∧
        s ≠ "true".toList ∧ s ≠ "false".toList) := by
  have hplain : ∀ c ∈ s, plain c = true := fun c hc => ordinary_plain (hs c hc)
  have hq : '"' ∉ s := fun h =>
    absurd ((plain_iff '"').1 (hplain '"' h)).2.2.1 (by decide)
  have hb : '\\' ∉ s := fun h =>
    absurd ((plain_iff '\\').1 (hplain '\\' h)).2.1 (by decide)
  have h1 := Tokenize_quoted s hq hb he
  have h2 := Tokenize_plain_word s hplain
  refine ⟨h1, h2, ?_, ?_⟩
  · rw [h1, h2]
    constructor
    · intro h
      exact (Option.some.inj h).symm
    · intro h
      rw [h]
  · by_cases hne : s = []
    · subst hne
      constructor
      · intro h
        simp [AddToken] at h
      · intro h
        exact absurd rfl h.1
    · rw [AddToken_classify [] s hne (ordinary_not_spelling s hs hne)]
      constructor
      · intro h
        split at h
        · simp at h
        · split at h
          · simp at h
          · split at h
            · simp at h
            · split at h
              · simp at h
              · rename_i hwl hfile ht hf
                exact ⟨hne, hwl, fun x => hfile ((file_test_iff s).2 x), ht, hf⟩
      · rintro ⟨-, hwl, hfile, ht, hf⟩
        rw [if_neg hwl, if_neg (fun x => hfile ((file_test_iff s).1 x)), if_neg ht,
          if_neg hf]
        rfl

/-- C18 as amended, at the word `echo`. -/
theorem C18_quoted_text_witness :
    ((∀ c ∈ "echo".toList, ordinary c = true) ∧ eofChar ∉ "echo".toList) ∧
    Tokenize "\"echo\"".toList = some [Token.string "echo".toList] :=
  ⟨⟨by decide, by decide⟩,
    (C18_quoted_text_is_always_a_string "echo".toList (by decide) (by decide)).1⟩

/-! ## C19 -/

theorem all_append_one (P : Token → Prop) (tokens_ : List Token) (t : Token)
    (hall : ∀ x ∈ tokens_, P x) (ht : P t) : ∀ x ∈ tokens_ ++ [t], P x := by
  intro x hx
  rw [List.mem_append, List.mem_singleton] at hx
  rcases hx with h | h
  · exact hall x h
  · rw [h]; exact ht

/-- The method `AddToken` adds no token with an empty text. -/
theorem AddToken_textNonempty (strict : Bool) (tokens_ : List Token) (w : List Char)
    (hall : ∀ t ∈ tokens_, textNonempty strict t) :
    ∀ t ∈ AddToken tokens_ w, textNonempty strict t := by
  by_cases hne : w = []
  · rw [hne, AddToken_nil]; exact hall
  · have hne1 : w.isEmpty = false := by
      cases w with
      | nil => exact absurd rfl hne
      | cons c w => rfl
    unfold AddToken
    simp only [hne1, Bool.false_eq_true, if_false]
    split
    · exact all_append_one _ _ _ hall trivial
    · split
      · exact all_append_one _ _ _ hall hne
      · split
        · exact all_append_one _ _ _ hall hne
        · split
          · exact all_append_one _ _ _ hall trivial
          · split
            · exact all_append_one _ _ _ hall trivial
            · exact all_append_one _ _ _ hall (fun _ => hne)

theorem adjacentQuotes_cons (c : Char) (rest : List Char)
    (h : adjacentQuotes (c :: rest) = false) : adjacentQuotes rest = false := by
  simp only [adjacentQuotes, Bool.or_eq_false_iff] at h
  exact h.2

theorem adjacentQuotes_tail (l : List Char) (h : adjacentQuotes l = false) :
    adjacentQuotes l.tail = false := by
  cases l with
  | nil => exact h
  | cons c rest => exact adjacentQuotes_cons c rest h

theorem adjacentQuotes_head (rest : List Char)
    (h : adjacentQuotes ('"' :: rest) = false) : rest.head? ≠ some '"' := by
  simp only [adjacentQuotes, Bool.or_eq_false_iff, Bool.and_eq_false_imp] at h
  intro hh
  have := h.1 (by decide)
  rw [hh] at this
  simp at this

/-- The quoted-literal loop leaves a stream without adjacent quotes when it
starts on one. -/
theorem quotedLoop_adjacentQuotes (n : Nat) :
    ∀ (is_ token : List Char), is_.length ≤ n → adjacentQuotes is_ = false →
      adjacentQuotes (quotedLoop is_ token).2.2 = false := by
  induction n with
  | zero =>
    intro is_ token h _
    have : is_ = [] := List.length_eq_zero.1 (Nat.le_zero.1 h)
    subst this
    rfl
  | succ n ih =>
    intro is_ token h hadj
    cases is_ with
    | nil => rfl
    | cons ch is_ =>
      have hlen : is_.length ≤ n := by simpa using h
      have htail : is_.tail.length ≤ is_.length := by simp
      have h1 := adjacentQuotes_cons ch is_ hadj
      rw [quotedLoop_cons]
      split
      · exact h1
      · split
        · exact h1
        · split
          · exact ih is_.tail _ (le_trans htail hlen) (adjacentQuotes_tail is_ h1)
          · exact ih is_ _ hlen h1

/-- The quoted-literal loop only adds to the text. -/
theorem quotedLoop_token_ne_nil (n : Nat) :
    ∀ (is_ token : List Char), is_.length ≤ n → token ≠ [] →
      (quotedLoop is_ token).2.1 ≠ [] := by
  induction n with
  | zero =>
    intro is_ token h hne
    have : is_ = [] := List.length_eq_zero.1 (Nat.le_zero.1 h)
    subst this
    exact hne
  | succ n ih =>
    intro is_ token h hne
    cases is_ with
    | nil => exact hne
    | cons ch is_ =>
      have hlen : is_.length ≤ n := by simpa using h
      have htail : is_.tail.length ≤ is_.length := by simp
      rw [quotedLoop_cons]
      split
      · exact hne
      · split
        · exact hne
        · split
          · exact ih is_.tail _ (le_trans htail hlen) (by simp)
          · exact ih is_ _ hlen (by simp)

/-- A quoted literal that is closed and does not start with the closing
quote has a text that is not empty. -/
theorem quotedLoop_closed_ne_nil (is_ : List Char) (hhead : is_.head? ≠ some '"')
    (hclosed : (quotedLoop is_ []).1 = true) : (quotedLoop is_ []).2.1 ≠ [] := by
  cases is_ with
  | nil => simp [quotedLoop] at hclosed
  | cons ch is_ =>
    have hch : ch ≠ '"' := fun h => hhead (by simp [h])
    have htail : is_.tail.length ≤ is_.length := by simp
    rw [quotedLoop_cons] at hclosed ⊢
    simp only [hch, if_false] at hclosed ⊢
    by_cases he : ch = eofChar
    · rw [if_pos he] at hclosed
      simp at hclosed
    · rw [if_neg he]
      split
      · exact quotedLoop_token_ne_nil is_.tail.length is_.tail _ (le_refl _) (by simp)
      · exact quotedLoop_token_ne_nil is_.length is_ _ (le_refl _) (by simp)

/-- The word loop adds no `Program` or `File` token with an empty text, and
no string token with an empty text when the stream holds no two adjacent
double quotes; in that case the stream it leaves holds none either. -/
theorem wordLoop_textNonempty (strict : Bool) (n : Nat) :
    ∀ (tokens_ : List Token) (token is_ : List Char), is_.length ≤ n →
      (∀ t ∈ tokens_, textNonempty strict t) →
      (strict = true → adjacentQuotes is_ = false) →
      (∀ t ∈ (wordLoop tokens_ token is_).1, textNonempty strict t) ∧
        (strict = true → adjacentQuotes (wordLoop tokens_ token is_).2.2 = false) := by
  induction n with
  | zero =>
    intro tokens_ token is_ h hall hq
    have : is_ = [] := List.length_eq_zero.1 (Nat.le_zero.1 h)
    subst this
    exact ⟨by simpa [wordLoop] using hall, fun _ => rfl⟩
  | succ n ih =>
    intro tokens_ token is_ h hall hq
    cases is_ with
    | nil => exact ⟨by simpa [wordLoop] using hall, fun _ => rfl⟩
    | cons ch is_ =>
      have hlen : is_.length ≤ n := by simpa using h
      have htail : is_.tail.length ≤ is_.length := by simp
      have hq1 : strict = true → adjacentQuotes is_ = false := fun hs =>
        adjacentQuotes_cons ch is_ (hq hs)
      have hq2 : strict = true → adjacentQuotes is_.tail = false := fun hs =>
        adjacentQuotes_tail is_ (hq1 hs)
      have hrest : strict = true → adjacentQuotes (quotedLoop is_ token).2.2 = false :=
        fun hs => quotedLoop_adjacentQuotes is_.length is_ token (le_refl _) (hq1 hs)
      rw [wordLoop_cons]
      split
      · exact ⟨hall, hq⟩
      · split
        · exact ih tokens_ _ is_.tail (le_trans htail hlen) hall hq2
        · split
          · rename_i hquote
            have htok : token = [] := by
              cases token with
              | nil => rfl
              | cons c token => simp at hquote
            subst htok
            split
            · rename_i hclosed
              refine ⟨all_append_one _ _ _ hall (fun hs => ?_), hrest⟩
              have hadj := hq hs
              rw [hquote.1] at hadj
              exact quotedLoop_closed_ne_nil is_ (adjacentQuotes_head is_ hadj) hclosed
            · exact ⟨AddToken_textNonempty strict tokens_
                ('"' :: (quotedLoop is_ []).2.1) hall, hrest⟩
          · split
            · exact ⟨AddToken_textNonempty strict (AddToken tokens_ token) [ch]
                (AddToken_textNonempty strict tokens_ token hall), hq1⟩
            · exact ih tokens_ _ is_ hlen hall hq1

theorem skipSpaces_adjacentQuotes (is_ : List Char) (h : adjacentQuotes is_ = false) :
    adjacentQuotes (skipSpaces is_) = false := by
  induction is_ with
  | nil => exact h
  | cons ch is_ ih =>
    simp only [skipSpaces]
    split
    · exact ih (adjacentQuotes_cons ch is_ h)
    · exact h

theorem tokenizeBody_textNonempty (strict : Bool) (tokens_ : List Token)
    (is_ : List Char) (hall : ∀ t ∈ tokens_, textNonempty strict t)
    (hq : strict = true → adjacentQuotes is_ = false) :
    (∀ t ∈ (tokenizeBody tokens_ is_).1, textNonempty strict t) ∧
      (strict = true → adjacentQuotes (tokenizeBody tokens_ is_).2 = false) := by
  have hq1 : strict = true → adjacentQuotes (skipSpaces is_) = false := fun hs =>
    skipSpaces_adjacentQuotes is_ (hq hs)
  have h := wordLoop_textNonempty strict (skipSpaces is_).length tokens_ []
    (skipSpaces is_) (le_refl _) hall hq1
  rw [tokenizeBody_eq]
  exact ⟨AddToken_textNonempty strict _ _ h.1, h.2⟩

theorem tokenizeLoop_textNonempty (strict : Bool) (fuel : Nat) :
    ∀ (tokens_ : List Token) (is_ : List Char) (r : List Token),
      tokenizeLoop fuel tokens_ is_ = some r →
      (∀ t ∈ tokens_, textNonempty strict t) →
      (strict = true → adjacentQuotes is_ = false) →
      ∀ t ∈ r, textNonempty strict t := by
  induction fuel with
  | zero =>
    intro tokens_ is_ r h hall hq
    cases is_ with
    | nil =>
      rw [tokenizeLoop_nil] at h
      cases h
      exact hall
    | cons ch is_ => simp [tokenizeLoop] at h
  | succ fuel ih =>
    intro tokens_ is_ r h hall hq
    cases is_ with
    | nil =>
      rw [tokenizeLoop_nil] at h
      cases h
      exact hall
    | cons ch is_ =>
      rw [tokenizeLoop_step] at h
      have hb := tokenizeBody_textNonempty strict tokens_ (ch :: is_) hall hq
      exact ih _ _ r h hb.1 hb.2

/-- C19, the claim fails: the input `""`, an empty closed quoted literal, is
lexed to one string token with the empty text. -/
theorem C19_empty_quoted_literal_gives_empty_token :
    Tokenize "\"\"".toList = some [Token.string []] ∧
    Tokenize "echo \"\" x".toList =
      some [Token.Program "echo".toList, Token.string [], Token.string "x".toList] := by
  decide

/-- C19 as amended: for every input string `Tokenize` returns tokens among
which no `Program` and no `File` token has an empty text, and a string token
has an empty text only when two double quotes stand side by side in the
input (an empty quoted literal): without them no token has an empty text. -/
theorem C19_empty_text_only_from_empty_quotes (str : List Char) :
    ∃ tokens, Tokenize str = some tokens ∧
      (∀ t ∈ tokens, textNonempty false t) ∧
      (adjacentQuotes str = false → ∀ t ∈ tokens, textNonempty true t) := by
  obtain ⟨tokens, h⟩ := tokenizeLoop_total str.length [] str (le_refl _)
  refine ⟨tokens, h, ?_, ?_⟩
  · exact tokenizeLoop_textNonempty false str.length [] str tokens h
      (fun t ht => absurd ht (List.not_mem_nil t)) (fun hs => absurd hs (by decide))
  · intro hq
    exact tokenizeLoop_textNonempty true str.length [] str tokens h
      (fun t ht => absurd ht (List.not_mem_nil t)) (fun _ => hq)

/-- C19 as amended, at the input `echo "a b"  a.txt`, in which no two quotes
stand side by side. -/
theorem C19_empty_text_witness :
    adjacentQuotes "echo \"a b\"  a.txt".toList = false ∧
    ∃ tokens, Tokenize "echo \"a b\"  a.txt".toList = some tokens ∧
      ∀ t ∈ tokens, textNonempty true t := by
  obtain ⟨tokens, h, -, h2⟩ :=
    C19_empty_text_only_from_empty_quotes "echo \"a b\"  a.txt".toList
  exact ⟨by decide, tokens, h, h2 (by decide)⟩

/-! ## C20 -/

/-- C20, what the code does: when the current token of the build loop is a
`File` token, no branch of the loop body takes it: the iteration neither
moves the cursor nor aborts nor returns, the locals stay as they are, and
the loop does not end within any number of iterations. The command line
`out.txt` is such an input. -/
theorem C20_file_token_never_advances (os : OS) (st : Shell) (path : List Char)
    (hcur : GetCurToken st.tokenizer = some (Token.File path)) :
    (∀ fuel : Nat, buildBody os fuel st (Token.File path) = some (Built.ready st)) ∧
    (∀ fuel : Nat, buildLoop os fuel st = none) ∧
    Tokenize "out.txt".toList = some [Token.File "out.txt".toList] ∧
    (∀ (os1 : OS) (fuel : Nat), main os1 fuel (argvOf "out.txt") = none) := by
  refine ⟨fun _ => rfl, buildLoop_file_token os st path hcur, by decide, ?_⟩
  intro os1 fuel
  have hm : main os1 fuel (argvOf "out.txt") =
      runTokens os1 fuel [Token.File "out.txt".toList] := rfl
  rw [hm]
  unfold runTokens
  rw [buildLoop_file_token os1
    { tokenizer := { tokens_ := [Token.File "out.txt".toList], cur_token_ := 0 },
      programs := [], fds := [], log := [] } "out.txt".toList rfl fuel]

/-- C20 on the tokens of `out.txt`. -/
theorem C20_file_token_witness :
    GetCurToken { tokens_ := [Token.File "out.txt".toList], cur_token_ := 0 } =
        some (Token.File "out.txt".toList) ∧
    ∀ fuel : Nat, buildLoop (fixedOS 0) fuel
        { tokenizer := { tokens_ := [Token.File "out.txt".toList], cur_token_ := 0 },
          programs := [], fds := [], log := [] } = none :=
  ⟨rfl,
    (C20_file_token_never_advances (fixedOS 0)
      { tokenizer := { tokens_ := [Token.File "out.txt".toList], cur_token_ := 0 },
        programs := [], fds := [], log := [] } "out.txt".toList rfl).2.1⟩

end LavaSH
